import Mathlib

/-!
# Verification development for the provisioning engine (backend package)

Shallow embedding of `backend/requestTracker.go`, `backend/bootenv.go` and
`backend/task.go`.  Go maps are association lists (first entry for a key wins),
Go pointers to model objects are the object values themselves, panics are an
explicit `panic` field of the outcome.
-/

set_option autoImplicit false

namespace Provision

/-! ## Data model -/

/-- Parameter values (`interface{}` in the source).  A value sealed for a public
key is kept symbolically: the key it was sealed to and the clear value. -/
inductive Val where
  | null : Val
  | str (s : String) : Val
  | num (n : Nat) : Val
  | sealed (pub : Nat) (clear : Val) : Val
deriving DecidableEq, Repr

/-- Go type `models.ArchInfo`. -/
structure ArchInfo where
  Kernel : String := ""
  Initrds : List String := []
  BootParams : String := ""
  IsoFile : String := ""
  Sha256 : String := ""
  IsoUrl : String := ""
deriving DecidableEq, Repr

/-- Go type `models.OsInfo`. -/
structure OsInfo where
  Name : String := ""
  IsoFile : String := ""
  IsoSha256 : String := ""
  IsoUrl : String := ""
  SupportedArchitectures : List (String × ArchInfo) := []
deriving DecidableEq, Repr

/-- Go type `backend.Repo` (the fields read by the boot environment code). -/
structure Repo where
  Tag : String := ""
  URL : String := ""
  BootLoc : String := ""
  OS : List String := []
  Arch : String := ""
  InstallSource : Bool := false
deriving DecidableEq, Repr

/-- A closure stored in `pathLookasides`, as the variables it captures by
value when `fillInstallRepos` builds it: the arch of the repo, the arch of the
boot environment it stands for, the ArchInfo of that arch, the path of the arch
and the file root.  The boot environment itself is captured by reference. -/
structure Lookaside where
  arch : String
  realArch : String
  archInfo : ArchInfo
  pf : String
  fileRoot : String
deriving DecidableEq, Repr

/-- Go type `models.TemplateInfo` (the fields read by the code under study). -/
structure TemplateInfo where
  Name : String := ""
  Path : String := ""
deriving DecidableEq, Repr

/-- A renderer, known by the path it serves. -/
structure Renderer where
  path : String
deriving DecidableEq, Repr

/-- Go type `backend.BootEnv`: the fields of `models.BootEnv` read by the code
under study (with those of the embedded `models.Validation`), followed by the
derived fields of the wrapper. -/
structure BootEnv where
  Name : String := ""
  OS : OsInfo := {}
  OnlyUnknown : Bool := false
  Kernel : String := ""
  Initrds : List String := []
  BootParams : String := ""
  Templates : List TemplateInfo := []
  RequiredParams : List String := []
  Meta : List (String × String) := []
  Validated : Bool := false
  Available : Bool := false
  Errors : List String := []
  realArches : List (String × ArchInfo) := []
  installRepos : List (String × Repo) := []
  pathLookasides : List (String × Lookaside) := []
  kernelVerified : Bool := false
  renderers : List Renderer := []
deriving DecidableEq, Repr

/-- Go type `backend.Machine` (key: the UUID). -/
structure Machine where
  Uuid : String := ""
  Name : String := ""
  BootEnv : String := ""
  Stage : String := ""
  Profiles : List String := []
  Tasks : List String := []
  Params : List (String × Val) := []
deriving DecidableEq, Repr

/-- Go type `backend.Stage`; the last three fields are those of the embedded
`models.Validation`. -/
structure Stage where
  Name : String := ""
  BootEnv : String := ""
  Profiles : List String := []
  Tasks : List String := []
  Params : List (String × Val) := []
  Validated : Bool := false
  Available : Bool := false
  Errors : List String := []
deriving DecidableEq, Repr

/-- Go type `backend.Task`. -/
structure Task where
  Name : String := ""
deriving DecidableEq, Repr

/-- Go type `backend.Profile`. -/
structure Profile where
  Name : String := ""
  Params : List (String × Val) := []
deriving DecidableEq, Repr

/-- Go type `backend.Param`: a parameter definition. -/
structure Param where
  Name : String := ""
  Secure : Bool := false
  Default : Option Val := none
deriving DecidableEq, Repr

/-- The model kinds handled by the code under study; `other` stands for every
other kind of object (a prefix and a key). -/
inductive Body where
  | bootenv (b : BootEnv) : Body
  | machine (m : Machine) : Body
  | stage (s : Stage) : Body
  | task (t : Task) : Body
  | profile (p : Profile) : Body
  | param (p : Param) : Body
  | other (pfx key : String) (content : Nat) : Body
deriving DecidableEq, Repr

/-- A backend object: the model value and the fields of the embedded `validate`
struct.  `rt` is true when the object's RequestTracker reference is not nil. -/
structure Obj where
  body : Body
  rt : Bool := false
  forceChange : Bool := false
deriving DecidableEq, Repr

/-- Method `Prefix()` of a model. -/
def Obj.Prefix (o : Obj) : String :=
  match o.body with
  | .bootenv _ => "bootenvs"
  | .machine _ => "machines"
  | .stage _ => "stages"
  | .task _ => "tasks"
  | .profile _ => "profiles"
  | .param _ => "params"
  | .other p _ _ => p

/-- Method `Key()` of a model. -/
def Obj.Key (o : Obj) : String :=
  match o.body with
  | .bootenv b => b.Name
  | .machine m => m.Uuid
  | .stage s => s.Name
  | .task t => t.Name
  | .profile p => p.Name
  | .param p => p.Name
  | .other _ k _ => k

/-- Method `setRT` of the `validator` interface. -/
def Obj.setRT (o : Obj) : Obj := { o with rt := true }

/-- Method `clearRT` of the `validator` interface. -/
def Obj.clearRT (o : Obj) : Obj := { o with rt := false }

/-- Go type `models.Error`. -/
structure Error where
  Model : String := ""
  Key : String := ""
  Typ : String := ""
  Messages : List String := []
  Code : Nat := 0
deriving DecidableEq, Repr

/-- Modelled from the spec: `models.Error.Errorf` (models/errors.go is not
among the sources) accumulates one formatted message on the error. -/
def Error.Errorf (e : Error) (msg : String) : Error :=
  { e with Messages := e.Messages ++ [msg] }

/-- Modelled from the spec: `models.Error.HasError` (models/errors.go is not
among the sources) is nil when no message was accumulated and the error itself
otherwise. -/
def Error.HasError (e : Error) : Option Error :=
  if e.Messages.isEmpty then none else some e

/-- The value `StillInUseError` of the backend package. -/
def StillInUseError : String := "StillInUseError"

/-- An event handed to the publishers. -/
structure Event where
  pfx : String := ""
  action : String := ""
  key : String := ""
  principal : String := ""
  object : Option Obj := none
deriving DecidableEq, Repr

/-! ## RequestTracker: post-commit queue, `Do`, `unlocker` -/

/-- Body of a Go closure that uses the RequestTracker: a sequence of calls.
`mark n` is an observable effect labelled `n`; `RunAfter` and `Publish` are the
calls `rt.RunAfter` and `rt.Publish`; `PublishEvent e` allocates the event `e`
and calls `rt.PublishEvent` with the pointer to it; `setEvent p e` is the
assignment `*p = e` through the pointer `p`.  Each is followed by the rest of
the body.  A pointer to an event is the address of the event, the number of
events allocated before it. -/
inductive Thunk where
  | ret : Thunk
  | mark (n : Nat) (k : Thunk) : Thunk
  | RunAfter (t : Thunk) (k : Thunk) : Thunk
  | Publish (pfx action key : String) (ref : Option Obj) (k : Thunk) : Thunk
  | PublishEvent (e : Event) (k : Thunk) : Thunk
  | setEvent (p : Nat) (e : Event) (k : Thunk) : Thunk
deriving DecidableEq, Repr

/-- An entry of `toRunAfter`: a thunk registered through `RunAfter`, or one of
the two closures built by `Publish` and `PublishEvent`.  The closure of
`Publish` captures the value `toSend`, the closure of `PublishEvent` the
pointer `e` it was called with. -/
inductive Queued where
  | thunk (t : Thunk) : Queued
  | publish (pfx action key : String) (toSend : Option Obj) : Queued
  | publishEvent (e : Nat) : Queued
deriving DecidableEq, Repr

/-- What an execution does, in order; every entry records the locks the
RequestTracker held at that moment. -/
inductive Obs where
  | acquired (held : List String) : Obs
  | released : Obs
  | ran (n : Nat) (held : List String) : Obs
  | called (q : Queued) (held : List String) : Obs
  | delivered (e : Event) (held : List String) : Obs
deriving DecidableEq, Repr

/-- One store of the DataTracker: the objects of one prefix, in index order. -/
abbrev Store := List Obj

/-- Go type `RequestTracker`, with the part of the DataTracker it reaches:
`d` is `none` outside `Do` and otherwise the prefixes whose stores are locked,
`objs` are the stores of the DataTracker, `held` the locks taken by `lockEnts`
and not yet released, `publishers` whether `dt.publishers` is not nil, `secrets`
the secrets store (name to private key), `rand` the keys the random source
yields next and `heap` the events allocated so far, each at its address. -/
structure RequestTracker where
  locks : List String := []
  d : Option (List String) := none
  toRunAfter : List Queued := []
  principal : String := ""
  publishers : Bool := true
  objs : List (String × Store) := []
  prefs : List (String × String) := []
  GlobalProfileName : String := "global"
  FileRoot : String := ""
  secrets : List (String × Nat) := []
  rand : List Nat := []
  held : List String := []
  log : List Obs := []
  heap : List Event := []
deriving DecidableEq, Repr

/-- Result of a call that may panic: the state reached and the panic, if any. -/
structure Outcome where
  rt : RequestTracker
  panic : Option String := none
deriving DecidableEq, Repr

deriving instance DecidableEq for Except

/-- Lexicographic order on the characters of two strings. -/
def strLe : List Char → List Char → Bool
  | [], _ => true
  | _ :: _, [] => false
  | a :: as, b :: bs => if a.toNat < b.toNat then true else if b.toNat < a.toNat then false else strLe as bs

/-- Insertion of a lock name into a sorted list without duplicates. -/
def insertLock (s : String) : List String → List String
  | [] => [s]
  | t :: ts => if s = t then t :: ts else if strLe s.data t.data then s :: t :: ts else t :: insertLock s ts

/-- Modelled from the spec: the lock manager of the DataTracker (not among the
sources) takes a named set of prefix locks in a canonical order, sorted and
deduplicated. -/
def canonicalLocks (locks : List String) : List String :=
  locks.foldr insertLock []

/-- Modelled from the spec: `DataTracker.lockEnts` (not among the sources)
acquires the declared locks and hands back the stores handle. -/
def lockEnts (rt : RequestTracker) : RequestTracker :=
  { rt with
    held := canonicalLocks rt.locks
    d := some (canonicalLocks rt.locks)
    log := rt.log ++ [Obs.acquired (canonicalLocks rt.locks)] }

/-- Modelled from the spec: the fan-out of the publishers (not among the
sources) delivers the event to the subscribers at once. -/
def deliver (rt : RequestTracker) (e : Event) : RequestTracker :=
  { rt with log := rt.log ++ [Obs.delivered e rt.held] }

/-- Source function `RequestTracker.runAfter`. -/
def runAfter (rt : RequestTracker) (thunk : Queued) : Outcome :=
  if rt.d.isNone then
    { rt := rt, panic := some "Cannot runAfter a function outside Do()" }
  else
    { rt := { rt with toRunAfter := rt.toRunAfter ++ [thunk] } }

/-- Source function `RequestTracker.RunAfter`. -/
def RunAfter (rt : RequestTracker) (thunk : Thunk) : Outcome :=
  runAfter rt (Queued.thunk thunk)

/-- Source function `RequestTracker.PublishEvent`; `e` is the pointer to the
event.  The assignment `e.Principal = rt.Principal()` writes through the
pointer and panics when no event is allocated at it; the queued closure keeps
the pointer. -/
def PublishEvent (rt : RequestTracker) (e : Nat) : Outcome :=
  if !rt.publishers then { rt := rt }
  else
    match rt.heap[e]? with
    | none => { rt := rt, panic := some "nil pointer dereference" }
    | some ev =>
      let rt1 := { rt with heap := rt.heap.set e { ev with principal := rt.principal } }
      if rt.d.isNone then { rt := deliver rt1 { ev with principal := rt.principal } }
      else runAfter rt1 (Queued.publishEvent e)

/-- Source function `RequestTracker.Publish`.  `ref` is a model or nil; inside
`Do` the closure captures `toSend`, the clone of the model, a value of its
own. -/
def Publish (rt : RequestTracker) (pfx action key : String) (ref : Option Obj) : Outcome :=
  if !rt.publishers then { rt := rt }
  else if rt.d.isNone then
    { rt := deliver rt { pfx := pfx, action := action, key := key, principal := rt.principal, object := ref } }
  else runAfter rt (Queued.publish pfx action key ref)

/-- Execution of a closure body against the RequestTracker. -/
def runThunk : Thunk → RequestTracker → Outcome
  | .ret, rt => { rt := rt }
  | .mark n k, rt => runThunk k { rt with log := rt.log ++ [Obs.ran n rt.held] }
  | .RunAfter t k, rt =>
    let o := RunAfter rt t
    if o.panic.isSome then o else runThunk k o.rt
  | .Publish p a key ref k, rt =>
    let o := Publish rt p a key ref
    if o.panic.isSome then o else runThunk k o.rt
  | .PublishEvent e k, rt =>
    let o := PublishEvent { rt with heap := rt.heap ++ [e] } rt.heap.length
    if o.panic.isSome then o else runThunk k o.rt
  | .setEvent p e k, rt =>
    if p < rt.heap.length then runThunk k { rt with heap := rt.heap.set p e }
    else { rt := rt, panic := some "nil pointer dereference" }

/-- Call of one entry of `toRunAfter`.  The closure of `PublishEvent` hands
the publishers the event its pointer leads to when it is called. -/
def runQueued (q : Queued) (rt : RequestTracker) : Outcome :=
  let rt1 := { rt with log := rt.log ++ [Obs.called q rt.held] }
  match q with
  | .thunk t => runThunk t rt1
  | .publish p a key toSend =>
    { rt := deliver rt1 { pfx := p, action := a, key := key, principal := rt1.principal, object := toSend } }
  | .publishEvent e =>
    match rt1.heap[e]? with
    | none => { rt := rt1, panic := some "nil pointer dereference" }
    | some ev => { rt := deliver rt1 ev }

/-- The loop `for _, f := range rt.toRunAfter { f() }`: the slice is read once,
when the loop starts. -/
def drain : List Queued → RequestTracker → Outcome
  | [], rt => { rt := rt }
  | q :: qs, rt =>
    let o := runQueued q rt
    if o.panic.isSome then o else drain qs o.rt

/-- Source function `RequestTracker.unlocker`; the argument `u` is the release
function handed out by `lockEnts`. -/
def unlocker (rt : RequestTracker) : Outcome :=
  let o := drain rt.toRunAfter rt
  if o.panic.isSome then o
  else
    { rt := { o.rt with
              held := []
              log := o.rt.log ++ [Obs.released]
              d := none
              toRunAfter := [] } }

/-- Source function `RequestTracker.Do`.  The deferred `unlocker` also runs when
the thunk panics. -/
def Do (rt : RequestTracker) (thunk : Thunk) : Outcome :=
  if rt.d.isSome then
    { rt := rt, panic := some "Recursive lock of request tracker!" }
  else
    let o := runThunk thunk (lockEnts rt)
    let o2 := unlocker o.rt
    { rt := o2.rt, panic := if o2.panic.isSome then o2.panic else o.panic }

/-! ## Stores and the CRUD operations of the RequestTracker -/

/-- Modelled from the spec: `Store.Find` (the Store type is not among the
sources) looks an object up by key. -/
def Store.Find (s : Store) (key : String) : Option Obj :=
  s.find? (fun o => decide (o.Key = key))

/-- Modelled from the spec: `Store.Remove` (not among the sources) takes the
object with that key out of the Index. -/
def Store.Remove (s : Store) (key : String) : Store :=
  s.filter (fun o => !decide (o.Key = key))

/-- Insertion of an object at its place in key order. -/
def Store.insertSorted (o : Obj) : Store → Store
  | [] => [o]
  | x :: xs => if strLe o.Key.data x.Key.data then o :: x :: xs else x :: Store.insertSorted o xs

/-- Modelled from the spec: `Store.Add` (not among the sources) puts the object
into the Index, in place of the object that had its key. -/
def Store.Add (s : Store) (o : Obj) : Store :=
  Store.insertSorted o (Store.Remove s o.Key)

/-- Write through a pointer to the object found under a key: the first object
with that key is replaced. -/
def Store.setFirst (key : String) (o : Obj) : Store → Store
  | [] => []
  | x :: xs => if x.Key = key then o :: xs else x :: Store.setFirst key o xs

/-- Store of a prefix in the DataTracker (empty when none was registered). -/
def getStore (objs : List (String × Store)) (pfx : String) : Store :=
  (objs.lookup pfx).getD []

/-- Replacement of the store of a prefix in the DataTracker. -/
def setStore : List (String × Store) → String → Store → List (String × Store)
  | [], pfx, s => [(pfx, s)]
  | (p, t) :: rest, pfx, s => if p = pfx then (p, s) :: rest else (p, t) :: setStore rest pfx s

/-- Source function `RequestTracker.stores`: the call `rt.d(s)`, nil for a
prefix that is not locked. -/
def stores (rt : RequestTracker) (s : String) : Option Store :=
  match rt.d with
  | none => none
  | some locked => if s ∈ locked then some (getStore rt.objs s) else none

/-- Outcome of a call into the store library (`store.Create`, `store.Update`,
`store.Save`, `store.Remove`): whether the write happened, the error, the
object as the hooks left it, and the thunks the hooks registered through
`RunAfter` (as `Task.Validate` does).  The hooks that run before the write do
not write the stores. -/
structure StoreResult where
  saved : Bool
  err : Option Error := none
  obj : Obj
  queued : List Thunk := []
  panic : Option String := none
deriving DecidableEq, Repr

/-- Outcome of `patch.Apply` on the JSON of an object. -/
inductive PatchResult where
  | ok (resBuf : String) : PatchResult
  | failed (patchErr : String) (loc : Nat) : PatchResult
deriving DecidableEq, Repr

/-- Code that is not among the sources, as parameters: the `Fill` and
`ClearValidation` methods of the models, `Stage.Validate` (it reads the tracker
and writes the stage it is called on), the store library with the hooks of
the models behind it, JSON and JSON patch, `utils.Remarshal` into a list of
repos (`none` when it fails), the unique indexes of each prefix, the arch table
of the models package and the file system (`stat` is `none` when `os.Stat`
fails and otherwise tells whether the file is regular; `isNotExist` is
`os.IsNotExist` of the error of `os.Stat`; `readFile` is the content of a file,
`none` when the file cannot be opened or read).  Further: the SHA-256 digest of
a content in lower-case hexadecimal, the parse of a template text (the error,
if any), the messages that `models.BootEnv.Validate`, `index.CheckUnique` and
`models.MergeTemplates` record, and the renderers with the errors that the
render data (`newRenderData` and its methods) yields without and with a
machine. -/
structure Env where
  Fill : Obj → Obj
  ClearValidation : Obj → Obj
  stageValidate : RequestTracker → Obj → Obj
  decodeRepos : Val → Option (List Repo)
  readFile : String → Option String
  isNotExist : String → Bool
  sha256hex : String → String
  parseTemplate : String → Option String
  modelValidate : BootEnv → List String
  checkUnique : Obj → List Obj → List String
  mergeTemplates : List TemplateInfo → List String
  makeRenderers : RequestTracker → BootEnv → List Renderer × List String
  renderFor : RequestTracker → BootEnv → Machine → List Renderer × List String
  storeCreate : RequestTracker → Obj → StoreResult
  storeUpdate : RequestTracker → Obj → StoreResult
  storeSave : RequestTracker → Obj → StoreResult
  rawRemove : RequestTracker → Obj → Option Error
  hookBeforeDelete : RequestTracker → Obj → Option Error
  marshal : Obj → String
  patchApply : List String → String → PatchResult
  unmarshal : String → Obj → Except String Obj
  uniqueIndex : String → String → Option (Obj → String)
  SupportedArch : String → String × Bool
  ArchEqual : String → String → Bool
  stat : String → Option Bool
  reportPath : String → String

/-- Result of a CRUD call: the state, the two results of the Go function (for
`Patch` the model returned), the panic if the call panicked, and the outcome of
the call into the store library when the operation made one. -/
structure CrudResult where
  rt : RequestTracker
  saved : Bool := false
  err : Option Error := none
  model : Option Obj := none
  panic : Option String := none
  call : Option StoreResult := none
deriving DecidableEq, Repr

/-- The components `spkibrt` explodes a model into. -/
structure Parts where
  pfx : String
  key : String
  idx : Store
  ref : Obj
  target : Option Obj
deriving DecidableEq, Repr

/-- Source function `RequestTracker.spkibrt`. -/
def spkibrt (rt : RequestTracker) (obj : Obj) : Except String Parts :=
  if rt.d.isNone then .error "RequestTracker used outside of Do"
  else
    match stores rt obj.Prefix with
    | none => .error "nil pointer dereference"
    | some idx =>
      .ok { pfx := obj.Prefix, key := obj.Key, idx := idx, ref := obj, target := idx.Find obj.Key }

/-- Registration of the thunks that the hooks of a store call queued. -/
def queueHooks (rt : RequestTracker) (ts : List Thunk) : RequestTracker :=
  { rt with toRunAfter := rt.toRunAfter ++ ts.map Queued.thunk }

/-- The tail shared by the write paths: `idx.Add(ref)` and `rt.Publish`. -/
def addAndPublish (rt : RequestTracker) (x : Parts) (action key : String) (ref : Obj) : Outcome :=
  Publish { rt with objs := setStore rt.objs x.pfx (Store.Add x.idx ref) } x.pfx action key (some ref)

/-- Source function `RequestTracker.Create`. -/
def Create (env : Env) (rt : RequestTracker) (obj : Obj) : CrudResult :=
  match spkibrt rt (env.Fill obj) with
  | .error p => { rt := rt, panic := some p }
  | .ok x =>
    if x.key = "" then
      { rt := rt
        err := some { Typ := "CREATE", Model := x.pfx, Messages := ["Empty key not allowed"], Code := 400 } }
    else if x.target.isSome then
      { rt := rt
        err := some { Typ := "CREATE", Model := x.pfx, Key := x.key, Messages := ["already exists"], Code := 409 } }
    else
      let r := env.storeCreate rt (env.ClearValidation x.ref.setRT)
      let rt1 := queueHooks rt r.queued
      if r.panic.isSome then { rt := rt1, panic := r.panic, call := some r }
      else if r.saved then
        let o := addAndPublish rt1 x "create" x.key r.obj.clearRT
        { rt := o.rt, saved := true, err := r.err, panic := o.panic, call := some r }
      else { rt := rt1, saved := false, err := r.err, call := some r }


/-- Modelled from the spec: `DataTracker.pref` (not among the sources) is the
current value of a preference, the empty string when it is not set. -/
def pref (rt : RequestTracker) (name : String) : String :=
  (rt.prefs.lookup name).getD ""

/-- Source function `AsMachine`: the type assertion panics on another kind. -/
def AsMachine (o : Obj) : Except String Machine :=
  match o.body with
  | .machine m => .ok m
  | _ => .error "interface conversion: not a *Machine"

/-- Source function `AsStage`: the type assertion panics on another kind. -/
def AsStage (o : Obj) : Except String Stage :=
  match o.body with
  | .stage s => .ok s
  | _ => .error "interface conversion: not a *Stage"

/-- The loop over `machines.Items()` of `BootEnv.BeforeDelete`. -/
def bootEnvMachines (b : BootEnv) : List Obj → Error → Except String Error
  | [], e => .ok e
  | i :: rest, e =>
    match AsMachine i with
    | .error p => .error p
    | .ok machine =>
      if machine.BootEnv ≠ b.Name then bootEnvMachines b rest e
      else bootEnvMachines b rest
        (e.Errorf ("Bootenv " ++ b.Name ++ " in use by Machine " ++ machine.Name))

/-- The loop over `stages.Items()` of `BootEnv.BeforeDelete`. -/
def bootEnvStages (b : BootEnv) : List Obj → Error → Except String Error
  | [], e => .ok e
  | i :: rest, e =>
    match AsStage i with
    | .error p => .error p
    | .ok stage =>
      if stage.BootEnv ≠ b.Name then bootEnvStages b rest e
      else bootEnvStages b rest
        (e.Errorf ("Bootenv " ++ b.Name ++ " in use by Stage " ++ stage.Name))

/-- Source function `BootEnv.BeforeDelete`; `rt` is the tracker `b.rt`. -/
def BootEnv.BeforeDelete (rt : RequestTracker) (b : BootEnv) : Except String (Option Error) :=
  let e : Error := { Code := 409, Typ := StillInUseError, Model := "bootenvs", Key := b.Name }
  let prefToFind := if b.OnlyUnknown then "unknownBootEnv" else "defaultBootEnv"
  let e1 :=
    if pref rt prefToFind = b.Name then
      e.Errorf ("BootEnv " ++ b.Name ++ " is the active " ++ prefToFind ++ ", cannot remove it")
    else e
  if !b.OnlyUnknown then
    match stores rt "machines", stores rt "stages" with
    | some machines, some stages =>
      match bootEnvMachines b machines e1 with
      | .error p => .error p
      | .ok e2 =>
        match bootEnvStages b stages e2 with
        | .error p => .error p
        | .ok e3 => .ok e3.HasError
    | _, _ => .error "nil pointer dereference"
  else .ok e1.HasError

/-- Modelled from the spec: `HasTask` of Machine and Stage (models package, not
among the sources) tells whether the object references the task by name.  The
type assertion to `taskHaver` panics on any other kind. -/
def HasTask (o : Obj) (name : String) : Except String Bool :=
  match o.body with
  | .machine m => .ok (decide (name ∈ m.Tasks))
  | .stage s => .ok (decide (name ∈ s.Tasks))
  | _ => .error "interface conversion: not a taskHaver"

/-- The inner loop of `Task.BeforeDelete` over the items of one store. -/
def taskUsers (t : Task) : List Obj → Error → Except String Error
  | [], e => .ok e
  | j :: rest, e =>
    match HasTask j t.Name with
    | .error p => .error p
    | .ok true =>
      taskUsers t rest (e.Errorf (j.Prefix ++ ":" ++ j.Key ++ " still uses " ++ t.Name))
    | .ok false => taskUsers t rest e

/-- The outer loop of `Task.BeforeDelete` over the prefixes. -/
def taskPrefixes (rt : RequestTracker) (t : Task) : List String → Error → Except String Error
  | [], e => .ok e
  | objPrefix :: rest, e =>
    match stores rt objPrefix with
    | none => .error "nil pointer dereference"
    | some items =>
      match taskUsers t items e with
      | .error p => .error p
      | .ok e1 => taskPrefixes rt t rest e1

/-- Source function `Task.BeforeDelete`; `rt` is the tracker `t.rt`. -/
def Task.BeforeDelete (rt : RequestTracker) (t : Task) : Except String (Option Error) :=
  let e : Error := { Code := 409, Typ := StillInUseError, Model := "tasks", Key := t.Name }
  match taskPrefixes rt t ["machines", "stages"] e with
  | .error p => .error p
  | .ok e1 => .ok e1.HasError

/-- The `BeforeDelete` hook of an object: the source functions for BootEnv and
Task, the parameter for the other kinds. -/
def BeforeDelete (env : Env) (rt : RequestTracker) (item : Obj) : Except String (Option Error) :=
  match item.body with
  | .bootenv b => BootEnv.BeforeDelete rt b
  | .task t => Task.BeforeDelete rt t
  | _ => .ok (env.hookBeforeDelete rt item)

/-- Modelled from the spec: `store.Remove` of the store library (not among the
sources) runs the `BeforeDelete` hook of the object, gives up with the hook's
error when it has one, and otherwise deletes the key from the backing store. -/
def storeRemove (env : Env) (rt : RequestTracker) (item : Obj) : StoreResult :=
  match BeforeDelete env rt item with
  | .error p => { saved := false, obj := item, panic := some p }
  | .ok (some e) => { saved := false, err := some e, obj := item }
  | .ok none =>
    match env.rawRemove rt item with
    | some e => { saved := false, err := some e, obj := item }
    | none => { saved := true, obj := item }

/-- Source function `RequestTracker.Remove`.  `setRT` is called on the object
found in the store. -/
def Remove (env : Env) (rt : RequestTracker) (obj : Obj) : CrudResult :=
  match spkibrt rt obj with
  | .error p => { rt := rt, panic := some p }
  | .ok x =>
    match x.target with
    | none =>
      { rt := rt
        err := some { Typ := "DELETE", Code := 404, Key := x.key, Model := x.pfx, Messages := ["Not Found"] } }
    | some item =>
      let rt0 := { rt with objs := setStore rt.objs x.pfx (Store.setFirst x.key item.setRT x.idx) }
      let r := storeRemove env rt0 item.setRT
      let rt1 := queueHooks rt0 r.queued
      if r.panic.isSome then { rt := rt1, panic := r.panic, call := some r }
      else if r.saved then
        let rt2 := { rt1 with objs := setStore rt1.objs x.pfx (Store.Remove x.idx x.key) }
        let o := Publish rt2 x.pfx "delete" x.key (some item.setRT)
        { rt := o.rt, saved := true, err := r.err, panic := o.panic, call := some r }
      else { rt := rt1, saved := false, err := r.err, call := some r }

/-- Source function `RequestTracker.Update`. -/
def Update (env : Env) (rt : RequestTracker) (obj : Obj) : CrudResult :=
  match spkibrt rt obj with
  | .error p => { rt := rt, panic := some p }
  | .ok x =>
    match x.target with
    | none =>
      { rt := rt
        err := some { Typ := "PUT", Code := 404, Key := x.key, Model := x.pfx, Messages := ["Not Found"] } }
    | some _ =>
      let r := env.storeUpdate rt (env.ClearValidation (env.Fill x.ref).setRT)
      let rt1 := queueHooks rt r.queued
      if r.panic.isSome then { rt := rt1, panic := r.panic, call := some r }
      else if r.saved then
        let o := addAndPublish rt1 x "update" x.key r.obj.clearRT
        { rt := o.rt, saved := true, err := r.err, panic := o.panic, call := some r }
      else { rt := rt1, saved := false, err := r.err, call := some r }

/-- Source function `RequestTracker.Save`. -/
def Save (env : Env) (rt : RequestTracker) (obj : Obj) : CrudResult :=
  match spkibrt rt obj with
  | .error p => { rt := rt, panic := some p }
  | .ok x =>
    let r := env.storeSave rt (env.ClearValidation (env.Fill x.ref).setRT)
    let rt1 := queueHooks rt r.queued
    if r.panic.isSome then { rt := rt1, panic := r.panic, call := some r }
    else if r.saved then
      let o := addAndPublish rt1 x "save" x.key r.obj.clearRT
      { rt := o.rt, saved := true, err := r.err, panic := o.panic, call := some r }
    else { rt := rt1, saved := false, err := r.err, call := some r }

/-- Empty model value of the kind of a given object (`&models.X{}`). -/
def Body.empty : Body → Body
  | .bootenv _ => .bootenv {}
  | .machine _ => .machine {}
  | .stage _ => .stage {}
  | .task _ => .task {}
  | .profile _ => .profile {}
  | .param _ => .param {}
  | .other p _ _ => .other p "" 0

/-- Method `New` of the backend models (here `BootEnv.New`, `Task.New`,
`Pref.New`): an empty object that inherits the forced-change flag and the
RequestTracker reference. -/
def Obj.New (o : Obj) : Obj :=
  { body := o.body.empty, rt := o.rt, forceChange := o.forceChange }

/-- Source function `RequestTracker.Patch`.  An operation of the patch is kept
as its JSON text, so `json.Marshal(patch[loc])` is the entry itself; the index
expression `patch[loc]` panics when `loc` is out of range. -/
def Patch (env : Env) (rt : RequestTracker) (obj : Obj) (key : String) (patch : List String) :
    CrudResult :=
  match spkibrt rt obj with
  | .error p => { rt := rt, panic := some p }
  | .ok x =>
    match x.idx.Find key with
    | none =>
      { rt := rt
        err := some { Typ := "PATCH", Code := 404, Key := key, Model := x.pfx, Messages := ["Not Found"] } }
    | some target =>
      match env.patchApply patch (env.marshal target) with
      | .failed patchErr loc =>
        let err : Error := { Code := 409, Key := key, Model := x.pfx, Typ := "PATCH" }
        let err1 := err.Errorf ("Patch error at line " ++ toString loc ++ ": " ++ patchErr)
        match patch[loc]? with
        | none => { rt := rt, panic := some "index out of range" }
        | some line => { rt := rt, err := some (err1.Errorf ("Patch line: " ++ line)) }
      | .ok resBuf =>
        match env.unmarshal resBuf target.New with
        | .error msg =>
          let retErr : Error := { Code := 406, Key := key, Model := x.pfx, Typ := "PATCH" }
          { rt := rt, err := some (retErr.Errorf msg) }
        | .ok toSave =>
          let toSave1 := env.ClearValidation (env.Fill toSave).setRT
          let toSave2 := if obj.forceChange then { toSave1 with forceChange := true } else toSave1
          let r := env.storeUpdate rt toSave2
          let rt1 := queueHooks rt r.queued
          if r.panic.isSome then { rt := rt1, panic := r.panic, call := some r }
          else if r.saved then
            let o := addAndPublish rt1 x "update" key r.obj.clearRT
            { rt := o.rt, saved := true, err := r.err, model := some r.obj.clearRT, panic := o.panic
              call := some r }
          else { rt := rt1, saved := false, err := r.err, model := some r.obj.clearRT, call := some r }


/-! ## Parameter resolution -/

/-- Go map assignment `m[k] = v` on an association list. -/
def mapSet {α : Type} (k : String) (v : α) : List (String × α) → List (String × α)
  | [] => [(k, v)]
  | (k1, v1) :: rest => if k1 = k then (k, v) :: rest else (k1, v1) :: mapSet k v rest

/-- The call `strings.SplitN(key, ":", 2)` when it yields two parts. -/
def splitColon : List Char → Option (List Char × List Char)
  | [] => none
  | c :: cs =>
    if c = ':' then some ([], cs)
    else
      match splitColon cs with
      | none => none
      | some (a, b) => some (c :: a, b)

/-- Source function `RequestTracker.find`. -/
def find (env : Env) (rt : RequestTracker) (pfx key : String) : Except String (Option Obj) :=
  match stores rt pfx with
  | none => .error ("Missing requested lock for " ++ pfx)
  | some s =>
    match splitColon key.data with
    | some (i, k) =>
      match env.uniqueIndex pfx (String.mk i) with
      | some proj => .ok (s.find? (fun o => decide (proj o = String.mk k)))
      | none => .ok (s.Find key)
    | none => .ok (s.Find key)

/-- Source function `RequestTracker.Find`: a clone of the object found. -/
def Find (env : Env) (rt : RequestTracker) (pfx key : String) : Except String (Option Obj) :=
  match find env rt pfx key with
  | .error p => .error p
  | .ok res => .ok (res.map Obj.clearRT)

/-- Method `GetParams` of the `models.Paramer` interface. -/
def Obj.GetParams (o : Obj) : List (String × Val) :=
  match o.body with
  | .machine m => m.Params
  | .stage s => s.Params
  | .profile p => p.Params
  | _ => []

/-- The loops `for _, pn := range profiles` of `getAggParams`: the profiles
that exist, in the order of their names. -/
def findProfiles (env : Env) (rt : RequestTracker) : List String → Except String (List Obj)
  | [] => .ok []
  | pn :: rest =>
    match Find env rt "profiles" pn with
    | .error p => .error p
    | .ok found =>
      match findProfiles env rt rest with
      | .error p => .error p
      | .ok l => .ok (found.toList ++ l)

/-- The list `subObjs` built by `getAggParams`. -/
def subObjs (env : Env) (rt : RequestTracker) (obj : Obj) : Except String (List Obj) :=
  let (profiles, stage) :=
    match obj.body with
    | .machine m => (m.Profiles, m.Stage)
    | _ => ([], "")
  match findProfiles env rt profiles with
  | .error p => .error p
  | .ok own =>
    let fromStage : Except String (List Obj) :=
      if stage ≠ "" then
        match Find env rt "stages" stage with
        | .error p => .error p
        | .ok none => .ok []
        | .ok (some sobj) =>
          match AsStage sobj with
          | .error p => .error p
          | .ok s => findProfiles env rt s.Profiles
      else .ok []
    match fromStage with
    | .error p => .error p
    | .ok staged =>
      match Find env rt "profiles" rt.GlobalProfileName with
      | .error p => .error p
      | .ok g => .ok (own ++ staged ++ g.toList)

/-- Parameters and their sources, as `getAggParams` builds them. -/
structure Agg where
  params : List (String × Val)
  sources : List (String × Obj)
deriving DecidableEq, Repr

/-- The inner loop `for k, v := range sub.GetParams()` of `getAggParams`. -/
def mergeSub (sub : Obj) : List (String × Val) → Agg → Agg
  | [], acc => acc
  | (k, v) :: rest, acc =>
    if (acc.params.lookup k).isSome then mergeSub sub rest acc
    else mergeSub sub rest { params := mapSet k v acc.params, sources := mapSet k sub acc.sources }

/-- The outer loop `for _, sub := range subObjs` of `getAggParams`. -/
def mergeSubs : List Obj → Agg → Agg
  | [], acc => acc
  | sub :: rest, acc => mergeSubs rest (mergeSub sub sub.GetParams acc)

/-- The loop `for k := range params { sources[k] = obj }`. -/
def ownSources (obj : Obj) : List (String × Val) → List (String × Obj) → List (String × Obj)
  | [], acc => acc
  | (k, _) :: rest, acc => ownSources obj rest (mapSet k obj acc)

/-- Source function `RequestTracker.getAggParams`; the map `params` it fills
is returned with the sources. -/
def getAggParams (env : Env) (rt : RequestTracker) (obj : Obj) (params : List (String × Val))
    (aggregate : Bool) : Except String Agg :=
  let sources := ownSources obj params []
  if !aggregate then .ok { params := params, sources := sources }
  else
    match subObjs env rt obj with
    | .error p => .error p
    | .ok subs => .ok (mergeSubs subs { params := params, sources := sources })

/-- Modelled from the spec: the public key of a private key (scalar-base
multiplication on Curve25519, not among the sources), kept symbolic. -/
def pubOf (priv : Nat) : Nat := priv + 1

/-- Modelled from the spec: `SecureData.Unmarshal` (models package, not among
the sources) opens a value sealed for the public key of the private key given
and fails on anything else. -/
def openSealed (priv : Nat) : Val → Option Val
  | .sealed pub clear => if pub = pubOf priv then some clear else none
  | _ => none

/-- Result of a key lookup: the state of the secrets store afterwards, the key
or the error. -/
structure KeyResult where
  rt : RequestTracker
  key : Option Nat := none
  err : Option String := none
deriving DecidableEq, Repr

/-- Name of the secret of an object: `m.Prefix()+"-"+m.Key()`. -/
def secretName (m : Obj) : String := m.Prefix ++ "-" ++ m.Key

/-- Source function `RequestTracker.rotateKeyFor`. -/
def rotateKeyFor (rt : RequestTracker) (m : Obj) : KeyResult :=
  match rt.rand with
  | [] => { rt := rt, err := some "GenerateKey failed" }
  | k :: ks =>
    { rt := { rt with rand := ks, secrets := mapSet (secretName m) k rt.secrets }, key := some k }

/-- Source function `RequestTracker.PrivateKeyFor`. -/
def PrivateKeyFor (rt : RequestTracker) (m : Obj) : KeyResult :=
  match rt.secrets.lookup (secretName m) with
  | some res => { rt := rt, key := some res }
  | none => rotateKeyFor rt m

/-- Source function `RequestTracker.PublicKeyFor`. -/
def PublicKeyFor (rt : RequestTracker) (m : Obj) : KeyResult :=
  let r := PrivateKeyFor rt m
  match r.key with
  | some privateKey => if r.err.isSome then { r with key := none } else { r with key := some (pubOf privateKey) }
  | none => r

/-- Source function `AsParam`: the type assertion panics on another kind. -/
def AsParam (o : Obj) : Except String Param :=
  match o.body with
  | .param p => .ok p
  | _ => .error "interface conversion: not a *Param"

/-- Result of a parameter lookup: the value, whether it was found, the state
afterwards and the panic if the call panicked. -/
structure ParamResult where
  val : Val := Val.null
  ok : Bool := false
  rt : RequestTracker
  panic : Option String := none
deriving DecidableEq, Repr

/-- Source function `RequestTracker.decryptParam`. -/
def decryptParam (env : Env) (rt : RequestTracker) (obj : Option Obj) (name : String)
    (val : Val) (decrypt : Bool) : ParamResult :=
  if !decrypt then { val := val, rt := rt }
  else
    match find env rt "params" name with
    | .error p => { rt := rt, panic := some p }
    | .ok none => { val := val, rt := rt }
    | .ok (some pobj) =>
      match AsParam pobj with
      | .error p => { rt := rt, panic := some p }
      | .ok param =>
        if !param.Secure then { val := val, rt := rt }
        else
          match obj with
          | none => { rt := rt, panic := some "nil pointer dereference" }
          | some src =>
            let r := PrivateKeyFor rt src
            match r.err, r.key with
            | some e, _ => { rt := r.rt, panic := some e }
            | none, none => { val := val, rt := r.rt }
            | none, some pk =>
              match openSealed pk val with
              | none => { val := val, rt := r.rt }
              | some ret => { val := ret, rt := r.rt }

/-- Result of `GetParams`: the map, the state afterwards, the panic if any. -/
structure ParamsResult where
  params : List (String × Val) := []
  rt : RequestTracker
  panic : Option String := none
deriving DecidableEq, Repr

/-- The loop `for k, src := range sources` of `GetParams`. -/
def decryptAll (env : Env) : List (String × Obj) → ParamsResult → ParamsResult
  | [], acc => acc
  | (k, src) :: rest, acc =>
    if acc.panic.isSome then acc
    else
      let r := decryptParam env acc.rt (some src) k ((acc.params.lookup k).getD Val.null) true
      if r.panic.isSome then { acc with rt := r.rt, panic := r.panic }
      else decryptAll env rest { params := mapSet k r.val acc.params, rt := r.rt }

/-- Source function `RequestTracker.GetParams`. -/
def GetParams (env : Env) (rt : RequestTracker) (obj : Obj) (aggregate decrypt : Bool) :
    ParamsResult :=
  match getAggParams env rt obj obj.GetParams aggregate with
  | .error p => { rt := rt, panic := some p }
  | .ok agg =>
    if decrypt then decryptAll env agg.sources { params := agg.params, rt := rt }
    else { params := agg.params, rt := rt }

/-- Modelled from the spec: `Param.DefaultValue` (models package, not among the
sources) is the default value the definition declares, if it declares one. -/
def Param.DefaultValue (p : Param) : Val × Bool :=
  match p.Default with
  | some v => (v, true)
  | none => (Val.null, false)

/-- Source function `RequestTracker.GetParam`. -/
def GetParam (env : Env) (rt : RequestTracker) (obj : Obj) (key : String)
    (aggregate decrypt : Bool) : ParamResult :=
  match getAggParams env rt obj obj.GetParams aggregate with
  | .error p => { rt := rt, panic := some p }
  | .ok agg =>
    match agg.params.lookup key with
    | some v => { decryptParam env rt (agg.sources.lookup key) key v decrypt with ok := true }
    | none =>
      if aggregate then
        match Find env rt "params" key with
        | .error p => { rt := rt, panic := some p }
        | .ok none => { rt := rt }
        | .ok (some pobj) =>
          match AsParam pobj with
          | .error p => { rt := rt, panic := some p }
          | .ok param => { val := param.DefaultValue.1, ok := param.DefaultValue.2, rt := rt }
      else { rt := rt }


/-! ## Paths and boot environments -/

/-- The elements of a path: `strings.Split(p, "/")` on the characters. -/
def splitSlash : List Char → List (List Char)
  | [] => [[]]
  | c :: cs =>
    if c = '/' then [] :: splitSlash cs
    else
      match splitSlash cs with
      | [] => [[c]]
      | s :: ss => (c :: s) :: ss

/-- The elements of a path put together again: `strings.Join(elems, "/")`. -/
def joinSlash : List (List Char) → List Char
  | [] => []
  | [s] => s
  | s :: t :: rest => s ++ '/' :: joinSlash (t :: rest)

/-- The element `..`. -/
def dotdot : List Char := ['.', '.']

/-- One element of the path seen by `path.Clean`; the elements kept so far are
a stack, last element first.  Empty elements and `.` are dropped, `..` takes
the element before it away, is dropped at the root and is kept at the start of
a path that is not rooted. -/
def cleanStep (rooted : Bool) (stack : List (List Char)) (seg : List Char) : List (List Char) :=
  if seg = [] ∨ seg = ['.'] then stack
  else if seg = dotdot then
    match stack with
    | [] => if rooted then [] else [seg]
    | top :: rest => if top = dotdot then (if rooted then stack else seg :: stack) else rest
  else seg :: stack

/-- The elements `path.Clean` keeps, last element first. -/
def cleanStack (rooted : Bool) (segs : List (List Char)) : List (List Char) :=
  segs.foldl (cleanStep rooted) []

/-- Go library function `path.Clean`, on the characters of the path. -/
def cleanChars (p : List Char) : List Char :=
  if p = [] then ['.']
  else if p.head? = some '/' then '/' :: joinSlash (cleanStack true (splitSlash p)).reverse
  else if cleanStack false (splitSlash p) = [] then ['.']
  else joinSlash (cleanStack false (splitSlash p)).reverse

/-- Go library function `path.Join`, on the characters: the elements from the
first one that is not empty on are joined with slashes and cleaned. -/
def joinChars (elems : List (List Char)) : List Char :=
  match elems.dropWhile (fun e => decide (e = [])) with
  | [] => []
  | e :: es => cleanChars (joinSlash (e :: es))

/-- Go library function `path.Clean`. -/
def pathClean (p : String) : String := String.mk (cleanChars p.data)

/-- Go library function `path.Join`. -/
def pathJoin (elems : List String) : String := String.mk (joinChars (elems.map String.data))

/-- Go library function `strings.HasSuffix`. -/
def HasSuffix (s suffix : String) : Bool := suffix.data.isSuffixOf s.data

/-- Source function `BootEnv.NetBoot`. -/
def BootEnv.NetBoot (b : BootEnv) : Bool :=
  b.OnlyUnknown || decide (b.realArches.length > 0)

/-- Source function `BootEnv.ArchFor`: the first key of `realArches` that the
arch equals (the keys are visited in the order of the list). -/
def BootEnv.ArchFor (env : Env) (b : BootEnv) (arch : String) : String :=
  match b.realArches.find? (fun kv => env.ArchEqual arch kv.1) with
  | some kv => kv.1
  | none => ""

/-- Source function `BootEnv.PathFor`. -/
def BootEnv.PathFor (env : Env) (b : BootEnv) (f arch : String) : Except String String :=
  let ourArch := b.ArchFor env arch
  if ourArch = "" then .error ("Unknown arch " ++ arch)
  else
    let res := b.OS.Name
    let res1 := if (env.SupportedArch ourArch).1 ≠ "amd64" then pathJoin [res, ourArch] else res
    let res2 := if HasSuffix b.Name "-install" then pathJoin [res1, "install"] else res1
    .ok (pathClean (pathJoin ["/", res2, f]))

/-- Source function `BootEnv.localPathFor`. -/
def BootEnv.localPathFor (env : Env) (rt : RequestTracker) (b : BootEnv) (f arch : String) :
    Except String String :=
  match b.PathFor env f arch with
  | .error p => .error p
  | .ok p => .ok (pathJoin [rt.FileRoot, p])

/-- The two checks made on a file by `canLocalBoot`: `os.Stat` must succeed and
the mode must be regular. -/
def checkFile (env : Env) (b : BootEnv) (what name path arch : String) (ret : Error) : Error :=
  match env.stat path with
  | none =>
    ret.Errorf ("bootenv: " ++ b.Name ++ ": missing " ++ what ++ " " ++ name ++ " (" ++
      env.reportPath path ++ ") for arch " ++ arch)
  | some false =>
    ret.Errorf ("bootenv: " ++ b.Name ++ ": invalid " ++ what ++ " " ++ name ++ " (" ++
      env.reportPath path ++ ") for arch " ++ arch)
  | some true => ret

/-- The loop `for _, initrd := range b.Initrds` of `canLocalBoot`. -/
def checkInitrds (env : Env) (rt : RequestTracker) (b : BootEnv) (arch : String) :
    List String → Error → Except String Error
  | [], ret => .ok ret
  | initrd :: rest, ret =>
    match b.localPathFor env rt initrd arch with
    | .error p => .error p
    | .ok iPath => checkInitrds env rt b arch rest (checkFile env b "initrd" initrd iPath arch ret)

/-- Source function `BootEnv.canLocalBoot`. -/
def BootEnv.canLocalBoot (env : Env) (rt : RequestTracker) (b : BootEnv) (arch : String) :
    Except String (Option Error) :=
  if !b.NetBoot then .ok none
  else
    let ret : Error := { Code := 406, Typ := "bootenv", Key := b.Name }
    let ourArch := b.ArchFor env arch
    if ourArch = "" then .ok (some (ret.Errorf ("Cannot handle arch " ++ arch)))
    else
      let archInfo := (b.realArches.lookup ourArch).getD {}
      match b.localPathFor env rt archInfo.Kernel ourArch with
      | .error p => .error p
      | .ok kPath =>
        match checkInitrds env rt b arch b.Initrds (checkFile env b "kernel" b.Kernel kPath arch ret) with
        | .error p => .error p
        | .ok ret1 => .ok ret1.HasError

/-- Source function `BootEnv.CanArchBoot`. -/
def BootEnv.CanArchBoot (env : Env) (rt : RequestTracker) (b : BootEnv) (arch : String) :
    Except String (Option Error) :=
  if !b.NetBoot then .ok none
  else if (b.installRepos.lookup (b.ArchFor env arch)).isSome then .ok none
  else b.canLocalBoot env rt arch


/-- Result of `BootEnv.AfterSave`: the state afterwards, the names of the
stages it logged as revalidated (`Revalidating stage ...`), in order, and the
panic if the call panicked. -/
structure AfterSaveResult where
  rt : RequestTracker
  revalidated : List String := []
  panic : Option String := none
deriving DecidableEq, Repr

/-- The loop `for _, i := range stages.Items()` of `BootEnv.AfterSave`.  The
items are pointers into the store: `done` are the items already visited, as
the loop left them, and the writes to a stage show in the stages store. -/
def afterSaveStages (env : Env) (b : BootEnv) :
    List Obj → List Obj → AfterSaveResult → AfterSaveResult
  | _, [], acc => acc
  | done, i :: rest, acc =>
    match AsStage i with
    | .error p => { acc with panic := some p }
    | .ok stage =>
      if stage.BootEnv ≠ b.Name then afterSaveStages env b (done ++ [i]) rest acc
      else
        let cleared := env.ClearValidation i.setRT
        let rt1 := { acc.rt with objs := setStore acc.rt.objs "stages" (done ++ cleared :: rest) }
        let validated := (env.stageValidate rt1 cleared).clearRT
        afterSaveStages env b (done ++ [validated]) rest
          { acc with
            rt := { acc.rt with objs := setStore acc.rt.objs "stages" (done ++ validated :: rest) }
            revalidated := acc.revalidated ++ [stage.Name] }

/-- Source function `BootEnv.AfterSave`, as far as the stores go; `rt` is the
tracker `b.rt`.  The calls after the loop (`ExplodeIsos`, the registration of
the renderers, `AddDynamicTree`) act on the file system of the DataTracker and
on a tracker of their own. -/
def BootEnv.AfterSave (env : Env) (rt : RequestTracker) (b : BootEnv) : AfterSaveResult :=
  if rt.d.isNone then { rt := rt, panic := some "nil pointer dereference" }
  else
    match stores rt "stages" with
    | none => { rt := rt }
    | some stages => afterSaveStages env b [] stages { rt := rt }

/-- Go library function `strings.TrimSuffix`. -/
def TrimSuffix (s suffix : String) : String :=
  if suffix.data.isSuffixOf s.data then String.mk (s.data.take (s.data.length - suffix.data.length))
  else s

/-- Go library function `strings.TrimPrefix`. -/
def TrimPrefix (s pfx : String) : String :=
  if pfx.data.isPrefixOf s.data then String.mk (s.data.drop pfx.data.length) else s

/-- Go library function `path.Base`, on the characters: the last element of
the path, after the trailing slashes are removed; `.` for the empty path and
`/` for a path of slashes only. -/
def baseChars (p : List Char) : List Char :=
  if p = [] then ['.']
  else
    let stripped := (p.reverse.dropWhile (fun c => decide (c = '/'))).reverse
    if stripped = [] then ['/']
    else (stripped.reverse.takeWhile (fun c => !decide (c = '/'))).reverse

/-- Go library function `path.Base`. -/
def pathBase (p : String) : String := String.mk (baseChars p.data)

/-- Source function `AsProfile`: the type assertion panics on another kind. -/
def AsProfile (o : Obj) : Except String Profile :=
  match o.body with
  | .profile p => .ok p
  | _ => .error "interface conversion: not a *Profile"

/-- The loop `for _, r := range repos` of `fillInstallRepos`, with the `return`
that ends its body. -/
def bindInstallRepo (env : Env) (rt : RequestTracker) (b : BootEnv) :
    List Repo → Except String BootEnv
  | [] => .ok b
  | r :: rest =>
    if !r.InstallSource || decide (r.OS.length ≠ 1) || decide (r.OS[0]? ≠ some b.OS.Name) then
      bindInstallRepo env rt b rest
    else
      let arch := r.Arch
      let realArch := b.ArchFor env arch
      match b.realArches.lookup realArch with
      | none => bindInstallRepo env rt b rest
      | some archInfo =>
        let b1 := { b with kernelVerified := true, installRepos := mapSet realArch r b.installRepos }
        match b1.PathFor env "" arch with
        | .error p => .error p
        | .ok pf =>
          .ok { b1 with
                pathLookasides :=
                  mapSet realArch
                    { arch := arch, realArch := realArch, archInfo := archInfo, pf := pf
                      fileRoot := rt.FileRoot }
                    b1.pathLookasides }

/-- Source function `BootEnv.fillInstallRepos`; `rt` is the tracker `b.rt`.
The result is the boot environment afterwards, or the panic. -/
def BootEnv.fillInstallRepos (env : Env) (rt : RequestTracker) (b : BootEnv) :
    Except String BootEnv :=
  if !b.NetBoot then .ok b
  else if b.OS.Name = "" then .ok b
  else
    match find env rt "profiles" rt.GlobalProfileName with
    | .error p => .error p
    | .ok none => .ok b
    | .ok (some o) =>
      match AsProfile o with
      | .error p => .error p
      | .ok _ =>
        let r := GetParam env rt o "package-repositories" true false
        match r.panic with
        | some p => .error p
        | none =>
          if !r.ok then .ok b
          else
            match env.decodeRepos r.val with
            | none => .ok b
            | some repos => bindInstallRepo env rt b repos

/-- What a lookaside answers: `(nil, nil)`, which leaves the request to the
local file system, or the response of `http.Get` on a URL. -/
inductive Fetch where
  | localCopy : Fetch
  | get (tgtUri : String) : Fetch
deriving DecidableEq, Repr

/-- The closure `fillInstallRepos` stores in `pathLookasides`, called on a
requested path; `b` is the boot environment as it is when the closure is
called. -/
def lookaside (env : Env) (b : BootEnv) (l : Lookaside) (p : String) : Except String Fetch :=
  match b.PathFor env "" l.arch with
  | .error e => .error e
  | .ok dir =>
    if (env.stat (pathJoin [l.fileRoot, dir])).isSome then .ok Fetch.localCopy
    else
      match b.installRepos.lookup l.realArch with
      | none => .ok Fetch.localCopy
      | some repo =>
        let tgtUri := TrimSuffix repo.URL "/" ++ TrimPrefix p l.pf
        if repo.BootLoc ≠ "" then
          if HasSuffix p b.Kernel then
            .ok (Fetch.get (TrimSuffix repo.BootLoc "/" ++ "/" ++ pathBase l.archInfo.Kernel))
          else
            match l.archInfo.Initrds.find? (fun i => HasSuffix p i) with
            | some i => .ok (Fetch.get (TrimSuffix repo.BootLoc "/" ++ "/" ++ pathBase i))
            | none => .ok (Fetch.get tgtUri)
        else .ok (Fetch.get tgtUri)

/-- A run of an external command: its name and its argument list. -/
structure Command where
  name : String
  args : List String
deriving DecidableEq, Repr

/-- Source function `explodeISO`: the commands it runs through
`exec.Command(...).CombinedOutput()`.  Opening the ISO and copying it into the
hasher are the one read of the file; the messages it logs and the extraction
mutex are left out. -/
def explodeISO (env : Env) (_envName osName fileRoot isoFile dest shaSum : String) : List Command :=
  let run : List Command :=
    [{ name := pathJoin [fileRoot, "explode_iso.sh"], args := [osName, fileRoot, isoFile, dest, shaSum] }]
  if shaSum ≠ "" then
    match env.readFile isoFile with
    | none => []
    | some content => if env.sha256hex content ≠ shaSum then [] else run
  else run

/-! ## Validation of a DHCP lease input (`models/dhcp_lease_input.go`) -/

/-- Regular expressions, as far as the pattern of the MAC address uses them: a
character, a range of characters, an alternative, a sequence and the
repetition `r{n}`. -/
inductive Re where
  | chr (c : Char) : Re
  | range (lo hi : Char) : Re
  | alt (a b : Re) : Re
  | seq (a b : Re) : Re
  | rep (n : Nat) (r : Re) : Re
deriving Repr

/-- The rests a text can have after `n` matches in a row of an expression that
leaves the rests `f`. -/
def iterRests (f : List Char → List (List Char)) : Nat → List Char → List (List Char)
  | 0, s => [s]
  | n + 1, s => (f s).flatMap (iterRests f n)

/-- The rests of a text after a match of the expression at its start. -/
def Re.rests : Re → List Char → List (List Char)
  | .chr c, s =>
    match s with
    | [] => []
    | x :: xs => if x = c then [xs] else []
  | .range lo hi, s =>
    match s with
    | [] => []
    | x :: xs => if lo.toNat ≤ x.toNat ∧ x.toNat ≤ hi.toNat then [xs] else []
  | .alt a b, s => a.rests s ++ b.rests s
  | .seq a b, s => (a.rests s).flatMap fun t => b.rests t
  | .rep n r, s => iterRests (fun t => r.rests t) n s

/-- Match of a text against an expression anchored at the start (`^`) and at
the end (`$`) of the text. -/
def Re.matchesAll (r : Re) (s : String) : Bool := decide ([] ∈ r.rests s.data)

/-- The class `[0-9a-f]`. -/
def lowerHex : Re := Re.alt (Re.range '0' '9') (Re.range 'a' 'f')

/-- The pattern of `validateMacAddress`, between its anchors:
`([0-9a-f]{2}):{5}[0-9a-f]{2}`. -/
def macPattern : Re :=
  Re.seq (Re.seq (Re.rep 2 lowerHex) (Re.rep 5 (Re.chr ':'))) (Re.rep 2 lowerHex)

/-- Go type `models.DhcpLeaseInput`; a nil pointer is `none`. -/
structure DhcpLeaseInput where
  ExpireTime : Option String := none
  IPAddress : Option String := none
  MacAddress : Option String := none
  Valid : Option Bool := none
deriving DecidableEq, Repr

/-- Modelled from the spec: `validate.Required` (go-openapi, not among the
sources) reports a value that is nil. -/
def Required (path location : String) (isNil : Bool) : Option String :=
  if isNil then some (path ++ " in " ++ location ++ " is required") else none

/-- Modelled from the spec: `validate.MinLength` (go-openapi, not among the
sources) reports a text of fewer characters than the minimum. -/
def MinLength (path location data : String) (minLength : Nat) : Option String :=
  if data.data.length < minLength then
    some (path ++ " in " ++ location ++ " should be at least " ++ toString minLength ++ " chars long")
  else none

/-- Modelled from the spec: `validate.MaxLength` (go-openapi, not among the
sources) reports a text of more characters than the maximum. -/
def MaxLength (path location data : String) (maxLength : Nat) : Option String :=
  if data.data.length > maxLength then
    some (path ++ " in " ++ location ++ " should be at most " ++ toString maxLength ++ " chars long")
  else none

/-- Modelled from the spec: `validate.Pattern` (go-openapi, not among the
sources) reports a text that the pattern does not match; `source` is the text
of the pattern, `re` the pattern between its anchors. -/
def Pattern (path location data source : String) (re : Re) : Option String :=
  if re.matchesAll data then none
  else some (path ++ " in " ++ location ++ " should match '" ++ source ++ "'")

/-- Source function `DhcpLeaseInput.validateExpireTime`. -/
def DhcpLeaseInput.validateExpireTime (m : DhcpLeaseInput) : Option String :=
  Required "ExpireTime" "body" m.ExpireTime.isNone

/-- Source function `DhcpLeaseInput.validateIPAddress`. -/
def DhcpLeaseInput.validateIPAddress (m : DhcpLeaseInput) : Option String :=
  Required "IpAddress" "body" m.IPAddress.isNone

/-- Source function `DhcpLeaseInput.validateMacAddress`; the pointer is read
only after `Required` has found it set. -/
def DhcpLeaseInput.validateMacAddress (m : DhcpLeaseInput) : Option String :=
  match Required "MacAddress" "body" m.MacAddress.isNone with
  | some err => some err
  | none =>
    match m.MacAddress with
    | none => some "nil pointer dereference"
    | some mac =>
      match MinLength "MacAddress" "body" mac 17 with
      | some err => some err
      | none =>
        match MaxLength "MacAddress" "body" mac 17 with
        | some err => some err
        | none => Pattern "MacAddress" "body" mac "^([0-9a-f]\x7b2\x7d):\x7b5\x7d[0-9a-f]\x7b2\x7d$" macPattern

/-- Source function `DhcpLeaseInput.validateValid`. -/
def DhcpLeaseInput.validateValid (m : DhcpLeaseInput) : Option String :=
  Required "Valid" "body" m.Valid.isNone

/-- Source function `DhcpLeaseInput.Validate`: nil, or the composite of the
errors of the four fields. -/
def DhcpLeaseInput.Validate (m : DhcpLeaseInput) : Option (List String) :=
  let res := m.validateExpireTime.toList ++ m.validateIPAddress.toList ++
    m.validateMacAddress.toList ++ m.validateValid.toList
  if res.length > 0 then some res else none

/-! ## Indexes of BootEnv and Task -/

/-- Go comparison `a < b` of two strings, on their characters. -/
def strLt : List Char → List Char → Bool
  | [], [] => false
  | [], _ :: _ => true
  | _ :: _, [] => false
  | a :: as, b :: bs =>
    if a.toNat < b.toNat then true else if b.toNat < a.toNat then false else strLt as bs

/-- Go type `index.Maker`: whether the index is unique, its type, the `less`
function, the builder of the probes `gte` and `gt` from a reference object and
the constructor of an object from the text of a key. -/
structure Maker (α : Type) where
  Unique : Bool
  Typ : String
  less : α → α → Bool
  tests : α → (α → Bool) × (α → Bool)
  fill : String → Except String α

/-- The index `Name` of `BootEnv.Indexes`. -/
def bootEnvNameIndex : Maker BootEnv where
  Unique := true
  Typ := "string"
  less := fun i j => strLt i.Name.data j.Name.data
  tests := fun ref =>
    (fun s => strLe ref.Name.data s.Name.data, fun s => strLt ref.Name.data s.Name.data)
  fill := fun s => .ok { Name := s }

/-- The index `OsName` of `BootEnv.Indexes`. -/
def bootEnvOsNameIndex : Maker BootEnv where
  Unique := false
  Typ := "string"
  less := fun i j => strLt i.OS.Name.data j.OS.Name.data
  tests := fun ref =>
    (fun s => strLe ref.OS.Name.data s.OS.Name.data, fun s => strLt ref.OS.Name.data s.OS.Name.data)
  fill := fun s => .ok { OS := { Name := s } }

/-- The index `OnlyUnknown` of `BootEnv.Indexes`. -/
def bootEnvOnlyUnknownIndex : Maker BootEnv where
  Unique := false
  Typ := "boolean"
  less := fun i j => !i.OnlyUnknown && j.OnlyUnknown
  tests := fun ref =>
    (fun s => s.OnlyUnknown || (s.OnlyUnknown == ref.OnlyUnknown),
     fun s => s.OnlyUnknown && !ref.OnlyUnknown)
  fill := fun s =>
    if s = "true" then .ok { OnlyUnknown := true }
    else if s = "false" then .ok { OnlyUnknown := false }
    else .error "OnlyUnknown must be true or false"

/-- Source function `BootEnv.Indexes`: the indexes it declares itself (those of
`index.MakeBaseIndexes` are not among the sources). -/
def BootEnv.Indexes : List (String × Maker BootEnv) :=
  [("Name", bootEnvNameIndex), ("OsName", bootEnvOsNameIndex),
   ("OnlyUnknown", bootEnvOnlyUnknownIndex)]

/-- The index `Name` of `Task.Indexes`. -/
def taskNameIndex : Maker Task where
  Unique := true
  Typ := "string"
  less := fun i j => strLt i.Name.data j.Name.data
  tests := fun ref =>
    (fun s => strLe ref.Name.data s.Name.data, fun s => strLt ref.Name.data s.Name.data)
  fill := fun s => .ok { Name := s }

/-- Source function `Task.Indexes`: the index it declares itself. -/
def Task.Indexes : List (String × Maker Task) := [("Name", taskNameIndex)]

/-! ## Validation of a boot environment -/

/-- Modelled from the spec: `models.Validation.Errorf` (models package, not
among the sources) accumulates one formatted message on the object. -/
def BootEnv.Errorf (b : BootEnv) (msg : String) : BootEnv :=
  { b with Errors := b.Errors ++ [msg] }

/-- The entries of a Go map kept as an association list, in the order the
loops of the model visit them: an entry whose key stands earlier in the list is
the one the map holds. -/
def entriesFrom {α : Type} (seen : List String) : List (String × α) → List (String × α)
  | [] => []
  | (k, v) :: rest =>
    if k ∈ seen then entriesFrom seen rest else (k, v) :: entriesFrom (k :: seen) rest

/-- The entries of a Go map kept as an association list. -/
def entries {α : Type} (m : List (String × α)) : List (String × α) := entriesFrom [] m

/-- The loop `for k, v := range b.OS.SupportedArchitectures` of `regenArches`. -/
def addSupported (env : Env) : List (String × ArchInfo) → List (String × ArchInfo) →
    List (String × ArchInfo)
  | [], arches => arches
  | (k, v) :: rest, arches => addSupported env rest (mapSet (env.SupportedArch k).1 v arches)

/-- The loop `for k := range arches` of `regenArches`: the messages it records
on the boot environment. -/
def archErrors (env : Env) : List (String × ArchInfo) → List String
  | [] => []
  | (k, v) :: rest =>
    (if v.Kernel = "" then ["Arch " ++ k ++ " is missing a kernel!"] else []) ++
    (if v.BootParams ≠ "" then
      match env.parseTemplate v.BootParams with
      | some err => ["Error compiling boot parameter template for arch " ++ k ++ ": " ++ err]
      | none => []
    else []) ++
    archErrors env rest

/-- The map `arches` that `regenArches` builds. -/
def BootEnv.arches (env : Env) (b : BootEnv) : List (String × ArchInfo) :=
  addSupported env (entries b.OS.SupportedArchitectures)
    (if b.Kernel ≠ "" then
      [("amd64",
        { Kernel := b.Kernel, Initrds := b.Initrds, BootParams := b.BootParams
          IsoFile := b.OS.IsoFile, Sha256 := b.OS.IsoSha256, IsoUrl := b.OS.IsoUrl })]
    else [])

/-- Source function `BootEnv.regenArches`. -/
def BootEnv.regenArches (env : Env) (b : BootEnv) : BootEnv :=
  { b with
    Errors := b.Errors ++ archErrors env (b.arches env)
    realArches := b.arches env }

/-- Go library call `strings.Replace(s, "/", "_", -1)`. -/
def replaceSlashes (s : String) : String :=
  String.mk (s.data.map fun c => if c = '/' then '_' else c)

/-- Go library function `unicode.IsSpace`. -/
def isSpace (c : Char) : Bool :=
  c.toNat = 0x09 || c.toNat = 0x0A || c.toNat = 0x0B || c.toNat = 0x0C || c.toNat = 0x0D ||
  c.toNat = 0x20 || c.toNat = 0x85 || c.toNat = 0xA0 || c.toNat = 0x1680 ||
  (0x2000 ≤ c.toNat && c.toNat ≤ 0x200A) || c.toNat = 0x2028 || c.toNat = 0x2029 ||
  c.toNat = 0x202F || c.toNat = 0x205F || c.toNat = 0x3000

/-- Go library function `bytes.TrimSpace`, on a text. -/
def TrimSpace (s : String) : String :=
  String.mk ((s.data.dropWhile isSpace).reverse.dropWhile isSpace).reverse

/-- An exploder built by `IsoExploders`, as the variables of the iteration that
its closure captures: the path of the ISO and the local path of the arch.  The
arch of the iteration is kept with them; the name, the OS name and the SHA256
are read when the closure runs. -/
structure Exploder where
  arch : String
  isoPath : String
  localPath : String
deriving DecidableEq, Repr

/-- The loop `for arch, archInfo := range b.realArches` of `IsoExploders`. -/
def isoExploders (env : Env) (rt : RequestTracker) (b : BootEnv) :
    List (String × ArchInfo) → Except String (List Exploder)
  | [] => .ok []
  | (arch, archInfo) :: rest =>
    if archInfo.IsoFile = "" then isoExploders env rt b rest
    else
      match b.localPathFor env rt ("." ++ replaceSlashes b.OS.Name ++ ".rebar_canary") arch with
      | .error p => .error p
      | .ok canaryPath =>
        if (env.readFile canaryPath).map TrimSpace = some archInfo.Sha256 then
          isoExploders env rt b rest
        else
          let isoPath := pathJoin [rt.FileRoot, "isos", archInfo.IsoFile]
          if env.isNotExist isoPath then isoExploders env rt b rest
          else
            match b.localPathFor env rt "" arch with
            | .error p => .error p
            | .ok lPath =>
              match isoExploders env rt b rest with
              | .error p => .error p
              | .ok res => .ok ({ arch := arch, isoPath := isoPath, localPath := lPath } :: res)

/-- Source function `BootEnv.IsoExploders`. -/
def BootEnv.IsoExploders (env : Env) (rt : RequestTracker) (b : BootEnv) :
    Except String (List Exploder) :=
  if b.OS.Name = "" then .ok [] else isoExploders env rt b (entries b.realArches)

/-- Modelled from the spec: `models.Validation.SetValid` (models package, not
among the sources) marks the object as validated when no error is recorded on
it. -/
def BootEnv.SetValid (b : BootEnv) : BootEnv := { b with Validated := b.Errors.isEmpty }

/-- Modelled from the spec: `models.Validation.SetAvailable` (models package,
not among the sources) marks the object as available when no error is recorded
on it. -/
def BootEnv.SetAvailable (b : BootEnv) : BootEnv := { b with Available := b.Errors.isEmpty }

/-- Modelled from the spec: `models.Validation.Useable` (models package, not
among the sources) tells whether the object passed the structural checks. -/
def BootEnv.Useable (b : BootEnv) : Bool := b.Validated

/-- The loop `for i, tmpl := range b.Templates` of `genRoot`: the messages it
records, `i` being the index of the first template of the list. -/
def pathErrors : Nat → List TemplateInfo → List String
  | _, [] => []
  | i, tmpl :: rest =>
    (if tmpl.Path = "" then ["Template[" ++ toString i ++ "] needs a Path"] else []) ++
      pathErrors (i + 1) rest

/-- Source function `BootEnv.genRoot`, called with the boot environment as the
error adder: the messages it records.  The template tree it returns is not
modelled. -/
def BootEnv.genRoot (env : Env) (b : BootEnv) : BootEnv :=
  { b with Errors := b.Errors ++ env.mergeTemplates b.Templates ++ pathErrors 0 b.Templates }

/-- Source function `BootEnv.render`: the renderers it returns and the
messages it records on the error adder.  The render data (`newRenderData` and
its methods) is a parameter. -/
def BootEnv.render (env : Env) (rt : RequestTracker) (b : BootEnv) (m : Option Machine) :
    List Renderer × List String :=
  match m with
  | none =>
    if b.RequiredParams.length > 0 then ([], ["Machine is nil or does not have params"])
    else env.makeRenderers rt b
  | some machine => env.renderFor rt b machine

/-- The loop `for _, i := range machines.Items()` of `BootEnv.Validate`. -/
def renderMachines (env : Env) (rt : RequestTracker) : List Obj → BootEnv → Except String BootEnv
  | [], b => .ok b
  | i :: rest, b =>
    match AsMachine i with
    | .error p => .error p
    | .ok machine =>
      if machine.BootEnv ≠ b.Name then renderMachines env rt rest b
      else
        renderMachines env rt rest
          { b with
            renderers := b.renderers ++ (b.render env rt (some machine)).1
            Errors := b.Errors ++ (b.render env rt (some machine)).2 }

/-- Whether one of the templates has one of the names. -/
def seenTemplate (names : List String) (templates : List TemplateInfo) : Bool :=
  templates.any fun template => decide (template.Name ∈ names)

/-- Source function `BootEnv.Validate`; `rt` is the tracker `b.rt`.  The result
is the boot environment afterwards, or the panic. -/
def BootEnv.Validate (env : Env) (rt : RequestTracker) (b : BootEnv) : Except String BootEnv :=
  let b1 := ({ b with renderers := [], pathLookasides := [], installRepos := [] }).regenArches env
  let b2 := { b1 with Errors := b1.Errors ++ env.modelValidate b1 }
  match stores rt "bootenvs" with
  | none => .error "nil pointer dereference"
  | some items =>
    let b3 :=
      { b2 with Errors := b2.Errors ++ env.checkUnique { body := Body.bootenv b2, rt := true } items }
    let b4 := (b3.genRoot env).SetValid
    if !b4.Validated then .ok b4
    else
      let b5 := if b4.NetBoot && decide (b4.OS.Name = "") then b4.Errorf "bootenv: Missing OS.Name" else b4
      let seenPxeLinux := seenTemplate ["pxelinux", "pxelinux-mac"] b5.Templates
      let seenIPXE := seenTemplate ["ipxe", "ipxe-mac"] b5.Templates
      let b6 :=
        if !(seenPxeLinux || seenIPXE) && decide (b5.Kernel ≠ "") &&
            decide ((b5.Meta.lookup "KernelIsLoader").getD "" ≠ "true") then
          b5.Errorf "bootenv: Missing elilo or pxelinux template"
        else b5
      match b6.fillInstallRepos env rt with
      | .error p => .error p
      | .ok b7 =>
        if b7.OnlyUnknown then
          .ok ({ b7 with
                 renderers := b7.renderers ++ (b7.render env rt none).1
                 Errors := b7.Errors ++ (b7.render env rt none).2 }).SetAvailable
        else
          match stores rt "machines" with
          | none => .ok b7.SetAvailable
          | some machines =>
            match renderMachines env rt machines b7 with
            | .error p => .error p
            | .ok b8 => .ok b8.SetAvailable

/-- A call `AfterDelete` makes into the serving file system of the
DataTracker. -/
inductive FsOp where
  | deregister (rts : List Renderer) : FsOp
  | DelDynamicTree (path : String) : FsOp
deriving DecidableEq, Repr

/-- Source function `AsBootEnv`: the type assertion panics on another kind. -/
def AsBootEnv (o : Obj) : Except String BootEnv :=
  match o.body with
  | .bootenv b => .ok b
  | _ => .error "interface conversion: not a *BootEnv"

/-- Modelled from the spec: `index.All(index.Sort(maker), index.Eq(value))` and
`Count` (index package, not among the sources) count the items that the probes
of the maker, built for the object made from the value, hold equal to it:
those that pass `gte` and fail `gt`.  The result is `none` when the maker
cannot make an object from the value. -/
def eqCount (m : Maker BootEnv) (value : String) : List Obj → Except String (Option Nat)
  | [] =>
    match m.fill value with
    | .error _ => .ok none
    | .ok _ => .ok (some 0)
  | i :: rest =>
    match m.fill value with
    | .error _ => .ok none
    | .ok ref =>
      match AsBootEnv i with
      | .error p => .error p
      | .ok s =>
        match eqCount m value rest with
        | .error p => .error p
        | .ok none => .ok none
        | .ok (some n) =>
          .ok (some (if (m.tests ref).1 s && !(m.tests ref).2 s then n + 1 else n))

/-- The loop `for k := range b.realArches` of `AfterDelete`. -/
def delDynamicTrees (env : Env) (b : BootEnv) : List (String × ArchInfo) → Except String (List FsOp)
  | [] => .ok []
  | (k, _) :: rest =>
    match b.PathFor env "" k with
    | .error p => .error p
    | .ok path =>
      match delDynamicTrees env b rest with
      | .error p => .error p
      | .ok ops => .ok (FsOp.DelDynamicTree path :: ops)

/-- Source function `BootEnv.AfterDelete`; `rt` is the tracker `b.rt`.  The
result is the boot environment afterwards with the calls made into the serving
file system, in order, or the panic. -/
def BootEnv.AfterDelete (env : Env) (rt : RequestTracker) (b : BootEnv) :
    Except String (BootEnv × List FsOp) :=
  if b.OnlyUnknown then
    let rts := b.render env rt none
    let b1 := if rts.2.isEmpty then b else { b with Errors := rts.2 }
    let ops := if rts.2.isEmpty then [FsOp.deregister rts.1] else []
    match stores rt "bootenvs" with
    | none => .error "nil pointer dereference"
    | some items =>
      match eqCount bootEnvOsNameIndex b1.OS.Name items with
      | .error p => .error p
      | .ok (some 0) =>
        match delDynamicTrees env b1 (entries b1.realArches) with
        | .error p => .error p
        | .ok dels => .ok (b1, ops ++ dels)
      | .ok _ => .ok (b1, ops)
  else .ok (b, [])

/-- The value `bootEnvLockMap` of the backend package. -/
def bootEnvLockMap : List (String × List String) :=
  [ ("get", ["bootenvs"]),
    ("create", ["stages", "bootenvs", "machines", "tasks", "templates", "profiles", "params", "workflows"]),
    ("update", ["stages", "bootenvs", "machines", "tasks", "templates", "profiles", "params", "workflows"]),
    ("patch", ["stages", "bootenvs", "machines", "tasks", "templates", "profiles", "params", "workflows"]),
    ("delete", ["stages", "bootenvs", "machines", "tasks", "templates", "profiles", "params", "workflows"]),
    ("actions", ["stages", "bootenvs", "machines", "tasks", "templates", "profiles", "params"]) ]

/-- Source function `BootEnv.Locks`. -/
def BootEnv.Locks (action : String) : List String := (bootEnvLockMap.lookup action).getD []

/-- The value `taskLockMap` of the backend package. -/
def taskLockMap : List (String × List String) :=
  [ ("get", ["templates", "tasks"]),
    ("create", ["stages", "machines", "templates", "tasks", "bootenvs", "workflows"]),
    ("update", ["stages", "machines", "templates", "tasks", "bootenvs", "workflows"]),
    ("patch", ["stages", "machines", "templates", "tasks", "bootenvs", "workflows"]),
    ("delete", ["stages", "tasks", "machines", "workflows"]),
    ("actions", ["tasks", "profiles", "params"]) ]

/-- Source function `Task.Locks`. -/
def Task.Locks (action : String) : List String := (taskLockMap.lookup action).getD []

/-- The loop `for _, i := range stages.Items()` of `Task.Validate`: the names
of the stages whose re-validation it hands to `RunAfter`, in order. -/
def taskStages (t : Task) : List Obj → Except String (List String)
  | [] => .ok []
  | i :: rest =>
    match AsStage i with
    | .error p => .error p
    | .ok stage =>
      match taskStages t rest with
      | .error p => .error p
      | .ok l => .ok ((if t.Name ∈ stage.Tasks then [stage.Name] else []) ++ l)

/-- Source function `Task.Validate`, as far as the stores go; `rt` is the
tracker `t.rt`.  The result is the names of the stages whose re-validation it
hands to `RunAfter`, or the panic.  The checks of the task itself and of its
templates read no store. -/
def Task.Validate (rt : RequestTracker) (t : Task) : Except String (List String) :=
  if rt.d.isNone then .error "nil pointer dereference"
  else
    match stores rt "stages" with
    | none => .ok []
    | some stages => taskStages t stages

/-- Modelled from the spec: `store.Remove` of the store library (not among the
sources) calls the `AfterDelete` hook of the object it has deleted from the
backing store, before it returns.  This is the call of the hook that
`RequestTracker.Remove` makes that way at line 310 for a boot environment: on
the item found in the index, with the tracker as it stands then, before the
`idx.Remove(item)` of line 312.  It is `none` when `Remove` does not get that
far, or the item is of another kind. -/
def afterDeleteOfRemove (env : Env) (rt : RequestTracker) (obj : Obj) :
    Option (Except String (BootEnv × List FsOp)) :=
  match spkibrt rt obj with
  | .error _ => none
  | .ok x =>
    match x.target with
    | none => none
    | some item =>
      let rt0 := { rt with objs := setStore rt.objs x.pfx (Store.setFirst x.key item.setRT x.idx) }
      if (storeRemove env rt0 item.setRT).saved then
        match item.body with
        | .bootenv b => some (b.AfterDelete env rt0)
        | _ => none
      else none

/-! ## Notions used in the statements -/

/-- The five write operations of the RequestTracker. -/
inductive Op where
  | create (obj : Obj) : Op
  | update (obj : Obj) : Op
  | patch (obj : Obj) (key : String) (patch : List String) : Op
  | save (obj : Obj) : Op
  | remove (obj : Obj) : Op
deriving DecidableEq, Repr

/-- Call of one of the five write operations. -/
def crud (env : Env) (rt : RequestTracker) : Op → CrudResult
  | .create obj => Create env rt obj
  | .update obj => Update env rt obj
  | .patch obj key p => Patch env rt obj key p
  | .save obj => Save env rt obj
  | .remove obj => Remove env rt obj

/-- Whether an entry of the post-commit queue is an event. -/
def Queued.isEvent : Queued → Bool
  | .thunk _ => false
  | .publish _ _ _ _ => true
  | .publishEvent _ => true

/-- The events of the post-commit queue. -/
def events (q : List Queued) : List Queued := q.filter Queued.isEvent

/-- The Index of a prefix as a value: the model values its entries reference,
in index order.  The RequestTracker reference of an object (`validate.rt`)
belongs to the backend wrapper, not to the model value. -/
def bodies (objs : List (String × Store)) (pfx : String) : List Body :=
  (getStore objs pfx).map Obj.body

/-- Whether an object is a Stage. -/
def Obj.isStage (o : Obj) : Bool :=
  match o.body with
  | .stage _ => true
  | _ => false

/-- Whether an object is a Machine. -/
def Obj.isMachine (o : Obj) : Bool :=
  match o.body with
  | .machine _ => true
  | _ => false

/-- The profile found under a name, if the lookup finds one. -/
def profileNamed (env : Env) (rt : RequestTracker) (pn : String) : Option Obj :=
  match Find env rt "profiles" pn with
  | .ok found => found
  | .error _ => none

/-- The order in which the objects are consulted according to the spec: the
profiles of the machine that exist, then the profiles of its stage that exist,
then the global profile. -/
def aggOrder (env : Env) (rt : RequestTracker) (m : Machine) : List Obj :=
  m.Profiles.filterMap (profileNamed env rt) ++
    (if m.Stage ≠ "" then
      match Find env rt "stages" m.Stage with
      | .ok (some sobj) =>
        match sobj.body with
        | .stage s => s.Profiles.filterMap (profileNamed env rt)
        | _ => []
      | _ => []
    else []) ++
    (profileNamed env rt rt.GlobalProfileName).toList

/-- The first object of a list that sets a key, with the value it holds. -/
def firstHit (k : String) : List Obj → Option (Obj × Val)
  | [] => none
  | sub :: rest =>
    match sub.GetParams.lookup k with
    | some v => some (sub, v)
    | none => firstHit k rest

/-- The sources `getAggParams` returns for an object, a map and a flag. -/
def sourcesOf (env : Env) (rt : RequestTracker) (obj : Obj) (aggregate : Bool) : List (String × Obj) :=
  match getAggParams env rt obj obj.GetParams aggregate with
  | .ok agg => agg.sources
  | .error _ => []

/-- The messages `BootEnv.BeforeDelete` records for the machines that use the
boot environment. -/
def machineUses (b : BootEnv) (machines : List Obj) : List String :=
  machines.filterMap fun o =>
    match o.body with
    | .machine m =>
      if m.BootEnv = b.Name then some ("Bootenv " ++ b.Name ++ " in use by Machine " ++ m.Name)
      else none
    | _ => none

/-- The messages `BootEnv.BeforeDelete` records for the stages that use the
boot environment. -/
def stageUses (b : BootEnv) (stages : List Obj) : List String :=
  stages.filterMap fun o =>
    match o.body with
    | .stage s =>
      if s.BootEnv = b.Name then some ("Bootenv " ++ b.Name ++ " in use by Stage " ++ s.Name)
      else none
    | _ => none

/-- Whether some machine of the store has the boot environment in its BootEnv
field. -/
def usedByMachine (b : BootEnv) (machines : List Obj) : Bool :=
  machines.any fun o =>
    match o.body with
    | .machine m => decide (m.BootEnv = b.Name)
    | _ => false

/-- Whether some stage of the store has the boot environment in its BootEnv
field. -/
def usedByStage (b : BootEnv) (stages : List Obj) : Bool :=
  stages.any fun o =>
    match o.body with
    | .stage s => decide (s.BootEnv = b.Name)
    | _ => false

/-- The guard `BootEnv.BeforeDelete` implements: a boot environment for known
machines is guarded when it is the `defaultBootEnv` preference or a machine or
a stage uses it; one for unknown machines when it is the `unknownBootEnv`
preference. -/
def guarded (rt : RequestTracker) (b : BootEnv) (machines stages : List Obj) : Bool :=
  if b.OnlyUnknown then decide (pref rt "unknownBootEnv" = b.Name)
  else decide (pref rt "defaultBootEnv" = b.Name) || usedByMachine b machines || usedByStage b stages

/-- The objects of a store that reference a task: those for which `HasTask`
holds. -/
def referencing (t : Task) (items : List Obj) : List Obj :=
  items.filter fun j => decide (HasTask j t.Name = .ok true)

/-- The message `Task.BeforeDelete` records for a referencing object. -/
def stillUses (t : Task) (j : Obj) : String :=
  j.Prefix ++ ":" ++ j.Key ++ " still uses " ++ t.Name

/-- A path element that `path.Clean` keeps as it is: not empty, neither `.` nor
`..`, and without a slash. -/
def NormalSeg (s : List Char) : Prop :=
  s ≠ [] ∧ s ≠ ['.'] ∧ s ≠ dotdot ∧ '/' ∉ s

/-- Whether an entry of the log of an execution was recorded with the given
locks held (entries that record no locks count as such). -/
def Obs.underLocks (h : List String) : Obs → Bool
  | .ran _ x => decide (x = h)
  | .called _ x => decide (x = h)
  | .delivered _ x => decide (x = h)
  | _ => true

/-- The entries of the post-commit queue that an execution called, in order. -/
def calledOf (log : List Obs) : List Queued :=
  log.filterMap fun o =>
    match o with
    | .called q _ => some q
    | _ => none

/-- Whether every pointer a closure body writes through is allocated when the
body writes, for a body that starts when `n` events are allocated. -/
def Thunk.closed : Thunk → Nat → Bool
  | .ret, _ => true
  | .mark _ k, n => k.closed n
  | .RunAfter t k, n => t.closed n && k.closed n
  | .Publish _ _ _ _ k, n => k.closed n
  | .PublishEvent _ k, n => k.closed (n + 1)
  | .setEvent p _ k, n => decide (p < n) && k.closed n

/-- Whether every pointer an entry of the post-commit queue uses is allocated,
when `n` events are allocated. -/
def Queued.closed (n : Nat) : Queued → Bool
  | .thunk t => t.closed n
  | .publish _ _ _ _ => true
  | .publishEvent e => decide (e < n)

/-! ## A sample environment -/

/-- Modelled from the spec: `models.SupportedArch` (not among the sources)
canonicalizes an arch name; the sample table knows amd64 and arm64 and their
usual aliases. -/
def sampleSupportedArch (s : String) : String × Bool :=
  if s = "amd64" ∨ s = "x86_64" then ("amd64", true)
  else if s = "arm64" ∨ s = "aarch64" then ("arm64", true)
  else ("", false)

/-- Modelled from the spec: `models.ArchEqual` (not among the sources) holds
when both names are known and have the same canonical form. -/
def sampleArchEqual (a b : String) : Bool :=
  (sampleSupportedArch a).2 && (sampleSupportedArch b).2 &&
    decide ((sampleSupportedArch a).1 = (sampleSupportedArch b).1)

/-- A sample environment: models without defaults to fill, a validation that
leaves a stage as it is, a store library whose writes succeed, no JSON patch
support, no value that decodes to repos, no unique index, and a file system
given by the list of its regular files, none of which can be read.  Templates
parse, the models-level checks record nothing, and the renderers of a boot
environment are one for each of its templates. -/
def sampleEnv (files : List String) : Env where
  Fill := id
  ClearValidation := id
  stageValidate := fun _ o => o
  decodeRepos := fun _ => none
  readFile := fun _ => none
  isNotExist := fun p => decide (p ∉ files)
  sha256hex := fun content => "sha256:" ++ content
  parseTemplate := fun _ => none
  modelValidate := fun _ => []
  checkUnique := fun _ _ => []
  mergeTemplates := fun _ => []
  makeRenderers := fun _ b => (b.Templates.map fun t => { path := t.Path }, [])
  renderFor := fun _ b _ => (b.Templates.map fun t => { path := t.Path }, [])
  storeCreate := fun _ o => { saved := true, obj := o }
  storeUpdate := fun _ o => { saved := true, obj := o }
  storeSave := fun _ o => { saved := true, obj := o }
  rawRemove := fun _ _ => none
  hookBeforeDelete := fun _ _ => none
  marshal := fun _ => ""
  patchApply := fun _ _ => PatchResult.failed "unsupported" 0
  unmarshal := fun _ o => .ok o
  uniqueIndex := fun _ _ => none
  SupportedArch := sampleSupportedArch
  ArchEqual := sampleArchEqual
  stat := fun p => if p ∈ files then some true else none
  reportPath := id

/-- A sample environment whose store library refuses every write with the
given error. -/
def failingEnv (e : Error) : Env :=
  { sampleEnv [] with
    storeCreate := fun _ o => { saved := false, err := some e, obj := o }
    storeUpdate := fun _ o => { saved := false, err := some e, obj := o }
    storeSave := fun _ o => { saved := false, err := some e, obj := o }
    rawRemove := fun _ _ => some e }

/-! ## Sample inputs -/

/-- A tracker created for the lock set of one prefix. -/
def rtBootenvs : RequestTracker := { locks := ["bootenvs"] }

/-- A thunk that publishes one event from inside `Do`. -/
def publishOnce : Thunk := Thunk.Publish "bootenvs" "create" "ubuntu" none Thunk.ret

/-- A post-commit thunk that registers a further thunk when it runs. -/
def registersMore : Thunk := Thunk.mark 1 (Thunk.RunAfter (Thunk.mark 2 Thunk.ret) Thunk.ret)

/-- An error the store library reports. -/
def storeDown : Error := { Typ := "STORE", Messages := ["backing store is read only"], Code := 500 }

/-- A boot environment for the install stage of an ubuntu release, with the
arches amd64 and arm64. -/
def ubuntuInstall : BootEnv :=
  { Name := "ubuntu-20.04-install"
    OS := { Name := "ubuntu-20.04" }
    realArches := [("amd64", { Kernel := "vmlinuz" }), ("arm64", { Kernel := "vmlinuz" })] }

/-- A tracker inside `Do` that holds the locks of the BootEnv delete action; the
bootenvs store holds one boot environment. -/
def rtInDo : RequestTracker :=
  { locks := ["stages", "bootenvs", "machines"]
    d := some ["bootenvs", "machines", "stages"]
    held := ["bootenvs", "machines", "stages"]
    objs := [("bootenvs", [{ body := Body.bootenv ubuntuInstall }])] }

/-- A task object. -/
def taskObj (name : String) : Obj := { body := Body.task { Name := name } }

/-- A profile object. -/
def profileObj (name : String) (params : List (String × Val)) : Obj :=
  { body := Body.profile { Name := name, Params := params } }

/-- The machine of the aggregation example: profiles P1 and P2 (and one that
does not exist), stage S. -/
def aggMachine : Machine :=
  { Uuid := "m-1", Name := "m1", Stage := "S", Profiles := ["P1", "missing", "P2"]
    Params := [("own", Val.num 0)] }

/-- The stores of the aggregation example: stage S has profile P3, the global
profile is G; `a` is set by P2, P3 and G, `b` by P3 and G, `c` by G alone, and
`own` by the machine and by P1. -/
def rtAgg : RequestTracker :=
  { locks := ["machines", "profiles", "stages", "params"]
    d := some ["machines", "params", "profiles", "stages"]
    held := ["machines", "params", "profiles", "stages"]
    GlobalProfileName := "G"
    objs :=
      [ ("profiles",
          [ profileObj "G" [("a", Val.num 4), ("b", Val.num 4), ("c", Val.num 4)],
            profileObj "P1" [("own", Val.num 1)],
            profileObj "P2" [("a", Val.num 2)],
            profileObj "P3" [("a", Val.num 3), ("b", Val.num 3)] ]),
        ("stages", [{ body := Body.stage { Name := "S", Profiles := ["P3"] } }]),
        ("machines", [{ body := Body.machine aggMachine }]) ] }

/-- The stores of the secure parameter example: the parameter `secret` is
declared secure; profile P3 stores the value sealed for its own public key (its
private key is 7, the private key of the machine is 9). -/
def rtSecure : RequestTracker :=
  { locks := ["machines", "profiles", "stages", "params"]
    d := some ["machines", "params", "profiles", "stages"]
    held := ["machines", "params", "profiles", "stages"]
    GlobalProfileName := "G"
    secrets := [("profiles-P3", 7), ("machines-m-1", 9)]
    objs :=
      [ ("profiles", [profileObj "P3" [("secret", Val.sealed (pubOf 7) (Val.str "hunter2"))]]),
        ("stages", [{ body := Body.stage { Name := "S", Profiles := ["P3"] } }]),
        ("params", [{ body := Body.param { Name := "secret", Secure := true } }]),
        ("machines", [{ body := Body.machine aggMachine }]) ] }

/-- A boot environment for unknown machines. -/
def discovery : BootEnv := { Name := "discovery", OnlyUnknown := true }

/-- The stores of the delete guard example: machine m1 boots `discovery`, stage
S boots `ubuntu-20.04-install`, and the preferences name neither of them. -/
def rtGuard : RequestTracker :=
  { locks := ["stages", "bootenvs", "machines"]
    d := some ["bootenvs", "machines", "stages"]
    held := ["bootenvs", "machines", "stages"]
    prefs := [("defaultBootEnv", "local"), ("unknownBootEnv", "ignore")]
    objs :=
      [ ("bootenvs", [{ body := Body.bootenv discovery }, { body := Body.bootenv ubuntuInstall }]),
        ("machines", [{ body := Body.machine { Uuid := "m-1", Name := "m1", BootEnv := "discovery" } }]),
        ("stages", [{ body := Body.stage { Name := "S", BootEnv := "ubuntu-20.04-install" } }]) ] }

/-- The stores of scenario S5: stage `stageA` lists the task `install`, as does
machine m1; stage `stageB` and machine m2 do not. -/
def rtTasks : RequestTracker :=
  { locks := ["stages", "tasks", "machines", "workflows"]
    d := some ["machines", "stages", "tasks", "workflows"]
    held := ["machines", "stages", "tasks", "workflows"]
    objs :=
      [ ("tasks", [taskObj "install", taskObj "wipe"]),
        ("machines",
          [ { body := Body.machine { Uuid := "m-1", Name := "m1", Tasks := ["install"] } },
            { body := Body.machine { Uuid := "m-2", Name := "m2", Tasks := ["reboot"] } } ]),
        ("stages",
          [ { body := Body.stage { Name := "stageA", Tasks := ["prepare", "install"] } },
            { body := Body.stage { Name := "stageB" } } ]) ] }

/-- A boot environment that declares its kernel and initrd for arm64 only,
under `OS.SupportedArchitectures`; the top-level Kernel and Initrds are empty. -/
def centosArm : BootEnv :=
  { Name := "centos-install"
    OS := { Name := "centos"
            SupportedArchitectures := [("aarch64", { Kernel := "vmlinuz", Initrds := ["initrd.img"] })] }
    realArches := [("arm64", { Kernel := "vmlinuz", Initrds := ["initrd.img"] })] }

/-- A boot environment with a top-level kernel and initrd (arch amd64) and an
arm64 arch that declares a kernel and no initrd. -/
def centosBoth : BootEnv :=
  { Name := "centos-install"
    OS := { Name := "centos", SupportedArchitectures := [("aarch64", { Kernel := "vmlinuz" })] }
    Kernel := "vmlinuz"
    Initrds := ["initrd.img"]
    realArches :=
      [ ("amd64", { Kernel := "vmlinuz", Initrds := ["initrd.img"] }),
        ("arm64", { Kernel := "vmlinuz" }) ] }

/-- A tracker inside `Do` whose file root is `/tftpboot`. -/
def rtFiles : RequestTracker :=
  { locks := ["bootenvs"], d := some ["bootenvs"], held := ["bootenvs"], FileRoot := "/tftpboot" }

/-- A parameter definition that declares a default value. -/
def ntpParam : Obj :=
  { body := Body.param { Name := "ntp-server", Default := some (Val.str "pool.ntp.org") } }

/-- A machine without profiles and without a stage that holds one parameter. -/
def bareMachine : Obj :=
  { body := Body.machine { Uuid := "m-9", Name := "m9", Params := [("own", Val.num 0)] } }

/-- The stores of the default value example: the params store defines
`ntp-server` with a default, no profile exists. -/
def rtDefaults : RequestTracker :=
  { locks := ["machines", "profiles", "stages", "params"]
    d := some ["machines", "params", "profiles", "stages"]
    held := ["machines", "params", "profiles", "stages"]
    objs := [("params", [ntpParam]), ("machines", [bareMachine])] }

/-- A sample environment whose JSON patch library fails at the operation of the
given index with the given error. -/
def patchFailsAt (loc : Nat) (patchErr : String) : Env :=
  { sampleEnv [] with patchApply := fun _ _ => PatchResult.failed patchErr loc }

/-- A patch of two operations, as JSON texts. -/
def samplePatch : List String :=
  [ "\x7b\"op\":\"test\",\"path\":\"/Name\",\"value\":\"ubuntu-20.04-install\"\x7d",
    "\x7b\"op\":\"remove\",\"path\":\"/Missing\"\x7d" ]

/-- The object a write operation hands to `spkibrt`. -/
def Op.subject (env : Env) : Op → Obj
  | .create obj => env.Fill obj
  | .update obj => obj
  | .patch obj _ _ => obj
  | .save obj => obj
  | .remove obj => obj

/-- The prefix a write operation works on. -/
def Op.pfx (env : Env) (op : Op) : String := (op.subject env).Prefix

/-- The key a write operation works on: the key handed to `Patch`, the key of
the object for the other operations. -/
def Op.key (env : Env) : Op → String
  | .patch _ key _ => key
  | op => (op.subject env).Key

/-- The action the spec names for the event of a write operation. -/
def Op.action : Op → String
  | .create _ => "create"
  | .update _ => "update"
  | .patch _ _ _ => "update"
  | .save _ => "save"
  | .remove _ => "delete"

/-- The object a successful write operation leaves under the key: the object as
the store library returned it, detached from the tracker, and nothing after a
Remove. -/
def Op.written (op : Op) (r : StoreResult) : Option Obj :=
  match op with
  | .remove _ => none
  | _ => some r.obj.clearRT

/-- The payload of the event of a successful write operation: the written
object, and for Remove the object that was removed. -/
def Op.payload (op : Op) (r : StoreResult) : Obj :=
  match op with
  | .remove _ => r.obj
  | _ => r.obj.clearRT

/-- A tracker inside `Do` that holds the lock of the preferences. -/
def rtPrefs : RequestTracker :=
  { locks := ["preferences"]
    d := some ["preferences"]
    held := ["preferences"]
    objs := [("preferences", [{ body := Body.other "preferences" "defaultBootEnv" 1 }])] }

/-- A preference whose name, its key, is the empty string. -/
def namelessPref : Obj := { body := Body.other "preferences" "" 0 }

/-- The event a caller publishes for machine `m-1`. -/
def bootEvent : Event := { pfx := "machines", action := "boot", key := "m-1" }

/-- A thunk that publishes `bootEvent` through `PublishEvent` and afterwards
rewrites the event it still holds the pointer to (the first event allocated). -/
def mutatesAfterPublish : Thunk :=
  Thunk.PublishEvent bootEvent (Thunk.setEvent 0 { bootEvent with key := "m-2" } Thunk.ret)

/-- Whether an object is a Stage whose BootEnv field names the boot
environment. -/
def Obj.bootsFrom (b : BootEnv) (o : Obj) : Bool :=
  match o.body with
  | .stage s => decide (s.BootEnv = b.Name)
  | _ => false

/-- What `BootEnv.AfterSave` does to one stage that names the boot
environment: the stage is the result of one `ClearValidation` and one
`Validate` (called with the stage attached to the tracker, in some state of
the tracker) on the stage as it was, and its tracker reference is nil. -/
def Revalidated (env : Env) (before after : Obj) : Prop :=
  (∃ rt1, after = (env.stageValidate rt1 (env.ClearValidation before.setRT)).clearRT) ∧
    after.rt = false

/-- A function on the stages, the identity on other objects. -/
def Obj.mapStage (f : Stage → Stage) (o : Obj) : Obj :=
  match o.body with
  | .stage s => { o with body := Body.stage (f s) }
  | _ => o

/-- A sample environment whose `ClearValidation` resets the validation of a
stage and whose `Stage.Validate` marks the stage validated and available. -/
def validatingEnv : Env :=
  { sampleEnv [] with
    ClearValidation := Obj.mapStage fun s => { s with Validated := false, Available := false, Errors := [] }
    stageValidate := fun _ o => o.mapStage fun s => { s with Validated := true, Available := true } }

/-- The stores of the cascade example: stages `install` and `repair` boot
`ubuntu-20.04-install`, stage `local` boots another boot environment. -/
def rtCascade : RequestTracker :=
  { locks := ["stages", "bootenvs", "machines"]
    d := some ["bootenvs", "machines", "stages"]
    held := ["bootenvs", "machines", "stages"]
    objs :=
      [ ("bootenvs", [{ body := Body.bootenv ubuntuInstall }]),
        ("stages",
          [ { body := Body.stage { Name := "install", BootEnv := "ubuntu-20.04-install" } },
            { body := Body.stage { Name := "local", BootEnv := "local", Validated := true } },
            { body := Body.stage { Name := "repair", BootEnv := "ubuntu-20.04-install"
                                   Errors := ["missing template"] } } ]) ] }

/-- A sample environment whose `utils.Remarshal` decodes the value of the
parameter to the given repos. -/
def reposEnv (files : List String) (repos : List Repo) : Env :=
  { sampleEnv files with decodeRepos := fun _ => some repos }

/-- An install repo for centos on amd64. -/
def centosAmdRepo : Repo :=
  { Tag := "centos-amd64", URL := "http://mirror/centos/amd64/", OS := ["centos"], Arch := "amd64"
    InstallSource := true }

/-- An install repo for centos on arm64 with a boot location. -/
def centosArmRepo : Repo :=
  { Tag := "centos-arm64", URL := "http://mirror/centos/arm64/"
    BootLoc := "http://mirror/centos/arm64/boot", OS := ["centos"], Arch := "aarch64"
    InstallSource := true }

/-- A tracker inside `Do` whose global profile sets `package-repositories`;
the file root is `/tftpboot`. -/
def rtRepos : RequestTracker :=
  { locks := ["stages", "bootenvs", "machines", "profiles", "params"]
    d := some ["bootenvs", "machines", "params", "profiles", "stages"]
    held := ["bootenvs", "machines", "params", "profiles", "stages"]
    FileRoot := "/tftpboot"
    objs := [("profiles", [profileObj "global" [("package-repositories", Val.str "repos")]])] }

/-- The closure `fillInstallRepos` builds for arm64 on `centosArm`. -/
def centosArmLookaside : Lookaside :=
  { arch := "aarch64", realArch := "arm64"
    archInfo := { Kernel := "vmlinuz", Initrds := ["initrd.img"] }
    pf := "/centos/arm64/install", fileRoot := "/tftpboot" }

/-- The boot environment `centosArm` once `fillInstallRepos` has bound the
arm64 repo. -/
def centosArmBound : BootEnv :=
  { centosArm with
    kernelVerified := true
    installRepos := [("arm64", centosArmRepo)]
    pathLookasides := [("arm64", centosArmLookaside)] }

/-- The install repo of scenario S6, with a boot location. -/
def ubuntuRepo (bootLoc : String) : Repo :=
  { Tag := "ubuntu", URL := "http://mirror/ubuntu", BootLoc := bootLoc, OS := ["ubuntu"]
    Arch := "amd64", InstallSource := true }

/-- The boot environment of scenario S6 with the repo bound for amd64; the
kernel and the initrd are declared at the top level. -/
def ubuntuBound (kernel initrd bootLoc : String) : BootEnv :=
  { Name := "ubuntu-install"
    OS := { Name := "ubuntu" }
    Kernel := kernel
    Initrds := [initrd]
    realArches := [("amd64", { Kernel := kernel, Initrds := [initrd] })]
    kernelVerified := true
    installRepos := [("amd64", ubuntuRepo bootLoc)]
    pathLookasides :=
      [("amd64",
        { arch := "amd64", realArch := "amd64", archInfo := { Kernel := kernel, Initrds := [initrd] }
          pf := "/ubuntu/install", fileRoot := "/tftpboot" })] }

/-- The closure of the amd64 lookaside of `ubuntuBound`. -/
def ubuntuLookaside (kernel initrd : String) : Lookaside :=
  { arch := "amd64", realArch := "amd64", archInfo := { Kernel := kernel, Initrds := [initrd] }
    pf := "/ubuntu/install", fileRoot := "/tftpboot" }

/-- Whether a repo meets the three conditions under which `fillInstallRepos`
binds it: it is an install source, its OS list is the one-element list of the
OS of the boot environment, and its arch is an arch of the boot environment. -/
def Repo.installsFor (env : Env) (b : BootEnv) (r : Repo) : Bool :=
  r.InstallSource && decide (r.OS = [b.OS.Name]) &&
    (b.realArches.lookup (b.ArchFor env r.Arch)).isSome

/-- A sample environment whose file system holds one readable file with the
given content. -/
def isoEnv (file content : String) : Env :=
  { sampleEnv [file] with readFile := fun p => if p = file then some content else none }

/-- A lease input with the four required fields set and the MAC address
`aa:bb:cc:dd:ee:ff`. -/
def sampleLease : DhcpLeaseInput :=
  { ExpireTime := some "2026-01-01T00:00:00Z"
    IPAddress := some "192.168.1.10"
    MacAddress := some "aa:bb:cc:dd:ee:ff"
    Valid := some true }

/-- A strict weak order: irreflexive, transitive, and with a transitive
incomparability. -/
def StrictWeakOrder {α : Type} (less : α → α → Bool) : Prop :=
  (∀ a, less a a = false) ∧
  (∀ a b c, less a b = true → less b c = true → less a c = true) ∧
  (∀ a b c, less a b = false → less b a = false → less b c = false → less c b = false →
    less a c = false ∧ less c a = false)

/-- Agreement of the probes of an index with its `less` function: `gte` holds
of the objects that are not less than the reference, `gt` of those the
reference is less than. -/
def ProbesAgree {α : Type} (m : Maker α) : Prop :=
  ∀ ref s, ((m.tests ref).1 s = !m.less s ref) ∧ ((m.tests ref).2 s = m.less ref s)

/-- The elements of a cleaned path: what stands between its slashes, the empty
text before a leading slash and the path `.` left out. -/
def pathElems (p : List Char) : List (List Char) :=
  (splitSlash p).filter fun s => decide (s ≠ []) && decide (s ≠ ['.'])

/-- A path element that a cleaned path can hold: not empty, not `.`, without a
slash (it may be `..`, at the start of a path that is not rooted). -/
def GoodSeg (s : List Char) : Prop :=
  s ≠ [] ∧ s ≠ ['.'] ∧ '/' ∉ s

/-- The ArchInfo `regenArches` derives from the top-level fields of a boot
environment. -/
def BootEnv.topArch (b : BootEnv) : ArchInfo :=
  { Kernel := b.Kernel, Initrds := b.Initrds, BootParams := b.BootParams
    IsoFile := b.OS.IsoFile, Sha256 := b.OS.IsoSha256, IsoUrl := b.OS.IsoUrl }

/-- Whether a message starts with `Arch `, as the messages about a missing
kernel do. -/
def isArchMessage (msg : String) : Bool := "Arch ".data.isPrefixOf msg.data

/-- A boot environment whose supported architectures name amd64 twice, once
under the alias `x86_64`, with different kernels. -/
def twiceAmd (first second : String × ArchInfo) : BootEnv :=
  { Name := "centos-install"
    OS := { Name := "centos", SupportedArchitectures := [first, second] } }

/-- The path `localPathFor` returns, the empty text when it panics. -/
def BootEnv.localPath (env : Env) (rt : RequestTracker) (b : BootEnv) (f arch : String) : String :=
  match b.localPathFor env rt f arch with
  | .ok p => p
  | .error _ => ""

/-- The canary file of an arch: `localPathFor` of the name made of a dot, the
OS name with every slash replaced by an underscore, and `.rebar_canary`. -/
def BootEnv.canaryPath (env : Env) (rt : RequestTracker) (b : BootEnv) (arch : String) : String :=
  b.localPath env rt ("." ++ replaceSlashes b.OS.Name ++ ".rebar_canary") arch

/-- The three conditions under which an arch gets an exploder: it declares an
ISO file; its canary file cannot be read or holds, white space trimmed, another
text than the SHA256 the arch declares; and `os.Stat` does not report the ISO
under `isos` in the file root as not existing. -/
def BootEnv.needsExploding (env : Env) (rt : RequestTracker) (b : BootEnv)
    (kv : String × ArchInfo) : Bool :=
  decide (kv.2.IsoFile ≠ "") &&
  decide ((env.readFile (b.canaryPath env rt kv.1)).map TrimSpace ≠ some kv.2.Sha256) &&
  !env.isNotExist (pathJoin [rt.FileRoot, "isos", kv.2.IsoFile])

/-- The exploder of an arch. -/
def BootEnv.exploderOf (env : Env) (rt : RequestTracker) (b : BootEnv)
    (kv : String × ArchInfo) : Exploder :=
  { arch := kv.1
    isoPath := pathJoin [rt.FileRoot, "isos", kv.2.IsoFile]
    localPath := b.localPath env rt "" kv.1 }

/-- A boot environment that declares an ISO for amd64 and none for arm64. -/
def centosIso : BootEnv :=
  { Name := "centos-install"
    OS := { Name := "centos/7" }
    realArches :=
      [ ("amd64", { Kernel := "vmlinuz", IsoFile := "centos-7.iso", Sha256 := "abc" }),
        ("arm64", { Kernel := "vmlinuz" }) ] }

/-- Whether an object is a boot environment. -/
def Obj.isBootEnv (o : Obj) : Bool :=
  match o.body with
  | .bootenv _ => true
  | _ => false

/-- The boot environments among the items whose OS has the name. -/
def sameOs (name : String) (items : List Obj) : List Obj :=
  items.filter fun o =>
    match o.body with
    | .bootenv x => decide (x.OS.Name = name)
    | _ => false

/-- The path `PathFor` returns, the empty text when it panics. -/
def BootEnv.pathOf (env : Env) (b : BootEnv) (f arch : String) : String :=
  match b.PathFor env f arch with
  | .ok p => p
  | .error _ => ""

/-- The boot environment offered to the machines nobody knows. -/
def sledgehammer : BootEnv :=
  { Name := "discovery"
    OS := { Name := "sledgehammer" }
    OnlyUnknown := true
    Templates := [{ Name := "pxelinux", Path := "pxelinux.cfg/default" }]
    realArches := [("amd64", { Kernel := "vmlinuz0" })] }

/-- A boot environment for known machines, with a template of its own. -/
def ubuntuKnown : BootEnv :=
  { Name := "ubuntu-20.04-install"
    OS := { Name := "ubuntu-20.04" }
    Templates := [{ Name := "pxelinux", Path := "pxelinux.cfg/ubuntu" }]
    realArches := [("amd64", { Kernel := "vmlinuz" })] }

/-- The environment with another file system: what `os.Stat` answers, whether
its error is one of absence, and what `ioutil.ReadFile` reads. -/
def Env.withFiles (env : Env) (stat : String → Option Bool) (isNotExist : String → Bool)
    (readFile : String → Option String) : Env :=
  { env with stat := stat, isNotExist := isNotExist, readFile := readFile }

/-- Whether a message mentions a text. -/
def mentions (msg needle : String) : Bool :=
  msg.data.tails.any fun t => needle.data.isPrefixOf t

/-- The boot environment of scenario S1, with the templates it is given. -/
def ubuntuS1 (templates : List TemplateInfo) : BootEnv :=
  { Name := "ubuntu"
    OS := { Name := "ubuntu" }
    Kernel := "linux"
    Initrds := ["initrd"]
    Templates := templates }

/-- A template for pxelinux. -/
def pxelinuxTemplate : TemplateInfo := { Name := "pxelinux", Path := "pxelinux.cfg/ubuntu" }

/-- The tracker of scenario S1: inside `Do` with the locks of the create action
of a boot environment, over empty stores, so that no install repo is bound. -/
def rtS1 : RequestTracker :=
  { locks := BootEnv.Locks "create"
    d := some (canonicalLocks (BootEnv.Locks "create"))
    held := canonicalLocks (BootEnv.Locks "create")
    FileRoot := "/tftpboot" }

/-- The boot environment of scenario S1 as `Validate` leaves it when it has the
pxelinux template. -/
def ubuntuS1Validated : BootEnv :=
  { ubuntuS1 [pxelinuxTemplate] with
    Validated := true
    Available := true
    realArches := [("amd64", { Kernel := "linux", Initrds := ["initrd"] })] }

/-- Whether a panic is one of a missing lock: the message of `find` for a
store that is not locked, or the dereference of a store that is nil. -/
def isLockPanic (p : String) : Bool :=
  decide (p = "nil pointer dereference") || "Missing requested lock for ".data.isPrefixOf p.data

/-- The actions that save an object. -/
def saveActions : List String := ["create", "update", "patch"]

/-- A tracker inside `Do` that holds no lock. -/
def rtNoLocks : RequestTracker := { d := some [] }

/-- A tracker inside `Do` with the locks of the delete action of a boot
environment; the bootenvs store holds `sledgehammer` alone. -/
def rtSledge : RequestTracker :=
  { locks := BootEnv.Locks "delete"
    d := some (canonicalLocks (BootEnv.Locks "delete"))
    held := canonicalLocks (BootEnv.Locks "delete")
    FileRoot := "/tftpboot"
    objs := [("bootenvs", [{ body := Body.bootenv sledgehammer }])] }

/-- The preferences store with two preferences, inside `Do`. -/
def rtTwoPrefs : RequestTracker :=
  { locks := ["preferences"]
    d := some ["preferences"]
    held := ["preferences"]
    objs :=
      [("preferences",
        [ { body := Body.other "preferences" "defaultBootEnv" 1 },
          { body := Body.other "preferences" "unknownBootEnv" 2 } ])] }

/-- The preference `defaultBootEnv` after a patch replaced its name by
`unknownBootEnv`. -/
def renamedPref : Obj := { body := Body.other "preferences" "unknownBootEnv" 1 }

/-- A patch of one operation, which replaces the name of the object. -/
def renamePatch : List String :=
  ["\x7b\"op\":\"replace\",\"path\":\"/Name\",\"value\":\"unknownBootEnv\"\x7d"]

/-- A sample environment whose JSON library applies `renamePatch` to the
preference `defaultBootEnv`: the patched text decodes to `renamedPref`. -/
def renamingEnv : Env :=
  { sampleEnv [] with
    marshal := fun _ => "\x7b\"Name\":\"defaultBootEnv\",\"Val\":\"1\"\x7d"
    patchApply := fun _ _ => PatchResult.ok "\x7b\"Name\":\"unknownBootEnv\",\"Val\":\"1\"\x7d"
    unmarshal := fun _ _ => .ok renamedPref }

/-- The call of `Patch` on the preference `defaultBootEnv` with the patch that
renames it. -/
def renamingPatch : CrudResult :=
  Patch renamingEnv rtTwoPrefs namelessPref "defaultBootEnv" renamePatch

/-! ## Theorems -/

/-- C1: code evaluated at the failing input.  `Do` on a tracker that locks
`bootenvs`, with a thunk that publishes one event: `unlocker` calls the queued
closure and the publishers receive the event while the lock on `bootenvs` is
still held; the release function is called afterwards. -/
theorem C1_event_delivered_before_release :
    (Do rtBootenvs publishOnce).rt.log =
      [ Obs.acquired ["bootenvs"],
        Obs.called (Queued.publish "bootenvs" "create" "ubuntu" none) ["bootenvs"],
        Obs.delivered { pfx := "bootenvs", action := "create", key := "ubuntu" } ["bootenvs"],
        Obs.released ] := by
  decide

/-- C10: code evaluated at the failing input.  The thunk of `Do` registers a
thunk that, when `unlocker` runs it, registers a second thunk (labelled 2):
the second thunk is accepted (the tracker is still inside `Do`), is never
called, and is gone from the queue when `Do` returns. -/
theorem C10_thunk_queued_while_draining_is_dropped :
    (Do rtBootenvs (Thunk.RunAfter registersMore Thunk.ret)).rt.log =
      [ Obs.acquired ["bootenvs"],
        Obs.called (Queued.thunk registersMore) ["bootenvs"],
        Obs.ran 1 ["bootenvs"],
        Obs.released ] ∧
    (Do rtBootenvs (Thunk.RunAfter registersMore Thunk.ret)).rt.toRunAfter = [] ∧
    (Do rtBootenvs (Thunk.RunAfter registersMore Thunk.ret)).panic = none := by
  decide


/-! ### What `Do` does with the post-commit queue -/

theorem set_length_append {α : Type} (l : List α) (e e1 : α) :
    (l ++ [e]).set l.length e1 = l ++ [e1] := by
  induction l with
  | nil => rfl
  | cons a as ih => simp [List.set, ih]

theorem thunk_closed_mono (t : Thunk) (n m : Nat) (h : t.closed n = true) (hnm : n ≤ m) :
    t.closed m = true := by
  induction t generalizing n m with
  | ret => rfl
  | mark _ k ih => exact ih n m h hnm
  | RunAfter t k iht ihk =>
    simp only [Thunk.closed, Bool.and_eq_true] at h ⊢
    exact ⟨iht n m h.1 hnm, ihk n m h.2 hnm⟩
  | Publish _ _ _ _ k ih => exact ih n m h hnm
  | PublishEvent _ k ih => exact ih (n + 1) (m + 1) h (Nat.succ_le_succ hnm)
  | setEvent p _ k ih =>
    simp only [Thunk.closed, Bool.and_eq_true, decide_eq_true_eq] at h ⊢
    exact ⟨lt_of_lt_of_le h.1 hnm, ih n m h.2 hnm⟩

theorem queued_closed_mono (q : Queued) (n m : Nat) (h : q.closed n = true) (hnm : n ≤ m) :
    q.closed m = true := by
  cases q with
  | thunk t => exact thunk_closed_mono t n m h hnm
  | publish _ _ _ _ => rfl
  | publishEvent e =>
    simp only [Queued.closed, decide_eq_true_eq] at h ⊢
    exact lt_of_lt_of_le h hnm

theorem runThunk_inside (t : Thunk) (rt : RequestTracker) (hd : rt.d.isSome = true)
    (hc : t.closed rt.heap.length = true) :
    (runThunk t rt).panic = none ∧ (runThunk t rt).rt.d = rt.d ∧
      (runThunk t rt).rt.held = rt.held ∧
      rt.heap.length ≤ (runThunk t rt).rt.heap.length ∧
      (∃ q, (runThunk t rt).rt.toRunAfter = rt.toRunAfter ++ q ∧
        ∀ x ∈ q, x.closed (runThunk t rt).rt.heap.length = true) ∧
      ∃ l, (runThunk t rt).rt.log = rt.log ++ l ∧ calledOf l = [] ∧
        ∀ e ∈ l, e.underLocks rt.held = true := by
  have hnone : rt.d.isNone = false := by
    cases h : rt.d with
    | none => simp [h] at hd
    | some _ => rfl
  induction t generalizing rt with
  | ret =>
    exact ⟨rfl, rfl, rfl, le_refl _, ⟨[], by simp [runThunk], by simp⟩, [], by simp [runThunk], rfl,
      by simp⟩
  | mark n k ih =>
    obtain ⟨h1, h2, h3, hh, ⟨q, h4, h4c⟩, l, h5, h6, h7⟩ :=
      ih { rt with log := rt.log ++ [Obs.ran n rt.held] } hd hc hnone
    refine ⟨h1, h2, h3, hh, ⟨q, h4, h4c⟩, Obs.ran n rt.held :: l, ?_, ?_, ?_⟩
    · simp only [runThunk, h5]; simp
    · simpa [calledOf] using h6
    · intro e he
      simp only [List.mem_cons] at he
      rcases he with rfl | he
      · simp [Obs.underLocks]
      · exact h7 e he
  | RunAfter t k _ ih =>
    simp only [Thunk.closed, Bool.and_eq_true] at hc
    have ho : RunAfter rt t = { rt := { rt with toRunAfter := rt.toRunAfter ++ [Queued.thunk t] } } := by
      simp [RunAfter, runAfter, hnone]
    obtain ⟨h1, h2, h3, hh, ⟨q, h4, h4c⟩, l, h5, h6, h7⟩ :=
      ih { rt with toRunAfter := rt.toRunAfter ++ [Queued.thunk t] } hd hc.2 hnone
    simp only [runThunk, ho, Option.isSome_none, Bool.false_eq_true, if_false]
    refine ⟨h1, h2, h3, hh, ⟨Queued.thunk t :: q, by rw [h4]; simp, ?_⟩, l, h5, h6, h7⟩
    intro x hx
    simp only [List.mem_cons] at hx
    rcases hx with rfl | hx
    · exact thunk_closed_mono t _ _ hc.1 hh
    · exact h4c x hx
  | Publish p a key ref k ih =>
    by_cases hp : rt.publishers = true
    · have ho : Publish rt p a key ref =
          { rt := { rt with toRunAfter := rt.toRunAfter ++ [Queued.publish p a key ref] } } := by
        simp [Publish, runAfter, hnone, hp]
      obtain ⟨h1, h2, h3, hh, ⟨q, h4, h4c⟩, l, h5, h6, h7⟩ :=
        ih { rt with toRunAfter := rt.toRunAfter ++ [Queued.publish p a key ref] } hd hc hnone
      simp only [runThunk, ho, Option.isSome_none, Bool.false_eq_true, if_false]
      refine ⟨h1, h2, h3, hh, ⟨Queued.publish p a key ref :: q, by rw [h4]; simp, ?_⟩, l, h5, h6, h7⟩
      intro x hx
      simp only [List.mem_cons] at hx
      rcases hx with rfl | hx
      · rfl
      · exact h4c x hx
    · have ho : Publish rt p a key ref = { rt := rt } := by
        simp [Publish, hp]
      simp only [runThunk, ho, Option.isSome_none, Bool.false_eq_true, if_false]
      exact ih rt hd hc hnone
  | PublishEvent e k ih =>
    by_cases hp : rt.publishers = true
    · have ho : PublishEvent { rt with heap := rt.heap ++ [e] } rt.heap.length =
          { rt := { rt with
                    heap := rt.heap ++ [{ e with principal := rt.principal }]
                    toRunAfter := rt.toRunAfter ++ [Queued.publishEvent rt.heap.length] } } := by
        simp [PublishEvent, runAfter, hnone, hp, set_length_append]
      obtain ⟨h1, h2, h3, hh, ⟨q, h4, h4c⟩, l, h5, h6, h7⟩ :=
        ih { rt with
             heap := rt.heap ++ [{ e with principal := rt.principal }]
             toRunAfter := rt.toRunAfter ++ [Queued.publishEvent rt.heap.length] }
          hd (by simpa [Thunk.closed] using hc) hnone
      simp only [runThunk, ho, Option.isSome_none, Bool.false_eq_true, if_false]
      have hlen : rt.heap.length + 1 ≤
          (runThunk k { rt with
             heap := rt.heap ++ [{ e with principal := rt.principal }]
             toRunAfter := rt.toRunAfter ++ [Queued.publishEvent rt.heap.length] }).rt.heap.length := by
        simpa using hh
      refine ⟨h1, h2, h3, by omega,
        ⟨Queued.publishEvent rt.heap.length :: q, by rw [h4]; simp, ?_⟩, l, h5, h6, h7⟩
      intro x hx
      simp only [List.mem_cons] at hx
      rcases hx with rfl | hx
      · simp only [Queued.closed, decide_eq_true_eq]
        omega
      · exact h4c x hx
    · have ho : PublishEvent { rt with heap := rt.heap ++ [e] } rt.heap.length =
          { rt := { rt with heap := rt.heap ++ [e] } } := by
        simp [PublishEvent, hp]
      obtain ⟨h1, h2, h3, hh, ⟨q, h4, h4c⟩, l, h5, h6, h7⟩ :=
        ih { rt with heap := rt.heap ++ [e] } hd (by simpa [Thunk.closed] using hc) hnone
      simp only [runThunk, ho, Option.isSome_none, Bool.false_eq_true, if_false]
      have hlen : rt.heap.length + 1 ≤
          (runThunk k { rt with heap := rt.heap ++ [e] }).rt.heap.length := by
        simpa using hh
      exact ⟨h1, h2, h3, by omega, ⟨q, h4, h4c⟩, l, h5, h6, h7⟩
  | setEvent p e k ih =>
    simp only [Thunk.closed, Bool.and_eq_true, decide_eq_true_eq] at hc
    obtain ⟨h1, h2, h3, hh, ⟨q, h4, h4c⟩, l, h5, h6, h7⟩ :=
      ih { rt with heap := rt.heap.set p e } hd (by simpa using hc.2) hnone
    simp only [runThunk, hc.1, if_true]
    have hlen : rt.heap.length ≤ (runThunk k { rt with heap := rt.heap.set p e }).rt.heap.length := by
      simpa using hh
    exact ⟨h1, h2, h3, hlen, ⟨q, h4, h4c⟩, l, h5, h6, h7⟩

theorem runQueued_inside (q : Queued) (rt : RequestTracker) (hd : rt.d.isSome = true)
    (hc : q.closed rt.heap.length = true) :
    (runQueued q rt).panic = none ∧ (runQueued q rt).rt.d = rt.d ∧
      (runQueued q rt).rt.held = rt.held ∧
      rt.heap.length ≤ (runQueued q rt).rt.heap.length ∧
      ∃ l, (runQueued q rt).rt.log = rt.log ++ l ∧ calledOf l = [q] ∧
        ∀ e ∈ l, e.underLocks rt.held = true := by
  cases q with
  | thunk t =>
    obtain ⟨h1, h2, h3, hh, -, l, h5, h6, h7⟩ :=
      runThunk_inside t { rt with log := rt.log ++ [Obs.called (Queued.thunk t) rt.held] } hd hc
    refine ⟨h1, h2, h3, hh, Obs.called (Queued.thunk t) rt.held :: l, ?_, ?_, ?_⟩
    · simp only [runQueued, h5]; simp
    · simp only [calledOf, List.filterMap_cons] at h6 ⊢
      rw [h6]
    · intro e he
      simp only [List.mem_cons] at he
      rcases he with rfl | he
      · simp [Obs.underLocks]
      · exact h7 e he
  | publish p a key toSend =>
    refine ⟨rfl, rfl, rfl, le_refl _, [Obs.called (Queued.publish p a key toSend) rt.held,
      Obs.delivered { pfx := p, action := a, key := key, principal := rt.principal, object := toSend }
        rt.held], ?_, ?_, ?_⟩
    · simp [runQueued, deliver]
    · simp [calledOf]
    · intro e he
      simp only [List.mem_cons, List.mem_singleton, List.not_mem_nil, or_false] at he
      rcases he with rfl | rfl <;> simp [Obs.underLocks]
  | publishEvent p =>
    simp only [Queued.closed, decide_eq_true_eq] at hc
    have hget : rt.heap[p]? = some (rt.heap.get ⟨p, hc⟩) := by
      simp [List.getElem?_eq_getElem hc]
    have hrun : runQueued (Queued.publishEvent p) rt =
        { rt := deliver { rt with log := rt.log ++ [Obs.called (Queued.publishEvent p) rt.held] }
            (rt.heap.get ⟨p, hc⟩) } := by
      simp only [runQueued, hget]
    rw [hrun]
    refine ⟨rfl, rfl, rfl, le_refl _, [Obs.called (Queued.publishEvent p) rt.held,
      Obs.delivered (rt.heap.get ⟨p, hc⟩) rt.held], ?_, ?_, ?_⟩
    · simp [deliver]
    · simp [calledOf]
    · intro e he
      simp only [List.mem_cons, List.mem_singleton, List.not_mem_nil, or_false] at he
      rcases he with rfl | rfl <;> simp [Obs.underLocks]

theorem drain_inside (qs : List Queued) (rt : RequestTracker) (hd : rt.d.isSome = true)
    (hc : ∀ q ∈ qs, q.closed rt.heap.length = true) :
    (drain qs rt).panic = none ∧ (drain qs rt).rt.d = rt.d ∧ (drain qs rt).rt.held = rt.held ∧
      ∃ l, (drain qs rt).rt.log = rt.log ++ l ∧ calledOf l = qs ∧
        ∀ e ∈ l, e.underLocks rt.held = true := by
  induction qs generalizing rt with
  | nil => exact ⟨rfl, rfl, rfl, [], by simp [drain], rfl, by simp⟩
  | cons q rest ih =>
    obtain ⟨h1, h2, h3, hh, l1, h5, h6, h7⟩ :=
      runQueued_inside q rt hd (hc q (List.mem_cons_self _ _))
    obtain ⟨g1, g2, g3, l2, g5, g6, g7⟩ := ih (runQueued q rt).rt (by rw [h2]; exact hd)
      (fun x hx => queued_closed_mono x _ _ (hc x (List.mem_cons_of_mem _ hx)) hh)
    simp only [drain, h1, Option.isSome_none, Bool.false_eq_true, if_false]
    refine ⟨g1, g2.trans h2, g3.trans h3, l1 ++ l2, ?_, ?_, ?_⟩
    · rw [g5, h5, List.append_assoc]
    · simp only [calledOf, List.filterMap_append] at h6 g6 ⊢
      rw [h6, g6]
      rfl
    · intro e he
      simp only [List.mem_append] at he
      rcases he with he | he
      · exact h7 e he
      · rw [← h3]; exact g7 e he

/-- What `Do` does on a tracker that is not inside `Do`, when the thunk and the
entries the queue holds write and read through allocated pointers only: it
does not panic; between the acquisition of the locks and the call of the
release function every effect of the thunk, every call of a queued entry and
every delivery of an event happens with the locks held; the entries called are
the queue as it stood when the thunk returned, each once and in queue order;
afterwards the queue is empty and the tracker is outside `Do`. -/
theorem Do_drains_before_release (rt : RequestTracker) (thunk : Thunk) (h : rt.d = none)
    (hq : ∀ q ∈ rt.toRunAfter, q.closed rt.heap.length = true)
    (ht : thunk.closed rt.heap.length = true) :
    ∃ l, (Do rt thunk).rt.log =
        rt.log ++ Obs.acquired (canonicalLocks rt.locks) :: l ++ [Obs.released] ∧
      (∀ e ∈ l, e.underLocks (canonicalLocks rt.locks) = true) ∧
      calledOf l = (runThunk thunk (lockEnts rt)).rt.toRunAfter ∧
      (Do rt thunk).panic = none ∧ (Do rt thunk).rt.toRunAfter = [] ∧
      (Do rt thunk).rt.d = none ∧ (Do rt thunk).rt.held = [] := by
  have hd : (lockEnts rt).d.isSome = true := rfl
  obtain ⟨h1, h2, h3, hh, ⟨q, h4, h4c⟩, l1, h5, h6, h7⟩ := runThunk_inside thunk (lockEnts rt) hd ht
  have hall : ∀ x ∈ (runThunk thunk (lockEnts rt)).rt.toRunAfter,
      x.closed (runThunk thunk (lockEnts rt)).rt.heap.length = true := by
    intro x hx
    rw [h4] at hx
    simp only [List.mem_append] at hx
    rcases hx with hx | hx
    · exact queued_closed_mono x _ _ (hq x hx) hh
    · exact h4c x hx
  obtain ⟨g1, g2, g3, l2, g5, g6, g7⟩ :=
    drain_inside (runThunk thunk (lockEnts rt)).rt.toRunAfter (runThunk thunk (lockEnts rt)).rt
      (by rw [h2]; exact hd) hall
  clear hall h4 h4c hh
  have hheld : (lockEnts rt).held = canonicalLocks rt.locks := rfl
  have hlog : (lockEnts rt).log = rt.log ++ [Obs.acquired (canonicalLocks rt.locks)] := rfl
  generalize hL : lockEnts rt = L at *
  generalize hR : runThunk thunk L = R at *
  generalize hD : drain R.rt.toRunAfter R.rt = D at *
  have hDo : Do rt thunk =
      { rt := { D.rt with held := [], log := D.rt.log ++ [Obs.released], d := none, toRunAfter := [] }
        panic := none } := by
    simp [Do, h, unlocker, hL, hR, hD, g1, h1]
  rw [hDo]
  refine ⟨l1 ++ l2, ?_, ?_, ?_, rfl, rfl, rfl, rfl⟩
  · simp [g5, h5, hlog]
  · intro e he
    simp only [List.mem_append] at he
    rcases he with he | he
    · rw [← hheld]; exact h7 e he
    · rw [← hheld, ← h3]; exact g7 e he
  · simp only [calledOf, List.filterMap_append] at h6 g6 ⊢
    rw [h6, g6]
    rfl

/-! ### Stores -/

theorem getStore_setStore (objs : List (String × Store)) (p q : String) (s : Store) :
    getStore (setStore objs p s) q = if p = q then s else getStore objs q := by
  induction objs with
  | nil =>
    by_cases h : p = q
    · subst h
      simp [setStore, getStore, List.lookup]
    · have hb : (q == p) = false := by simpa using fun e : q = p => h e.symm
      simp [setStore, getStore, List.lookup, h, hb]
  | cons a rest ih =>
    obtain ⟨a1, a2⟩ := a
    by_cases h1 : a1 = p
    · subst h1
      by_cases h : a1 = q
      · subst h
        simp [setStore, getStore, List.lookup]
      · have hb : (q == a1) = false := by simpa using fun e : q = a1 => h e.symm
        simp [setStore, getStore, List.lookup, h, hb]
    · by_cases h : q = a1
      · subst h
        have h3 : ¬ p = q := fun e => h1 e.symm
        simp [setStore, getStore, List.lookup, h1, h3]
      · have hb : (q == a1) = false := by simpa using h
        simp only [setStore, h1, if_false, getStore, List.lookup, hb]
        exact ih

theorem setFirst_bodies (key : String) (item : Obj) (s : Store)
    (h : Store.Find s key = some item) :
    (Store.setFirst key item.setRT s).map Obj.body = s.map Obj.body := by
  induction s with
  | nil => simp [Store.Find] at h
  | cons x xs ih =>
    by_cases hk : x.Key = key
    · have hx : x = item := by
        simpa [Store.Find, List.find?, hk] using h
      subst hx
      simp [Store.setFirst, hk, Obj.setRT]
    · have hx : Store.Find xs key = some item := by
        simpa [Store.Find, List.find?, hk] using h
      simp [Store.setFirst, hk, ih hx]

theorem stores_eq_getStore {rt : RequestTracker} {p : String} {idx : Store}
    (h : stores rt p = some idx) : idx = getStore rt.objs p := by
  unfold stores at h
  split at h
  · simp at h
  · split at h
    · simpa using h.symm
    · simp at h

theorem events_queueHooks (rt : RequestTracker) (ts : List Thunk) :
    events (queueHooks rt ts).toRunAfter = events rt.toRunAfter := by
  simp [events, queueHooks, List.filter_append, List.filter_map]
  intro a _
  rfl

theorem spkibrt_ok {rt : RequestTracker} {obj : Obj} {x : Parts} (h : spkibrt rt obj = .ok x) :
    x.pfx = obj.Prefix ∧ x.key = obj.Key ∧ x.ref = obj ∧ stores rt obj.Prefix = some x.idx ∧
      x.target = x.idx.Find obj.Key := by
  unfold spkibrt at h
  split at h
  · simp at h
  · split at h
    · simp at h
    · rename_i idx hidx
      simp only [Except.ok.injEq] at h
      subst h
      simp [hidx]

/-! ### Failed writes -/

theorem create_failed (env : Env) (rt : RequestTracker) (obj : Obj) (r : StoreResult)
    (hcall : (Create env rt obj).call = some r) (hs : r.saved = false) (hp : r.panic = none) :
    (Create env rt obj).saved = false ∧ (Create env rt obj).err = r.err ∧
      (Create env rt obj).rt.objs = rt.objs ∧
      events (Create env rt obj).rt.toRunAfter = events rt.toRunAfter := by
  unfold Create at hcall ⊢
  cases hx : spkibrt rt (env.Fill obj) with
  | error p => simp [hx] at hcall
  | ok x =>
    simp only [hx] at hcall ⊢
    by_cases hk : x.key = ""
    · simp [hk] at hcall
    · by_cases ht : x.target.isSome
      · simp [hk, ht] at hcall
      · generalize env.storeCreate rt (env.ClearValidation x.ref.setRT) = r1 at hcall ⊢
        by_cases hpan : r1.panic.isSome
        · simp [hk, ht, hpan] at hcall
          subst hcall
          simp [hp] at hpan
        · by_cases hsv : r1.saved
          · simp [hk, ht, hpan, hsv] at hcall
            subst hcall
            simp [hs] at hsv
          · simp [hk, ht, hpan, hsv] at hcall
            subst hcall
            simp [hk, ht, hpan, hsv, events_queueHooks]
            simp [queueHooks]

theorem update_failed (env : Env) (rt : RequestTracker) (obj : Obj) (r : StoreResult)
    (hcall : (Update env rt obj).call = some r) (hs : r.saved = false) (hp : r.panic = none) :
    (Update env rt obj).saved = false ∧ (Update env rt obj).err = r.err ∧
      (Update env rt obj).rt.objs = rt.objs ∧
      events (Update env rt obj).rt.toRunAfter = events rt.toRunAfter := by
  unfold Update at hcall ⊢
  cases hx : spkibrt rt obj with
  | error p => simp [hx] at hcall
  | ok x =>
    simp only [hx] at hcall ⊢
    cases ht : x.target with
    | none => simp [ht] at hcall
    | some t =>
      simp only [ht] at hcall ⊢
      generalize env.storeUpdate rt (env.ClearValidation (env.Fill x.ref).setRT) = r1 at hcall ⊢
      by_cases hpan : r1.panic.isSome
      · simp [hpan] at hcall
        subst hcall
        simp [hp] at hpan
      · by_cases hsv : r1.saved
        · simp [hpan, hsv] at hcall
          subst hcall
          simp [hs] at hsv
        · simp [hpan, hsv] at hcall
          subst hcall
          simp [hpan, hsv, events_queueHooks]
          simp [queueHooks]

theorem save_failed (env : Env) (rt : RequestTracker) (obj : Obj) (r : StoreResult)
    (hcall : (Save env rt obj).call = some r) (hs : r.saved = false) (hp : r.panic = none) :
    (Save env rt obj).saved = false ∧ (Save env rt obj).err = r.err ∧
      (Save env rt obj).rt.objs = rt.objs ∧
      events (Save env rt obj).rt.toRunAfter = events rt.toRunAfter := by
  unfold Save at hcall ⊢
  cases hx : spkibrt rt obj with
  | error p => simp [hx] at hcall
  | ok x =>
    simp only [hx] at hcall ⊢
    generalize env.storeSave rt (env.ClearValidation (env.Fill x.ref).setRT) = r1 at hcall ⊢
    by_cases hpan : r1.panic.isSome
    · simp [hpan] at hcall
      subst hcall
      simp [hp] at hpan
    · by_cases hsv : r1.saved
      · simp [hpan, hsv] at hcall
        subst hcall
        simp [hs] at hsv
      · simp [hpan, hsv] at hcall
        subst hcall
        simp [hpan, hsv, events_queueHooks]
        simp [queueHooks]

theorem patch_failed (env : Env) (rt : RequestTracker) (obj : Obj) (key : String)
    (patch : List String) (r : StoreResult)
    (hcall : (Patch env rt obj key patch).call = some r) (hs : r.saved = false)
    (hp : r.panic = none) :
    (Patch env rt obj key patch).saved = false ∧ (Patch env rt obj key patch).err = r.err ∧
      (Patch env rt obj key patch).rt.objs = rt.objs ∧
      events (Patch env rt obj key patch).rt.toRunAfter = events rt.toRunAfter := by
  unfold Patch at hcall ⊢
  cases hx : spkibrt rt obj with
  | error p => simp [hx] at hcall
  | ok x =>
    simp only [hx] at hcall ⊢
    cases ht : x.idx.Find key with
    | none => simp [ht] at hcall
    | some target =>
      simp only [ht] at hcall ⊢
      cases hpa : env.patchApply patch (env.marshal target) with
      | failed e loc =>
        simp only [hpa] at hcall
        cases hl : patch[loc]? <;> simp [hl] at hcall
      | ok resBuf =>
        simp only [hpa] at hcall ⊢
        cases hu : env.unmarshal resBuf target.New with
        | error msg => simp [hu] at hcall
        | ok toSave =>
          simp only [hu] at hcall ⊢
          generalize env.storeUpdate rt _ = r1 at hcall ⊢
          by_cases hpan : r1.panic.isSome
          · simp [hpan] at hcall
            subst hcall
            simp [hp] at hpan
          · by_cases hsv : r1.saved
            · simp [hpan, hsv] at hcall
              subst hcall
              simp [hs] at hsv
            · simp [hpan, hsv] at hcall
              subst hcall
              simp [hpan, hsv, events_queueHooks]
              simp [queueHooks]

theorem remove_failed (env : Env) (rt : RequestTracker) (obj : Obj) (r : StoreResult)
    (hcall : (Remove env rt obj).call = some r) (hs : r.saved = false) (hp : r.panic = none) :
    (Remove env rt obj).saved = false ∧ (Remove env rt obj).err = r.err ∧
      (∀ p, bodies (Remove env rt obj).rt.objs p = bodies rt.objs p) ∧
      events (Remove env rt obj).rt.toRunAfter = events rt.toRunAfter := by
  unfold Remove at hcall ⊢
  cases hx : spkibrt rt obj with
  | error p => simp [hx] at hcall
  | ok x =>
    obtain ⟨hpfx, hkey, -, hst, htg⟩ := spkibrt_ok hx
    simp only [hx] at hcall ⊢
    cases ht : x.target with
    | none => simp [ht] at hcall
    | some item =>
      simp only [ht] at hcall ⊢
      generalize storeRemove env _ item.setRT = r1 at hcall ⊢
      have hb : ∀ p, bodies (setStore rt.objs x.pfx (Store.setFirst x.key item.setRT x.idx)) p =
          bodies rt.objs p := by
        intro p
        unfold bodies
        rw [getStore_setStore]
        by_cases hpp : x.pfx = p
        · simp only [hpp, if_true]
          have hidx : x.idx = getStore rt.objs p := by
            rw [← hpp, hpfx]; exact stores_eq_getStore hst
          rw [← hidx]
          apply setFirst_bodies
          rw [hkey, ← htg, ht]
        · simp [hpp]
      by_cases hpan : r1.panic.isSome
      · simp [hpan] at hcall
        subst hcall
        simp [hp] at hpan
      · by_cases hsv : r1.saved
        · simp [hpan, hsv] at hcall
          subst hcall
          simp [hs] at hsv
        · simp [hpan, hsv] at hcall
          subst hcall
          simp [hpan, hsv, events_queueHooks]
          intro p
          simpa [queueHooks] using hb p

/-- C2: atomicity of writes.  When one of Create, Update, Patch, Save and
Remove, called inside `Do`, reaches the store library and the library reports
that nothing was saved or removed, the operation returns false with the error
of the library, every store of the DataTracker holds the same model values in
the same order as before (for Create, Update, Patch and Save the stores are
equal to what they were; Remove has set the RequestTracker reference of the
object it found, which is not part of the model value), and the events of the
post-commit queue are the events it held before. -/
theorem C2_failed_write_is_atomic (env : Env) (rt : RequestTracker) (op : Op) (r : StoreResult)
    (hcall : (crud env rt op).call = some r) (hs : r.saved = false) (hp : r.panic = none) :
    (crud env rt op).saved = false ∧ (crud env rt op).err = r.err ∧
      (∀ p, bodies (crud env rt op).rt.objs p = bodies rt.objs p) ∧
      ((∀ o, op ≠ Op.remove o) → (crud env rt op).rt.objs = rt.objs) ∧
      events (crud env rt op).rt.toRunAfter = events rt.toRunAfter := by
  cases op with
  | create obj =>
    obtain ⟨h1, h2, h3, h4⟩ := create_failed env rt obj r hcall hs hp
    exact ⟨h1, h2, fun p => by simp only [crud, h3], fun _ => h3, h4⟩
  | update obj =>
    obtain ⟨h1, h2, h3, h4⟩ := update_failed env rt obj r hcall hs hp
    exact ⟨h1, h2, fun p => by simp only [crud, h3], fun _ => h3, h4⟩
  | patch obj key pt =>
    obtain ⟨h1, h2, h3, h4⟩ := patch_failed env rt obj key pt r hcall hs hp
    exact ⟨h1, h2, fun p => by simp only [crud, h3], fun _ => h3, h4⟩
  | save obj =>
    obtain ⟨h1, h2, h3, h4⟩ := save_failed env rt obj r hcall hs hp
    exact ⟨h1, h2, fun p => by simp only [crud, h3], fun _ => h3, h4⟩
  | remove obj =>
    obtain ⟨h1, h2, h3, h4⟩ := remove_failed env rt obj r hcall hs hp
    exact ⟨h1, h2, h3, fun h => absurd rfl (h obj), h4⟩

/-- C2 witness: a Save refused by the store library. -/
theorem C2_failed_write_is_atomic_witness :
    (crud (failingEnv storeDown) rtInDo (Op.save { body := Body.bootenv ubuntuInstall })).call =
        some { saved := false, err := some storeDown
               obj := { body := Body.bootenv ubuntuInstall, rt := true } } ∧
      (crud (failingEnv storeDown) rtInDo (Op.save { body := Body.bootenv ubuntuInstall })).err =
        some storeDown ∧
      (crud (failingEnv storeDown) rtInDo (Op.save { body := Body.bootenv ubuntuInstall })).rt.objs =
        rtInDo.objs :=
  have h := C2_failed_write_is_atomic (failingEnv storeDown) rtInDo
    (Op.save { body := Body.bootenv ubuntuInstall })
    { saved := false, err := some storeDown, obj := { body := Body.bootenv ubuntuInstall, rt := true } }
    (by decide) rfl rfl
  ⟨by decide, h.2.1, h.2.2.2.1 (fun o => by simp)⟩

/-! ### Existence preconditions -/

theorem spkibrt_of_stores {rt : RequestTracker} {obj : Obj} {idx : Store}
    (h : stores rt obj.Prefix = some idx) :
    spkibrt rt obj =
      .ok { pfx := obj.Prefix, key := obj.Key, idx := idx, ref := obj, target := idx.Find obj.Key } := by
  have hd : rt.d.isNone = false := by
    unfold stores at h
    cases hd : rt.d with
    | none => simp [hd] at h
    | some l => rfl
  simp [spkibrt, hd, h]

/-- C3: existence preconditions.  Inside `Do`: Create of an object whose key
(a key is not empty: Create refuses the empty key first, with code 400) is
already present in the store of its prefix returns false with an error of code
409; Update and Remove of an object whose key is absent, and Patch at a key
that is absent, return an error of code 404.  Each of these calls returns
without calling the store library and leaves the whole state of the tracker,
stores and post-commit queue included, as it was.  A first Create of a key can
succeed, and the second Create of that key is then the 409 conflict. -/
theorem C3_existence_preconditions (env : Env) (rt : RequestTracker) :
    (∀ (obj : Obj) (idx : Store) (old : Obj), stores rt (env.Fill obj).Prefix = some idx →
      idx.Find (env.Fill obj).Key = some old → (env.Fill obj).Key ≠ "" →
      Create env rt obj =
        { rt := rt, saved := false, call := none
          err := some { Typ := "CREATE", Model := (env.Fill obj).Prefix, Key := (env.Fill obj).Key
                        Messages := ["already exists"], Code := 409 } }) ∧
    (∀ (obj : Obj) (idx : Store), stores rt obj.Prefix = some idx → idx.Find obj.Key = none →
      Update env rt obj =
        { rt := rt, saved := false, call := none
          err := some { Typ := "PUT", Model := obj.Prefix, Key := obj.Key
                        Messages := ["Not Found"], Code := 404 } }) ∧
    (∀ (obj : Obj) (key : String) (patch : List String) (idx : Store),
      stores rt obj.Prefix = some idx → idx.Find key = none →
      Patch env rt obj key patch =
        { rt := rt, saved := false, model := none, call := none
          err := some { Typ := "PATCH", Model := obj.Prefix, Key := key
                        Messages := ["Not Found"], Code := 404 } }) ∧
    (∀ (obj : Obj) (idx : Store), stores rt obj.Prefix = some idx → idx.Find obj.Key = none →
      Remove env rt obj =
        { rt := rt, saved := false, call := none
          err := some { Typ := "DELETE", Model := obj.Prefix, Key := obj.Key
                        Messages := ["Not Found"], Code := 404 } }) ∧
    (∃ (e : Env) (r : RequestTracker) (obj : Obj), (Create e r obj).saved = true ∧
      (Create e (Create e r obj).rt obj).saved = false ∧
      (Create e (Create e r obj).rt obj).err.map Error.Code = some 409) := by
  refine ⟨?_, ?_, ?_, ?_, ?_⟩
  · intro obj idx old hst hfind hkey
    simp [Create, spkibrt_of_stores hst, hfind, hkey]
  · intro obj idx hst hfind
    simp [Update, spkibrt_of_stores hst, hfind]
  · intro obj key patch idx hst hfind
    simp [Patch, spkibrt_of_stores hst, hfind]
  · intro obj idx hst hfind
    simp [Remove, spkibrt_of_stores hst, hfind]
  · exact ⟨sampleEnv [], rtInDo, { body := Body.bootenv { Name := "sledgehammer" } }, by decide⟩

/-- C3 witness: Create of the boot environment the store already holds, and
Remove of a task the (empty) tasks store does not hold. -/
theorem C3_existence_preconditions_witness :
    (Create (sampleEnv []) rtInDo { body := Body.bootenv ubuntuInstall }).err.map Error.Code =
        some 409 ∧
      (Create (sampleEnv []) rtInDo { body := Body.bootenv ubuntuInstall }).rt = rtInDo ∧
      (Remove (sampleEnv []) rtInDo { body := Body.bootenv { Name := "sledgehammer" } }).err.map
        Error.Code = some 404 := by
  have h := C3_existence_preconditions (sampleEnv []) rtInDo
  have h1 := h.1 { body := Body.bootenv ubuntuInstall } [{ body := Body.bootenv ubuntuInstall }]
    { body := Body.bootenv ubuntuInstall } (by decide) (by decide) (by decide)
  have h4 := h.2.2.2.1 { body := Body.bootenv { Name := "sledgehammer" } }
    [{ body := Body.bootenv ubuntuInstall }] (by decide) (by decide)
  rw [h1, h4]
  exact ⟨rfl, rfl, rfl⟩

/-! ### Parameter aggregation -/

theorem lookup_mapSet {α : Type} (k k1 : String) (v : α) (l : List (String × α)) :
    (mapSet k1 v l).lookup k = if k = k1 then some v else l.lookup k := by
  induction l with
  | nil =>
    by_cases h : k = k1
    · subst h; simp [mapSet, List.lookup]
    · have hb : (k == k1) = false := by simpa using h
      simp [mapSet, List.lookup, h, hb]
  | cons a rest ih =>
    obtain ⟨a1, a2⟩ := a
    by_cases h1 : a1 = k1
    · subst h1
      by_cases h : k = a1
      · subst h; simp [mapSet, List.lookup]
      · have hb : (k == a1) = false := by simpa using h
        simp [mapSet, List.lookup, h, hb]
    · by_cases h : k = a1
      · subst h
        simp [mapSet, List.lookup, h1, Ne.symm h1]
      · have hb : (k == a1) = false := by simpa using h
        simp only [mapSet, h1, if_false, List.lookup, hb]
        exact ih

theorem mergeSub_params (sub : Obj) (k : String) (ps : List (String × Val)) (acc : Agg) :
    (mergeSub sub ps acc).params.lookup k =
      match acc.params.lookup k with
      | some v => some v
      | none => ps.lookup k := by
  induction ps generalizing acc with
  | nil =>
    simp only [mergeSub]
    cases h : acc.params.lookup k <;> simp [List.lookup]
  | cons a rest ih =>
    obtain ⟨k1, v1⟩ := a
    unfold mergeSub
    by_cases hin : (acc.params.lookup k1).isSome
    · rw [if_pos hin, ih]
      cases h : acc.params.lookup k with
      | some v => rfl
      | none =>
        have hne : (k == k1) = false := by
          by_cases e : k = k1
          · subst e; simp [h] at hin
          · simpa using e
        simp [List.lookup, hne]
    · rw [if_neg hin, ih]
      simp only [lookup_mapSet]
      by_cases e : k = k1
      · subst e
        have hn : acc.params.lookup k = none := by
          cases h : acc.params.lookup k with
          | none => rfl
          | some v => simp [h] at hin
        simp [hn, List.lookup]
      · have hne : (k == k1) = false := by simpa using e
        simp only [e, if_false]
        cases h : acc.params.lookup k <;> simp [List.lookup, hne]

theorem mergeSub_sources (sub : Obj) (k : String) (ps : List (String × Val)) (acc : Agg) :
    (mergeSub sub ps acc).sources.lookup k =
      match acc.params.lookup k with
      | some _ => acc.sources.lookup k
      | none =>
        match ps.lookup k with
        | some _ => some sub
        | none => acc.sources.lookup k := by
  induction ps generalizing acc with
  | nil =>
    simp only [mergeSub]
    cases h : acc.params.lookup k <;> simp [List.lookup]
  | cons a rest ih =>
    obtain ⟨k1, v1⟩ := a
    unfold mergeSub
    by_cases hin : (acc.params.lookup k1).isSome
    · rw [if_pos hin, ih]
      cases h : acc.params.lookup k with
      | some v => rfl
      | none =>
        have hne : (k == k1) = false := by
          by_cases e : k = k1
          · subst e; simp [h] at hin
          · simpa using e
        simp [List.lookup, hne]
    · rw [if_neg hin, ih]
      simp only [lookup_mapSet]
      by_cases e : k = k1
      · subst e
        have hn : acc.params.lookup k = none := by
          cases h : acc.params.lookup k with
          | none => rfl
          | some v => simp [h] at hin
        simp [hn, List.lookup]
      · have hne : (k == k1) = false := by simpa using e
        simp only [e, if_false]
        cases h : acc.params.lookup k <;> simp [List.lookup, hne]

theorem mergeSubs_params (k : String) (subs : List Obj) (acc : Agg) :
    (mergeSubs subs acc).params.lookup k =
      match acc.params.lookup k with
      | some v => some v
      | none => (firstHit k subs).map Prod.snd := by
  induction subs generalizing acc with
  | nil =>
    simp only [mergeSubs]
    cases h : acc.params.lookup k <;> simp [firstHit]
  | cons sub rest ih =>
    unfold mergeSubs
    rw [ih, mergeSub_params]
    cases h : acc.params.lookup k with
    | some v => rfl
    | none =>
      cases h2 : sub.GetParams.lookup k <;> simp [firstHit, h2]

theorem mergeSubs_sources (k : String) (subs : List Obj) (acc : Agg) :
    (mergeSubs subs acc).sources.lookup k =
      match acc.params.lookup k with
      | some _ => acc.sources.lookup k
      | none =>
        match firstHit k subs with
        | some hit => some hit.1
        | none => acc.sources.lookup k := by
  induction subs generalizing acc with
  | nil =>
    simp only [mergeSubs]
    cases h : acc.params.lookup k <;> simp [firstHit]
  | cons sub rest ih =>
    unfold mergeSubs
    rw [ih, mergeSub_params, mergeSub_sources]
    cases h : acc.params.lookup k with
    | some v => rfl
    | none =>
      cases h2 : sub.GetParams.lookup k <;> simp [firstHit, h2]

theorem ownSources_lookup (obj : Obj) (k : String) (ps : List (String × Val))
    (acc : List (String × Obj)) :
    (ownSources obj ps acc).lookup k =
      match ps.lookup k with
      | some _ => some obj
      | none => acc.lookup k := by
  induction ps generalizing acc with
  | nil => simp [ownSources, List.lookup]
  | cons a rest ih =>
    obtain ⟨k1, v1⟩ := a
    unfold ownSources
    rw [ih, lookup_mapSet]
    by_cases e : k = k1
    · subst e
      cases h : rest.lookup k <;> simp [List.lookup]
    · have hne : (k == k1) = false := by simpa using e
      simp [List.lookup, hne, e]

theorem find_of_stores (env : Env) {rt : RequestTracker} {pfx : String} {s : Store}
    (h : stores rt pfx = some s) (key : String) :
    ∃ res, find env rt pfx key = .ok res ∧ ∀ o, res = some o → o ∈ s := by
  unfold find
  simp only [h]
  cases hc : splitColon key.data with
  | none =>
    exact ⟨_, rfl, fun o ho => List.mem_of_find?_eq_some ho⟩
  | some ik =>
    obtain ⟨i, k⟩ := ik
    cases hu : env.uniqueIndex pfx (String.mk i) with
    | none =>
      simp only [hu]
      exact ⟨_, rfl, fun o ho => List.mem_of_find?_eq_some ho⟩
    | some proj =>
      simp only [hu]
      exact ⟨_, rfl, fun o ho => List.mem_of_find?_eq_some ho⟩

theorem Find_of_stores (env : Env) {rt : RequestTracker} {pfx : String} {s : Store}
    (h : stores rt pfx = some s) (key : String) :
    ∃ res, Find env rt pfx key = .ok res ∧ ∀ o, res = some o → ∃ o1 ∈ s, o = o1.clearRT := by
  obtain ⟨res, hres, hmem⟩ := find_of_stores env h key
  refine ⟨res.map Obj.clearRT, by simp [Find, hres], ?_⟩
  intro o ho
  cases res with
  | none => simp at ho
  | some o1 =>
    simp only [Option.map_some', Option.some.injEq] at ho
    exact ⟨o1, hmem o1 rfl, ho.symm⟩

theorem findProfiles_ok {env : Env} {rt : RequestTracker} {ps : Store}
    (h : stores rt "profiles" = some ps) (names : List String) :
    findProfiles env rt names = .ok (names.filterMap (profileNamed env rt)) := by
  induction names with
  | nil => rfl
  | cons pn rest ih =>
    obtain ⟨res, hres, -⟩ := Find_of_stores env h pn
    unfold findProfiles
    rw [hres, ih]
    cases res <;> simp [List.filterMap_cons, profileNamed, hres]

theorem isStage_body {o : Obj} (h : o.isStage = true) : ∃ s, o.body = Body.stage s := by
  unfold Obj.isStage at h
  split at h
  · exact ⟨_, by assumption⟩
  · simp at h

theorem subObjs_ok (env : Env) {rt : RequestTracker} {obj : Obj} {m : Machine} {ps ss : Store}
    (hm : obj.body = Body.machine m) (hp : stores rt "profiles" = some ps)
    (hs : stores rt "stages" = some ss) (htyped : ss.all Obj.isStage = true) :
    subObjs env rt obj = .ok (aggOrder env rt m) := by
  obtain ⟨g, hg, -⟩ := Find_of_stores env hp rt.GlobalProfileName
  unfold subObjs aggOrder
  simp only [hm, findProfiles_ok hp]
  by_cases hst : m.Stage = ""
  · simp [hst, hg, profileNamed]
  · obtain ⟨res, hres, hmem⟩ := Find_of_stores env hs m.Stage
    cases res with
    | none => simp [hst, hres, hg, profileNamed]
    | some sobj =>
      obtain ⟨o1, ho1, rfl⟩ := hmem sobj rfl
      obtain ⟨s, hbody⟩ := isStage_body (List.all_eq_true.mp htyped o1 ho1)
      have hb : o1.clearRT.body = Body.stage s := by simpa [Obj.clearRT] using hbody
      simp [hst, hres, hg, profileNamed, AsStage, hb, findProfiles_ok hp]

/-- C4: parameter aggregation order.  For a machine, with the profiles and
stages stores locked: `GetParams` with aggregation and without decryption does
not panic and maps every key to the machine's own value when the machine sets
it and otherwise to the value of the first object that sets it in the order
P1..Pn (the machine's profiles that exist), Q1..Qk (the profiles of its stage
that exist), G (the global profile); `getAggParams` records the machine,
respectively that object, as the source of the key; without aggregation the
result is the machine's own parameters. -/
theorem C4_aggregation_order (env : Env) (rt : RequestTracker) (obj : Obj) (m : Machine)
    (ps ss : Store) (hm : obj.body = Body.machine m) (hp : stores rt "profiles" = some ps)
    (hs : stores rt "stages" = some ss) (htyped : ss.all Obj.isStage = true) :
    (GetParams env rt obj true false).panic = none ∧
    (∀ k, (GetParams env rt obj true false).params.lookup k =
      match m.Params.lookup k with
      | some v => some v
      | none => (firstHit k (aggOrder env rt m)).map Prod.snd) ∧
    (∀ k, (sourcesOf env rt obj true).lookup k =
      match m.Params.lookup k with
      | some _ => some obj
      | none => (firstHit k (aggOrder env rt m)).map Prod.fst) ∧
    (GetParams env rt obj false false).params = m.Params ∧
    (GetParams env rt obj false false).panic = none := by
  have hgp : obj.GetParams = m.Params := by simp [Obj.GetParams, hm]
  have hsub := subObjs_ok env hm hp hs htyped
  refine ⟨?_, ?_, ?_, ?_, ?_⟩
  · simp [GetParams, getAggParams, hsub]
  · intro k
    simp only [GetParams, getAggParams, hsub, hgp, Bool.not_true, Bool.false_eq_true, if_false]
    rw [mergeSubs_params]
  · intro k
    simp only [sourcesOf, getAggParams, hsub, hgp, Bool.not_true, Bool.false_eq_true, if_false]
    rw [mergeSubs_sources]
    simp only [ownSources_lookup]
    cases h1 : m.Params.lookup k with
    | some v => simp
    | none => cases h2 : firstHit k (aggOrder env rt m) <;> simp [List.lookup]
  · simp [GetParams, getAggParams, hgp]
  · simp [GetParams, getAggParams]

/-- C4 witness: the machine of the example has profiles P1 and P2 and stage S
with profile P3, the global profile is G; `a` resolves from P2, `b` from P3,
`c` from G and `own` from the machine itself. -/
theorem C4_aggregation_order_witness :
    (GetParams (sampleEnv []) rtAgg { body := Body.machine aggMachine } true false).params =
        [("own", Val.num 0), ("a", Val.num 2), ("b", Val.num 3), ("c", Val.num 4)] ∧
    (sourcesOf (sampleEnv []) rtAgg { body := Body.machine aggMachine } true).lookup "b" =
        some (profileObj "P3" [("a", Val.num 3), ("b", Val.num 3)]) ∧
    (GetParams (sampleEnv []) rtAgg { body := Body.machine aggMachine } true false).panic = none :=
  ⟨by decide, by decide,
    (C4_aggregation_order (sampleEnv []) rtAgg { body := Body.machine aggMachine } aggMachine
      (getStore rtAgg.objs "profiles") (getStore rtAgg.objs "stages") rfl (by decide) (by decide)
      (by decide)).1⟩

/-! ### Secure parameters -/

theorem getAggParams_of_lookup {env : Env} {rt : RequestTracker} {obj : Obj} {k : String} {v : Val}
    (h : (GetParams env rt obj true false).params.lookup k = some v) :
    ∃ agg, getAggParams env rt obj obj.GetParams true = .ok agg ∧ agg.params.lookup k = some v ∧
      sourcesOf env rt obj true = agg.sources := by
  unfold GetParams at h
  cases hagg : getAggParams env rt obj obj.GetParams true with
  | error p => simp [hagg, List.lookup] at h
  | ok agg =>
    refine ⟨agg, rfl, ?_, ?_⟩
    · simpa [hagg] using h
    · simp [sourcesOf, hagg]

/-- C5: secure round trip with the key of the source object.  When the
definition of parameter `k` is secure, aggregation over the queried object `O`
resolves `k` from the source object `S`, and the value stored there is `V`
sealed for `PublicKeyFor(S)`, then `GetParam(O, k, aggregate = true,
decrypt = true)` returns `(V, true)` without panic; the key it loads is the
private key of `S` (the secrets store is left as `PrivateKeyFor(S)` leaves it),
whatever the key of `O` is. -/
theorem C5_secure_round_trip (env : Env) (rt : RequestTracker) (O S pobj : Obj) (param : Param)
    (k : String) (V : Val) (pub : Nat)
    (hdef : find env rt "params" k = .ok (some pobj)) (hparam : AsParam pobj = .ok param)
    (hsecure : param.Secure = true)
    (hval : (GetParams env rt O true false).params.lookup k = some (Val.sealed pub V))
    (hsrc : (sourcesOf env rt O true).lookup k = some S)
    (hpub : (PublicKeyFor rt S).key = some pub) :
    (GetParam env rt O k true true).val = V ∧ (GetParam env rt O k true true).ok = true ∧
      (GetParam env rt O k true true).panic = none ∧
      (GetParam env rt O k true true).rt = (PrivateKeyFor rt S).rt := by
  obtain ⟨agg, hagg, hlk, hso⟩ := getAggParams_of_lookup hval
  rw [hso] at hsrc
  unfold PublicKeyFor at hpub
  cases hk : (PrivateKeyFor rt S).key with
  | none =>
    simp only [hk] at hpub
    simp [hk] at hpub
  | some sk =>
    simp only [hk] at hpub
    cases he : (PrivateKeyFor rt S).err with
    | some e => simp [he] at hpub
    | none =>
      simp [he] at hpub
      subst hpub
      simp [GetParam, hagg, hlk, hsrc, decryptParam, hdef, hparam, hsecure, hk, he, openSealed]

/-- C5 witness: the machine resolves `secret` from profile P3 of its stage; the
value was sealed for the public key of P3 (private key 7) and is opened with
that key, not with the key of the machine (private key 9). -/
theorem C5_secure_round_trip_witness :
    (GetParam (sampleEnv []) rtSecure { body := Body.machine aggMachine } "secret" true true).val =
        Val.str "hunter2" ∧
      (PrivateKeyFor rtSecure { body := Body.machine aggMachine }).key = some 9 ∧
      openSealed 9 (Val.sealed (pubOf 7) (Val.str "hunter2")) = none :=
  ⟨(C5_secure_round_trip (sampleEnv []) rtSecure { body := Body.machine aggMachine }
      (profileObj "P3" [("secret", Val.sealed (pubOf 7) (Val.str "hunter2"))])
      { body := Body.param { Name := "secret", Secure := true } }
      { Name := "secret", Secure := true } "secret" (Val.str "hunter2") (pubOf 7)
      (by decide) (by decide) rfl (by decide) (by decide) (by decide)).1,
    by decide, by decide⟩

/-! ### Delete guard of boot environments -/

theorem isMachine_body {o : Obj} (h : o.isMachine = true) : ∃ m, o.body = Body.machine m := by
  unfold Obj.isMachine at h
  split at h
  · exact ⟨_, by assumption⟩
  · simp at h

theorem bootEnvMachines_typed (b : BootEnv) (ms : List Obj) (e : Error)
    (h : ms.all Obj.isMachine = true) :
    bootEnvMachines b ms e = .ok { e with Messages := e.Messages ++ machineUses b ms } := by
  induction ms generalizing e with
  | nil => simp [bootEnvMachines, machineUses]
  | cons o rest ih =>
    simp only [List.all_cons, Bool.and_eq_true] at h
    obtain ⟨m, hm⟩ := isMachine_body h.1
    unfold bootEnvMachines
    simp only [AsMachine, hm]
    by_cases hu : m.BootEnv = b.Name
    · simp [hu, ih _ h.2, machineUses, hm, Error.Errorf, List.filterMap_cons]
    · simp [hu, ih _ h.2, machineUses, hm, List.filterMap_cons]

theorem bootEnvStages_typed (b : BootEnv) (ss : List Obj) (e : Error)
    (h : ss.all Obj.isStage = true) :
    bootEnvStages b ss e = .ok { e with Messages := e.Messages ++ stageUses b ss } := by
  induction ss generalizing e with
  | nil => simp [bootEnvStages, stageUses]
  | cons o rest ih =>
    simp only [List.all_cons, Bool.and_eq_true] at h
    obtain ⟨s, hs⟩ := isStage_body h.1
    unfold bootEnvStages
    simp only [AsStage, hs]
    by_cases hu : s.BootEnv = b.Name
    · simp [hu, ih _ h.2, stageUses, hs, Error.Errorf, List.filterMap_cons]
    · simp [hu, ih _ h.2, stageUses, hs, List.filterMap_cons]

theorem machineUses_ne_nil (b : BootEnv) (ms : List Obj) (h : usedByMachine b ms = true) :
    machineUses b ms ≠ [] := by
  induction ms with
  | nil => simp [usedByMachine] at h
  | cons o rest ih =>
    simp only [usedByMachine, List.any_cons, Bool.or_eq_true] at h
    cases ho : o.body with
    | machine m =>
      by_cases hu : m.BootEnv = b.Name
      · simp [machineUses, List.filterMap_cons, ho, hu]
      · have hr : usedByMachine b rest = true := by
          rcases h with h | h
          · simp [ho, hu] at h
          · exact h
        simpa [machineUses, List.filterMap_cons, ho, hu] using ih hr
    | _ =>
      have hr : usedByMachine b rest = true := by
        rcases h with h | h
        · simp [ho] at h
        · exact h
      simpa [machineUses, List.filterMap_cons, ho] using ih hr

theorem stageUses_ne_nil (b : BootEnv) (ss : List Obj) (h : usedByStage b ss = true) :
    stageUses b ss ≠ [] := by
  induction ss with
  | nil => simp [usedByStage] at h
  | cons o rest ih =>
    simp only [usedByStage, List.any_cons, Bool.or_eq_true] at h
    cases ho : o.body with
    | stage s =>
      by_cases hu : s.BootEnv = b.Name
      · simp [stageUses, List.filterMap_cons, ho, hu]
      · have hr : usedByStage b rest = true := by
          rcases h with h | h
          · simp [ho, hu] at h
          · exact h
        simpa [stageUses, List.filterMap_cons, ho, hu] using ih hr
    | _ =>
      have hr : usedByStage b rest = true := by
        rcases h with h | h
        · simp [ho] at h
        · exact h
      simpa [stageUses, List.filterMap_cons, ho] using ih hr

theorem BeforeDelete_guarded {rt : RequestTracker} {b : BootEnv} {ms ss : List Obj}
    (hm : stores rt "machines" = some ms) (hs : stores rt "stages" = some ss)
    (hmt : ms.all Obj.isMachine = true) (hst : ss.all Obj.isStage = true)
    (hg : guarded rt b ms ss = true) :
    ∃ e, BootEnv.BeforeDelete rt b = .ok (some e) ∧ e.Code = 409 ∧ e.Typ = StillInUseError := by
  unfold BootEnv.BeforeDelete
  unfold guarded at hg
  cases hu : b.OnlyUnknown with
  | true =>
    simp only [hu, if_true, decide_eq_true_eq] at hg
    simp [hg, Error.Errorf, Error.HasError]
  | false =>
    simp only [hu, Bool.false_eq_true, if_false, Bool.or_eq_true, decide_eq_true_eq] at hg
    simp only [hm, hs, Bool.not_false, if_true, Bool.false_eq_true, if_false]
    rw [bootEnvMachines_typed _ _ _ hmt]
    simp only
    rw [bootEnvStages_typed _ _ _ hst]
    simp only [Error.HasError]
    rcases hg with (hg | hg) | hg
    · simp [hg, Error.Errorf]
    · have := machineUses_ne_nil b ms hg
      by_cases hp : pref rt "defaultBootEnv" = b.Name <;> simp [hp, Error.Errorf, this]
    · have := stageUses_ne_nil b ss hg
      by_cases hp : pref rt "defaultBootEnv" = b.Name <;> simp [hp, Error.Errorf, this]

theorem stores_setStore_ne (rt : RequestTracker) (p q : String) (s : Store) (h : p ≠ q) :
    stores { rt with objs := setStore rt.objs p s } q = stores rt q := by
  unfold stores
  cases rt.d with
  | none => rfl
  | some locked => simp [getStore_setStore, h]

/-- C7 (amended): delete guard of boot environments.  With the machines, stages
and bootenvs stores locked: for a boot environment B held in the bootenvs store
that is guarded (`OnlyUnknown` false and B the `defaultBootEnv` preference or
the BootEnv of some machine or stage; or `OnlyUnknown` true and B the
`unknownBootEnv` preference), `BootEnv.BeforeDelete` returns an error of code
409 and type StillInUseError, and Remove of B returns false with that error
without panic, the store library reporting nothing removed; every store holds
the same model values as before and the post-commit queue is unchanged. -/
theorem C7_bootenv_delete_guard (env : Env) (rt : RequestTracker) (obj item : Obj) (b : BootEnv)
    (ms ss bs : Store)
    (hm : stores rt "machines" = some ms) (hs : stores rt "stages" = some ss)
    (hb : stores rt "bootenvs" = some bs)
    (hmt : ms.all Obj.isMachine = true) (hst : ss.all Obj.isStage = true)
    (hitem : bs.Find b.Name = some item) (hbody : item.body = Body.bootenv b)
    (hobj : obj.Prefix = "bootenvs") (hkey : obj.Key = b.Name)
    (hg : guarded rt b ms ss = true) :
    ∃ e, BootEnv.BeforeDelete rt b = .ok (some e) ∧ e.Code = 409 ∧ e.Typ = StillInUseError ∧
      (Remove env rt obj).saved = false ∧ (Remove env rt obj).err = some e ∧
      (Remove env rt obj).panic = none ∧
      (Remove env rt obj).call.map StoreResult.saved = some false ∧
      (∀ p, bodies (Remove env rt obj).rt.objs p = bodies rt.objs p) ∧
      (Remove env rt obj).rt.toRunAfter = rt.toRunAfter := by
  obtain ⟨e, he, hc, ht⟩ := BeforeDelete_guarded hm hs hmt hst hg
  have hb1 : stores rt obj.Prefix = some bs := by rw [hobj]; exact hb
  have hsp := spkibrt_of_stores hb1
  have hrt0 : BootEnv.BeforeDelete
      { rt with objs := setStore rt.objs obj.Prefix (Store.setFirst obj.Key item.setRT bs) } b =
      .ok (some e) := by
    rw [← he]
    unfold BootEnv.BeforeDelete
    rw [stores_setStore_ne rt obj.Prefix "machines" _ (by rw [hobj]; decide),
      stores_setStore_ne rt obj.Prefix "stages" _ (by rw [hobj]; decide)]
    rfl
  have hres : Remove env rt obj =
      { rt := { rt with objs := setStore rt.objs obj.Prefix (Store.setFirst b.Name item.setRT bs) }
        saved := false, err := some e
        call := some { saved := false, err := some e, obj := item.setRT } } := by
    simp only [hkey] at hrt0
    simp [Remove, hsp, hkey, hitem, storeRemove, BeforeDelete, Obj.setRT, hbody]
    simp only [Obj.setRT, hbody] at hrt0
    simp [hrt0, queueHooks]
  have hcall : (Remove env rt obj).call =
      some { saved := false, err := some e, obj := item.setRT } := by rw [hres]
  obtain ⟨h1, h2, h3, -⟩ := remove_failed env rt obj _ hcall rfl rfl
  refine ⟨e, he, hc, ht, h1, h2, ?_, by simp [hcall], h3, ?_⟩
  · rw [hres]
  · rw [hres]

/-- C7 witness: the boot environment `ubuntu-20.04-install` is used by stage S;
Remove is refused with the 409 error. -/
theorem C7_bootenv_delete_guard_witness :
    ∃ e, BootEnv.BeforeDelete rtGuard ubuntuInstall = .ok (some e) ∧ e.Code = 409 ∧
      e.Typ = StillInUseError ∧
      (Remove (sampleEnv []) rtGuard { body := Body.bootenv ubuntuInstall }).saved = false ∧
      (Remove (sampleEnv []) rtGuard { body := Body.bootenv ubuntuInstall }).err = some e := by
  obtain ⟨e, h1, h2, h3, h4, h5, -⟩ :=
    C7_bootenv_delete_guard (sampleEnv []) rtGuard { body := Body.bootenv ubuntuInstall }
      { body := Body.bootenv ubuntuInstall } ubuntuInstall
      (getStore rtGuard.objs "machines") (getStore rtGuard.objs "stages")
      (getStore rtGuard.objs "bootenvs")
      (by decide) (by decide) (by decide) (by decide) (by decide) (by decide) rfl (by decide)
      (by decide) (by decide)
  exact ⟨e, h1, h2, h3, h4, h5⟩

/-- C7 counterexample: the boot environment `discovery` has `OnlyUnknown` set
and is the BootEnv of machine m1; `BootEnv.BeforeDelete` returns nil and Remove
takes it out of the store.  The boot environment `ubuntu-20.04-install` has
`OnlyUnknown` false and is the `unknownBootEnv` preference, no machine or stage
uses it; `BootEnv.BeforeDelete` returns nil as well. -/
theorem C7_guard_depends_on_only_unknown :
    usedByMachine discovery (getStore rtGuard.objs "machines") = true ∧
      BootEnv.BeforeDelete rtGuard discovery = .ok none ∧
      (Remove (sampleEnv []) rtGuard { body := Body.bootenv discovery }).saved = true ∧
      bodies (Remove (sampleEnv []) rtGuard { body := Body.bootenv discovery }).rt.objs "bootenvs" =
        [Body.bootenv ubuntuInstall] ∧
      BootEnv.BeforeDelete
        { rtGuard with prefs := [("unknownBootEnv", "ubuntu-20.04-install")]
                       objs := [("bootenvs", [{ body := Body.bootenv ubuntuInstall }])] }
        ubuntuInstall = .ok none := by
  decide

/-! ### Delete guard of tasks -/

theorem taskUsers_typed (t : Task) (items : List Obj) (e : Error)
    (h : items.all (fun j => j.isMachine || j.isStage) = true) :
    taskUsers t items e =
      .ok { e with Messages := e.Messages ++ (referencing t items).map (stillUses t) } := by
  induction items generalizing e with
  | nil => simp [taskUsers, referencing]
  | cons j rest ih =>
    simp only [List.all_cons, Bool.and_eq_true, Bool.or_eq_true] at h
    have hok : ∃ u, HasTask j t.Name = .ok u := by
      rcases h.1 with hj | hj
      · obtain ⟨m, hm⟩ := isMachine_body hj
        exact ⟨decide (t.Name ∈ m.Tasks), by simp [HasTask, hm]⟩
      · obtain ⟨s, hs⟩ := isStage_body hj
        exact ⟨decide (t.Name ∈ s.Tasks), by simp [HasTask, hs]⟩
    obtain ⟨u, hu⟩ := hok
    unfold taskUsers
    have hrest := ih e (by simpa using h.2)
    have hrest2 := ih (e.Errorf (stillUses t j)) (by simpa using h.2)
    cases u with
    | true =>
      simp only [hu]
      have : referencing t (j :: rest) = j :: referencing t rest := by
        simp [referencing, List.filter_cons, hu]
      rw [this]
      simpa [stillUses, Error.Errorf] using hrest2
    | false =>
      simp only [hu]
      have : referencing t (j :: rest) = referencing t rest := by
        simp [referencing, List.filter_cons, hu]
      rw [this]
      exact hrest

/-- C8: delete guard of tasks.  With the machines and stages stores locked,
`Task.BeforeDelete` returns nil when no machine and no stage satisfies
`HasTask(t.Name)`, and otherwise an error of code 409 and type StillInUseError
that carries exactly one message `<prefix>:<key> still uses <task name>` for
each referencing object, the machines (in store order) before the stages. -/
theorem C8_task_delete_guard (rt : RequestTracker) (t : Task) (ms ss : Store)
    (hm : stores rt "machines" = some ms) (hs : stores rt "stages" = some ss)
    (hmt : ms.all Obj.isMachine = true) (hst : ss.all Obj.isStage = true) :
    Task.BeforeDelete rt t =
      .ok (if referencing t ms ++ referencing t ss = [] then none
        else some { Code := 409, Typ := StillInUseError, Model := "tasks", Key := t.Name
                    Messages := (referencing t ms ++ referencing t ss).map (stillUses t) }) := by
  have hm2 : ms.all (fun j => j.isMachine || j.isStage) = true := by
    rw [List.all_eq_true] at hmt ⊢
    intro j hj
    simp [hmt j hj]
  have hs2 : ss.all (fun j => j.isMachine || j.isStage) = true := by
    rw [List.all_eq_true] at hst ⊢
    intro j hj
    simp [hst j hj]
  unfold Task.BeforeDelete
  simp only [taskPrefixes, hm, hs, taskUsers_typed t ms _ hm2, taskUsers_typed t ss _ hs2]
  by_cases hnil : referencing t ms ++ referencing t ss = []
  · simp only [hnil, if_true]
    simp only [List.append_eq_nil] at hnil
    simp [hnil.1, hnil.2, Error.HasError]
  · simp only [hnil, if_false]
    have : List.map (stillUses t) (referencing t ms) ++ List.map (stillUses t) (referencing t ss) ≠ [] := by
      simpa using hnil
    simp [Error.HasError, this]

/-- C8 witness: scenario S5.  Deleting the task `install`, which machine m1 and
stage `stageA` list, is refused with one message for the machine followed by
one message citing `stages:stageA`; the task `wipe` is not referenced. -/
theorem C8_task_delete_guard_witness :
    Task.BeforeDelete rtTasks { Name := "install" } =
        .ok (some { Code := 409, Typ := StillInUseError, Model := "tasks", Key := "install"
                    Messages := ["machines:m-1 still uses install",
                                 "stages:stageA still uses install"] }) ∧
      Task.BeforeDelete rtTasks { Name := "wipe" } = .ok none := by
  rw [C8_task_delete_guard rtTasks { Name := "install" } (getStore rtTasks.objs "machines")
      (getStore rtTasks.objs "stages") (by decide) (by decide) (by decide) (by decide)]
  decide

/-! ### Arch bootability -/

/-- C9: code evaluated at the failing input.  The boot environment declares
kernel `vmlinuz` and initrd `initrd.img` for arm64 under
`OS.SupportedArchitectures`, no install repo is bound, and only the kernel
exists under the file root: `CanArchBoot` returns nil for arm64 although the
initrd of that arch is missing, because `canLocalBoot` walks the top-level
`Initrds`, which are empty. -/
theorem C9_initrds_of_the_arch_are_not_checked :
    centosArm.NetBoot = true ∧
      centosArm.ArchFor (sampleEnv []) "arm64" = "arm64" ∧
      centosArm.installRepos.lookup "arm64" = none ∧
      (centosArm.realArches.lookup "arm64").map ArchInfo.Initrds = some ["initrd.img"] ∧
      centosArm.localPathFor (sampleEnv []) rtFiles "initrd.img" "arm64" =
        .ok "/tftpboot/centos/arm64/install/initrd.img" ∧
      (sampleEnv ["/tftpboot/centos/arm64/install/vmlinuz"]).stat
        "/tftpboot/centos/arm64/install/initrd.img" = none ∧
      centosArm.CanArchBoot (sampleEnv ["/tftpboot/centos/arm64/install/vmlinuz"]) rtFiles "arm64" =
        .ok none := by
  decide

/-- The other direction of the same defect: the arm64 arch declares a kernel
and no initrd, and its kernel exists under the file root, yet `CanArchBoot`
refuses arm64 over the top-level initrd, which it looks for under the arm64
tree. -/
theorem canArchBoot_checks_top_level_initrds :
    (centosBoth.realArches.lookup "arm64").map ArchInfo.Initrds = some [] ∧
      (centosBoth.CanArchBoot (sampleEnv ["/tftpboot/centos/arm64/install/vmlinuz"]) rtFiles
        "arm64").map (Option.map Error.Messages) =
        .ok (some ["bootenv: centos-install: missing initrd initrd.img " ++
          "(/tftpboot/centos/arm64/install/initrd.img) for arch arm64"]) := by
  decide

/-! ### Paths -/

theorem splitSlash_ne_nil (p : List Char) : ∃ s ss, splitSlash p = s :: ss := by
  induction p with
  | nil => exact ⟨[], [], rfl⟩
  | cons c cs ih =>
    obtain ⟨s, ss, h⟩ := ih
    by_cases hc : c = '/'
    · exact ⟨[], splitSlash cs, by simp [splitSlash, hc]⟩
    · exact ⟨c :: s, ss, by simp [splitSlash, hc, h]⟩

theorem splitSlash_append_slash (a b : List Char) :
    splitSlash (a ++ '/' :: b) = splitSlash a ++ splitSlash b := by
  induction a with
  | nil => simp [splitSlash]
  | cons c cs ih =>
    by_cases hc : c = '/'
    · simp [splitSlash, hc, ih]
    · obtain ⟨s, ss, h⟩ := splitSlash_ne_nil cs
      simp [splitSlash, hc, ih, h]

theorem splitSlash_no_slash (s : List Char) (h : '/' ∉ s) : splitSlash s = [s] := by
  induction s with
  | nil => rfl
  | cons c cs ih =>
    have hc : c ≠ '/' := fun e => h (by simp [e])
    have hcs : '/' ∉ cs := fun e => h (by simp [e])
    simp [splitSlash, hc, ih hcs]

theorem splitSlash_joinSlash (l : List (List Char)) (hne : l ≠ []) (h : ∀ s ∈ l, '/' ∉ s) :
    splitSlash (joinSlash l) = l := by
  induction l with
  | nil => exact absurd rfl hne
  | cons s rest ih =>
    cases rest with
    | nil => simpa [joinSlash] using splitSlash_no_slash s (h s (by simp))
    | cons t rest2 =>
      have h1 := splitSlash_no_slash s (h s (by simp))
      have h2 := ih (by simp) (fun x hx => h x (by simp [hx]))
      simp only [joinSlash, splitSlash_append_slash, h1]
      rw [h2]
      rfl

theorem splitSlash_mem_no_slash (p : List Char) : ∀ s ∈ splitSlash p, '/' ∉ s := by
  induction p with
  | nil => simp [splitSlash]
  | cons c cs ih =>
    by_cases hc : c = '/'
    · intro s hs
      simp only [splitSlash, hc, if_true, List.mem_cons] at hs
      rcases hs with rfl | hs
      · simp
      · exact ih s hs
    · obtain ⟨t, ts, h⟩ := splitSlash_ne_nil cs
      intro s hs
      simp only [splitSlash, hc, if_false, h, List.mem_cons] at hs
      have ht : '/' ∉ t := ih t (by simp [h])
      rcases hs with rfl | hs
      · intro hm
        simp only [List.mem_cons] at hm
        rcases hm with hm | hm
        · exact hc hm.symm
        · exact ht hm
      · exact ih s (by simp [h, hs])

theorem dotdot_no_slash : '/' ∉ dotdot := by decide

theorem cleanStep_normal (r : Bool) (st : List (List Char)) (seg : List Char)
    (h : NormalSeg seg) : cleanStep r st seg = seg :: st := by
  obtain ⟨h1, h2, h3, -⟩ := h
  simp [cleanStep, h1, h2, h3]

theorem cleanStep_true_normal_stack (st : List (List Char)) (seg : List Char)
    (hst : ∀ s ∈ st, NormalSeg s) (hseg : '/' ∉ seg) :
    ∀ s ∈ cleanStep true st seg, NormalSeg s := by
  by_cases h1 : seg = [] ∨ seg = ['.']
  · simpa [cleanStep, h1] using hst
  · by_cases h2 : seg = dotdot
    · cases st with
      | nil => simp [cleanStep, h1, h2]
      | cons top rest =>
        have htop : top ≠ dotdot := (hst top (by simp)).2.2.1
        have h1' : ¬ (dotdot = [] ∨ dotdot = ['.']) := by decide
        subst h2
        simp only [cleanStep, h1', if_false, if_true, htop]
        intro s hs
        exact hst s (by simp [hs])
    · have hn : NormalSeg seg := by
        refine ⟨fun e => h1 (Or.inl e), fun e => h1 (Or.inr e), h2, hseg⟩
      rw [cleanStep_normal _ _ _ hn]
      intro s hs
      simp only [List.mem_cons] at hs
      rcases hs with rfl | hs
      · exact hn
      · exact hst s hs

theorem cleanStack_true_normal (st : List (List Char)) (segs : List (List Char))
    (hst : ∀ s ∈ st, NormalSeg s) (hsegs : ∀ s ∈ segs, '/' ∉ s) :
    ∀ s ∈ segs.foldl (cleanStep true) st, NormalSeg s := by
  induction segs generalizing st with
  | nil => simpa using hst
  | cons seg rest ih =>
    simp only [List.foldl_cons]
    exact ih _ (cleanStep_true_normal_stack st seg hst (hsegs seg (by simp)))
      (fun s hs => hsegs s (by simp [hs]))

theorem cleanStep_related (N : List (List Char)) (n : Nat) (seg : List Char)
    (hN : ∀ s ∈ N, NormalSeg s) (hseg : '/' ∉ seg) :
    ∃ N1 n1, cleanStep false (N ++ List.replicate n dotdot) seg = N1 ++ List.replicate n1 dotdot ∧
      (∀ s ∈ N1, NormalSeg s) ∧ cleanStep true N seg = N1 := by
  by_cases h1 : seg = [] ∨ seg = ['.']
  · exact ⟨N, n, by simp [cleanStep, h1], hN, by simp [cleanStep, h1]⟩
  · by_cases h2 : seg = dotdot
    · have h1' : ¬ (dotdot = [] ∨ dotdot = ['.']) := by decide
      subst h2
      cases N with
      | nil =>
        cases n with
        | zero => exact ⟨[], 1, by simp [cleanStep, h1', List.replicate], by simp, by simp [cleanStep, h1']⟩
        | succ k =>
          refine ⟨[], k + 2, ?_, by simp, by simp [cleanStep, h1']⟩
          simp [cleanStep, h1', List.replicate]
      | cons top rest =>
        have htop : top ≠ dotdot := (hN top (by simp)).2.2.1
        refine ⟨rest, n, ?_, fun s hs => hN s (by simp [hs]), ?_⟩
        · simp [cleanStep, h1', htop]
        · simp [cleanStep, h1', htop]
    · have hn : NormalSeg seg := by
        refine ⟨fun e => h1 (Or.inl e), fun e => h1 (Or.inr e), h2, hseg⟩
      refine ⟨seg :: N, n, ?_, ?_, ?_⟩
      · rw [cleanStep_normal _ _ _ hn]; rfl
      · intro s hs
        simp only [List.mem_cons] at hs
        rcases hs with rfl | hs
        · exact hn
        · exact hN s hs
      · rw [cleanStep_normal _ _ _ hn]

theorem cleanStack_related (segs : List (List Char)) (N : List (List Char)) (n : Nat)
    (hN : ∀ s ∈ N, NormalSeg s) (hsegs : ∀ s ∈ segs, '/' ∉ s) :
    ∃ N1 n1, segs.foldl (cleanStep false) (N ++ List.replicate n dotdot) =
        N1 ++ List.replicate n1 dotdot ∧
      (∀ s ∈ N1, NormalSeg s) ∧ segs.foldl (cleanStep true) N = N1 := by
  induction segs generalizing N n with
  | nil => exact ⟨N, n, rfl, hN, rfl⟩
  | cons seg rest ih =>
    obtain ⟨N1, n1, h1, h2, h3⟩ := cleanStep_related N n seg hN (hsegs seg (by simp))
    obtain ⟨N2, n2, h4, h5, h6⟩ := ih N1 n1 h2 (fun s hs => hsegs s (by simp [hs]))
    refine ⟨N2, n2, ?_, h5, ?_⟩
    · simp only [List.foldl_cons, h1, h4]
    · simp only [List.foldl_cons, h3, h6]

theorem foldl_true_reverse_normal (N st : List (List Char)) (hN : ∀ s ∈ N, NormalSeg s) :
    N.reverse.foldl (cleanStep true) st = N ++ st := by
  induction N with
  | nil => rfl
  | cons x rest ih =>
    have hx : NormalSeg x := hN x (by simp)
    have hrest := ih (fun s hs => hN s (by simp [hs]))
    simp only [List.reverse_cons, List.foldl_append, hrest, List.foldl_cons, List.foldl_nil]
    rw [cleanStep_normal _ _ _ hx]
    rfl

theorem foldl_true_dotdots (n : Nat) (rest : List (List Char)) :
    (List.replicate n dotdot ++ rest).foldl (cleanStep true) [] = rest.foldl (cleanStep true) [] := by
  induction n with
  | zero => rfl
  | succ k ih =>
    have h1' : ¬ (dotdot = [] ∨ dotdot = ['.']) := by decide
    simp only [List.replicate, List.cons_append, List.foldl_cons]
    have : cleanStep true [] dotdot = [] := by simp [cleanStep, h1']
    rw [this]
    exact ih

theorem cleanStack_cons_empty (r : Bool) (X : List (List Char)) :
    cleanStack r ([] :: X) = cleanStack r X := by
  simp [cleanStack, cleanStep]

theorem cleanStack_append (r : Bool) (A T : List (List Char)) :
    cleanStack r (A ++ T) = T.foldl (cleanStep r) (cleanStack r A) := by
  simp [cleanStack, List.foldl_append]

theorem cleanStack_cleanChars (y : List Char) :
    cleanStack true (splitSlash (cleanChars y)) = cleanStack true (splitSlash y) := by
  unfold cleanChars
  by_cases h0 : y = []
  · subst h0
    decide
  · simp only [h0, if_false]
    by_cases hr : y.head? = some '/'
    · simp only [hr, if_true]
      have hnorm : ∀ s ∈ cleanStack true (splitSlash y), NormalSeg s :=
        cleanStack_true_normal [] _ (by simp) (splitSlash_mem_no_slash y)
      generalize cleanStack true (splitSlash y) = St at hnorm ⊢
      have hsp : splitSlash ('/' :: joinSlash St.reverse) = [] :: splitSlash (joinSlash St.reverse) := by
        simp [splitSlash]
      rw [hsp, cleanStack_cons_empty]
      by_cases hst : St = []
      · subst hst
        decide
      · rw [splitSlash_joinSlash _ (fun h => hst (List.reverse_eq_nil_iff.mp h))
          (fun s hs => (hnorm s (by simpa using hs)).2.2.2)]
        simpa [cleanStack] using foldl_true_reverse_normal St [] hnorm
    · simp only [hr, if_false]
      obtain ⟨N1, n1, h1, h2, h3⟩ :=
        cleanStack_related (splitSlash y) [] 0 (by simp) (splitSlash_mem_no_slash y)
      have h1' : cleanStack false (splitSlash y) = N1 ++ List.replicate n1 dotdot := by
        simpa [cleanStack] using h1
      have h3' : cleanStack true (splitSlash y) = N1 := by
        simpa [cleanStack] using h3
      rw [h3', h1']
      by_cases hsf : N1 ++ List.replicate n1 dotdot = []
      · simp only [hsf, if_true]
        have : N1 = [] := (List.append_eq_nil.mp hsf).1
        subst this
        decide
      · simp only [hsf, if_false]
        rw [splitSlash_joinSlash _ (fun h => hsf (List.reverse_eq_nil_iff.mp h))]
        · rw [List.reverse_append, List.reverse_replicate]
          unfold cleanStack
          rw [foldl_true_dotdots]
          simpa using foldl_true_reverse_normal N1 [] h2
        · intro s hs
          simp only [List.mem_reverse, List.mem_append] at hs
          rcases hs with hs | hs
          · exact (h2 s hs).2.2.2
          · rw [List.eq_of_mem_replicate hs]
            exact dotdot_no_slash

theorem cleanChars_ne_nil (y : List Char) : cleanChars y ≠ [] := by
  unfold cleanChars
  by_cases h0 : y = []
  · simp [h0]
  · simp only [h0, if_false]
    by_cases hr : y.head? = some '/'
    · simp [hr]
    · simp only [hr, if_false]
      obtain ⟨N1, n1, h1, h2, -⟩ :=
        cleanStack_related (splitSlash y) [] 0 (by simp) (splitSlash_mem_no_slash y)
      have h1' : cleanStack false (splitSlash y) = N1 ++ List.replicate n1 dotdot := by
        simpa [cleanStack] using h1
      by_cases hsf : cleanStack false (splitSlash y) = []
      · simp [hsf]
      · simp only [hsf, if_false]
        intro hj
        have hsplit := splitSlash_joinSlash (cleanStack false (splitSlash y)).reverse
          (fun h => hsf (List.reverse_eq_nil_iff.mp h))
          (by
            intro s hs
            rw [h1'] at hs
            simp only [List.mem_reverse, List.mem_append] at hs
            rcases hs with hs | hs
            · exact (h2 s hs).2.2.2
            · rw [List.eq_of_mem_replicate hs]
              exact dotdot_no_slash)
        rw [hj] at hsplit
        have hmem : ([] : List Char) ∈ cleanStack false (splitSlash y) := by
          have : ([] : List Char) ∈ (cleanStack false (splitSlash y)).reverse := by
            rw [← hsplit]; simp [splitSlash]
          simpa using this
        rw [h1'] at hmem
        simp only [List.mem_append] at hmem
        rcases hmem with hm | hm
        · exact (h2 _ hm).1 rfl
        · have := List.eq_of_mem_replicate hm
          exact absurd this (by decide)

theorem cleanStack_joinChars (a c : List Char) (T : List (List Char)) (hc : c ≠ []) :
    cleanStack true (splitSlash (joinChars [a, c]) ++ T) =
      cleanStack true (splitSlash (a ++ '/' :: c) ++ T) := by
  by_cases ha : a = []
  · subst ha
    have hj : joinChars [[], c] = cleanChars c := by
      simp [joinChars, List.dropWhile, hc, joinSlash]
    have hs : splitSlash ([] ++ '/' :: c) = [] :: splitSlash c := by simp [splitSlash]
    rw [hj, hs, List.cons_append, cleanStack_cons_empty, cleanStack_append, cleanStack_append,
      cleanStack_cleanChars]
  · have hj : joinChars [a, c] = cleanChars (a ++ '/' :: c) := by
      simp [joinChars, List.dropWhile, ha, joinSlash]
    rw [hj, cleanStack_append, cleanStack_append, cleanStack_cleanChars]

theorem cleanChars_rooted (w : List Char) :
    cleanChars ('/' :: w) = '/' :: joinSlash (cleanStack true (splitSlash w)).reverse := by
  have hs : splitSlash ('/' :: w) = [] :: splitSlash w := by simp [splitSlash]
  simp [cleanChars, hs, cleanStack_cons_empty]

theorem cleanChars_idem_rooted (w : List Char) :
    cleanChars (cleanChars ('/' :: w)) = cleanChars ('/' :: w) := by
  have h := cleanStack_cleanChars ('/' :: w)
  rw [cleanChars_rooted] at h ⊢
  rw [cleanChars_rooted]
  have hs : splitSlash ('/' :: joinSlash (cleanStack true (splitSlash w)).reverse) =
      [] :: splitSlash (joinSlash (cleanStack true (splitSlash w)).reverse) := by simp [splitSlash]
  have hs2 : splitSlash ('/' :: w) = [] :: splitSlash w := by simp [splitSlash]
  rw [hs, hs2, cleanStack_cons_empty, cleanStack_cons_empty] at h
  rw [h]

theorem pathFor_chars (res2 f : List Char) :
    cleanChars (joinChars [['/'], res2, f]) =
      '/' :: joinSlash (cleanStack true (splitSlash res2 ++ splitSlash f)).reverse := by
  have hj : joinChars [['/'], res2, f] = cleanChars ('/' :: '/' :: (res2 ++ '/' :: f)) := by
    simp [joinChars, List.dropWhile, joinSlash]
  rw [hj, cleanChars_idem_rooted, cleanChars_rooted]
  have hs : splitSlash ('/' :: (res2 ++ '/' :: f)) = [] :: (splitSlash res2 ++ splitSlash f) := by
    simp [splitSlash, splitSlash_append_slash]
  rw [hs, cleanStack_cons_empty]

theorem spec_chars (e f : List Char) :
    cleanChars ('/' :: (e ++ '/' :: f)) =
      '/' :: joinSlash (cleanStack true (splitSlash e ++ splitSlash f)).reverse := by
  rw [cleanChars_rooted, splitSlash_append_slash]

theorem pathFor_chars_eq (os key f : List Char) (useArch useInst : Bool) (hkey : key ≠ []) :
    cleanChars (joinChars [['/'],
        (if useInst then
          joinChars [(if useArch then joinChars [os, key] else os), ['i', 'n', 's', 't', 'a', 'l', 'l']]
        else (if useArch then joinChars [os, key] else os)), f]) =
      cleanChars ('/' :: (os ++ ((if useArch then '/' :: key else []) ++
        ((if useInst then ['/', 'i', 'n', 's', 't', 'a', 'l', 'l'] else []) ++ '/' :: f)))) := by
  have hinst : (['i', 'n', 's', 't', 'a', 'l', 'l'] : List Char) ≠ [] := by simp
  rw [pathFor_chars]
  cases useArch <;> cases useInst
  · simp only [Bool.false_eq_true, if_false, List.nil_append]
    rw [spec_chars]
  · simp only [Bool.false_eq_true, if_false, if_true, List.nil_append]
    have e1 : os ++ (['/', 'i', 'n', 's', 't', 'a', 'l', 'l'] ++ '/' :: f) =
        (os ++ '/' :: ['i', 'n', 's', 't', 'a', 'l', 'l']) ++ '/' :: f := by simp
    rw [e1, spec_chars, cleanStack_joinChars _ _ _ hinst]
  · simp only [Bool.false_eq_true, if_false, if_true, List.nil_append]
    have e1 : os ++ ('/' :: key ++ '/' :: f) = (os ++ '/' :: key) ++ '/' :: f := by simp
    rw [e1, spec_chars, cleanStack_joinChars _ _ _ hkey]
  · simp only [if_true]
    have e1 : os ++ ('/' :: key ++ (['/', 'i', 'n', 's', 't', 'a', 'l', 'l'] ++ '/' :: f)) =
        (os ++ '/' :: (key ++ '/' :: ['i', 'n', 's', 't', 'a', 'l', 'l'])) ++ '/' :: f := by simp
    rw [e1, spec_chars, cleanStack_joinChars _ _ _ hinst, splitSlash_append_slash,
      List.append_assoc, cleanStack_joinChars _ _ _ hkey]
    simp [splitSlash_append_slash]

theorem pathFor_eq_clean (env : Env) (b : BootEnv) (f arch : String)
    (h : b.ArchFor env arch ≠ "") :
    b.PathFor env f arch =
      .ok (pathClean ("/" ++ b.OS.Name ++
        (if (env.SupportedArch (b.ArchFor env arch)).1 ≠ "amd64" then "/" ++ b.ArchFor env arch
          else "") ++
        (if HasSuffix b.Name "-install" then "/install" else "") ++ "/" ++ f)) := by
  have hkey : (b.ArchFor env arch).data ≠ [] := by
    intro e
    apply h
    cases hk : b.ArchFor env arch with
    | mk d =>
      rw [hk] at e
      simp only at e
      subst e
      rfl
  have key := pathFor_chars_eq b.OS.Name.data (b.ArchFor env arch).data f.data
    (decide ((env.SupportedArch (b.ArchFor env arch)).1 ≠ "amd64")) (HasSuffix b.Name "-install") hkey
  unfold BootEnv.PathFor
  simp only [h, if_false, pathClean, pathJoin, List.map_cons, List.map_nil]
  congr 2
  by_cases ha : (env.SupportedArch (b.ArchFor env arch)).1 ≠ "amd64" <;>
    by_cases hi : HasSuffix b.Name "-install" = true <;>
    simpa [ha, hi, String.data_append] using key

/-- C6: canonical paths.  For every boot environment and every arch for which
`ArchFor` finds a key of `realArches`, `PathFor(f, arch)` returns the cleaned
form of `"/" + OS.Name + ("/" + key, when the canonical form of the key is not
amd64) + ("/install", when Name ends with "-install") + "/" + f`.  With
`OS.Name = ubuntu-20.04` and `Name = ubuntu-20.04-install`, the path of
`vmlinuz` is `/ubuntu-20.04/arm64/install/vmlinuz` for the arch arm64 and
`/ubuntu-20.04/install/vmlinuz` for the arch amd64. -/
theorem C6_path_for (env : Env) (b : BootEnv) :
    (∀ f arch : String, b.ArchFor env arch ≠ "" →
      b.PathFor env f arch =
        .ok (pathClean ("/" ++ b.OS.Name ++
          (if (env.SupportedArch (b.ArchFor env arch)).1 ≠ "amd64" then "/" ++ b.ArchFor env arch
            else "") ++
          (if HasSuffix b.Name "-install" then "/install" else "") ++ "/" ++ f))) ∧
    (b.OS.Name = "ubuntu-20.04" → b.Name = "ubuntu-20.04-install" →
      (b.ArchFor env "arm64" = "arm64" → (env.SupportedArch "arm64").1 = "arm64" →
        b.PathFor env "vmlinuz" "arm64" = .ok "/ubuntu-20.04/arm64/install/vmlinuz") ∧
      (b.ArchFor env "amd64" = "amd64" → (env.SupportedArch "amd64").1 = "amd64" →
        b.PathFor env "vmlinuz" "amd64" = .ok "/ubuntu-20.04/install/vmlinuz")) := by
  refine ⟨fun f arch h => pathFor_eq_clean env b f arch h, ?_⟩
  intro hos hname
  constructor
  · intro h1 h2
    rw [pathFor_eq_clean env b "vmlinuz" "arm64" (by rw [h1]; decide), h1, h2, hos, hname]
    decide
  · intro h1 h2
    rw [pathFor_eq_clean env b "vmlinuz" "amd64" (by rw [h1]; decide), h1, h2, hos, hname]
    decide

/-- C6 witness: the two paths of the example, with the arch table of the sample
environment; an alias of the arch (`aarch64`) gives the path of its key. -/
theorem C6_path_for_witness :
    ubuntuInstall.PathFor (sampleEnv []) "vmlinuz" "arm64" =
        .ok "/ubuntu-20.04/arm64/install/vmlinuz" ∧
      ubuntuInstall.PathFor (sampleEnv []) "vmlinuz" "amd64" = .ok "/ubuntu-20.04/install/vmlinuz" ∧
      ubuntuInstall.PathFor (sampleEnv []) "vmlinuz" "aarch64" =
        .ok "/ubuntu-20.04/arm64/install/vmlinuz" :=
  ⟨(C6_path_for (sampleEnv []) ubuntuInstall).2 rfl rfl |>.1 (by decide) (by decide),
    (C6_path_for (sampleEnv []) ubuntuInstall).2 rfl rfl |>.2 (by decide) (by decide),
    ((C6_path_for (sampleEnv []) ubuntuInstall).1 "vmlinuz" "aarch64" (by decide)).trans
      (by decide)⟩

/-! ### Scope misuse -/

/-- C16: `Do` on a tracker that is already inside `Do` panics and leaves the
tracker as it was (no lock is acquired, the thunk does not run, nothing is
logged); `RunAfter` on a tracker that is not inside `Do` panics and leaves the
queue as it was; inside `Do`, `RunAfter` appends the thunk at the end of the
queue and does not panic. -/
theorem C16_scope_misuse_panics (rt : RequestTracker) (thunk : Thunk) :
    (rt.d.isSome = true →
      Do rt thunk = { rt := rt, panic := some "Recursive lock of request tracker!" } ∧
      RunAfter rt thunk =
        { rt := { rt with toRunAfter := rt.toRunAfter ++ [Queued.thunk thunk] }, panic := none }) ∧
    (rt.d = none →
      RunAfter rt thunk = { rt := rt, panic := some "Cannot runAfter a function outside Do()" }) := by
  constructor
  · intro hd
    have hnone : rt.d.isNone = false := by
      cases h : rt.d with
      | none => simp [h] at hd
      | some _ => rfl
    exact ⟨by simp [Do, hd], by simp [RunAfter, runAfter, hnone]⟩
  · intro hd
    simp [RunAfter, runAfter, hd]

theorem C16_scope_misuse_panics_witness :
    (Do rtInDo publishOnce = { rt := rtInDo, panic := some "Recursive lock of request tracker!" } ∧
      RunAfter rtInDo publishOnce =
        { rt := { rtInDo with toRunAfter := rtInDo.toRunAfter ++ [Queued.thunk publishOnce] }
          panic := none }) ∧
    RunAfter rtBootenvs publishOnce =
      { rt := rtBootenvs, panic := some "Cannot runAfter a function outside Do()" } :=
  ⟨(C16_scope_misuse_panics rtInDo publishOnce).1 rfl,
   (C16_scope_misuse_panics rtBootenvs publishOnce).2 rfl⟩

/-! ### Default of a parameter -/

/-- C17: `GetParam` on an object whose parameters aggregate without a panic.
A key that is resolved (held by the object, or found through aggregation when
`aggregate` is true) is returned with `true`: the resolved value itself when no
decryption is asked for, the result of `decryptParam` on it otherwise.  A key
that is not resolved yields, when `aggregate` is true, the `DefaultValue()` of
the Param definition of that name if there is one and `(nil, false)` if there
is none; when `aggregate` is false it yields `(nil, false)` whatever the params
store holds. -/
theorem C17_get_param_default_fallback (env : Env) (rt : RequestTracker) (obj : Obj) (key : String)
    (aggregate decrypt : Bool) (agg : Agg)
    (hagg : getAggParams env rt obj obj.GetParams aggregate = .ok agg) :
    (∀ v, agg.params.lookup key = some v →
      GetParam env rt obj key aggregate decrypt =
        { decryptParam env rt (agg.sources.lookup key) key v decrypt with ok := true } ∧
      (decrypt = false →
        GetParam env rt obj key aggregate decrypt = { val := v, ok := true, rt := rt })) ∧
    (agg.params.lookup key = none → aggregate = true →
      (∀ pobj param, Find env rt "params" key = .ok (some pobj) → AsParam pobj = .ok param →
        GetParam env rt obj key aggregate decrypt =
          { val := param.DefaultValue.1, ok := param.DefaultValue.2, rt := rt }) ∧
      (Find env rt "params" key = .ok none →
        GetParam env rt obj key aggregate decrypt = { val := Val.null, ok := false, rt := rt })) ∧
    (agg.params.lookup key = none → aggregate = false →
      GetParam env rt obj key aggregate decrypt = { val := Val.null, ok := false, rt := rt }) := by
  refine ⟨?_, ?_, ?_⟩
  · intro v hv
    refine ⟨by simp [GetParam, hagg, hv], ?_⟩
    intro hdec
    simp [GetParam, hagg, hv, hdec, decryptParam]
  · intro hnone hag
    subst hag
    refine ⟨?_, ?_⟩
    · intro pobj param hfind hparam
      simp [GetParam, hagg, hnone, hfind, hparam]
    · intro hfind
      simp [GetParam, hagg, hnone, hfind]
  · intro hnone hag
    subst hag
    simp [GetParam, hagg, hnone]

theorem C17_get_param_default_fallback_witness :
    GetParam (sampleEnv []) rtDefaults bareMachine "own" true false =
        { val := Val.num 0, ok := true, rt := rtDefaults } ∧
      GetParam (sampleEnv []) rtDefaults bareMachine "ntp-server" true false =
        { val := Val.str "pool.ntp.org", ok := true, rt := rtDefaults } ∧
      GetParam (sampleEnv []) rtDefaults bareMachine "dns-server" true false =
        { val := Val.null, ok := false, rt := rtDefaults } :=
  have h := C17_get_param_default_fallback (sampleEnv []) rtDefaults bareMachine
  ⟨((h "own" true false
      { params := [("own", Val.num 0)], sources := [("own", bareMachine)] } (by decide)).1
      (Val.num 0) (by decide)).2 rfl,
   ((h "ntp-server" true false
      { params := [("own", Val.num 0)], sources := [("own", bareMachine)] } (by decide)).2.1
      (by decide) rfl).1 ntpParam { Name := "ntp-server", Default := some (Val.str "pool.ntp.org") }
      (by decide) (by decide),
   ((h "dns-server" true false
      { params := [("own", Val.num 0)], sources := [("own", bareMachine)] } (by decide)).2.1
      (by decide) rfl).2 (by decide)⟩

/-! ### Failure of a patch -/

/-- C14: inside `Do`, with the store of the prefix locked and an object stored
under the key, when the JSON patch library fails on the JSON of the stored
object at the operation of index `loc` (an index of the patch), `Patch` returns
a nil model and an error of code 409 for that prefix and key with exactly two
messages, `Patch error at line <loc>: <error>` and `Patch line: <patch[loc]>`;
it makes no call into the store library, does not panic, and the tracker state
(the stores with the stored object, the post-commit queue) is what it was. -/
theorem C14_patch_failure (env : Env) (rt : RequestTracker) (obj target : Obj) (key : String)
    (patch : List String) (idx : Store) (patchErr line : String) (loc : Nat)
    (hidx : stores rt obj.Prefix = some idx)
    (htarget : idx.Find key = some target)
    (hfail : env.patchApply patch (env.marshal target) = PatchResult.failed patchErr loc)
    (hline : patch[loc]? = some line) :
    Patch env rt obj key patch =
      { rt := rt
        saved := false
        model := none
        panic := none
        call := none
        err := some
          { Code := 409
            Key := key
            Model := obj.Prefix
            Typ := "PATCH"
            Messages := ["Patch error at line " ++ toString loc ++ ": " ++ patchErr,
                         "Patch line: " ++ line] } } := by
  have hx := spkibrt_of_stores hidx
  simp [Patch, hx, htarget, hfail, hline, Error.Errorf]

theorem C14_patch_failure_witness :
    Patch (patchFailsAt 1 "remove: path not found") rtInDo { body := Body.bootenv {} }
        "ubuntu-20.04-install" samplePatch =
      { rt := rtInDo
        saved := false
        model := none
        panic := none
        call := none
        err := some
          { Code := 409
            Key := "ubuntu-20.04-install"
            Model := "bootenvs"
            Typ := "PATCH"
            Messages := ["Patch error at line 1: remove: path not found",
                         "Patch line: \x7b\"op\":\"remove\",\"path\":\"/Missing\"\x7d"] } } :=
  C14_patch_failure (patchFailsAt 1 "remove: path not found") rtInDo { body := Body.bootenv {} }
    { body := Body.bootenv ubuntuInstall } "ubuntu-20.04-install" samplePatch
    [{ body := Body.bootenv ubuntuInstall }] "remove: path not found"
    "\x7b\"op\":\"remove\",\"path\":\"/Missing\"\x7d" 1 (by decide) (by decide) rfl rfl

/-! ### Successful writes -/

theorem find_insertSorted (o : Obj) (s : Store) (h : ∀ x ∈ s, x.Key ≠ o.Key) :
    Store.Find (Store.insertSorted o s) o.Key = some o := by
  induction s with
  | nil => simp [Store.insertSorted, Store.Find]
  | cons x xs ih =>
    have hx : x.Key ≠ o.Key := h x (List.mem_cons_self _ _)
    have hxs : ∀ y ∈ xs, y.Key ≠ o.Key := fun y hy => h y (List.mem_cons_of_mem _ hy)
    by_cases hle : strLe o.Key.data x.Key.data = true
    · simp [Store.insertSorted, hle, Store.Find]
    · have ih1 := ih hxs
      simp only [Store.Find] at ih1
      simp [Store.insertSorted, hle, Store.Find, List.find?, hx, ih1]

theorem find_remove (s : Store) (k : String) : Store.Find (Store.Remove s k) k = none := by
  simp [Store.Find, Store.Remove, List.find?_eq_none]

theorem find_add (s : Store) (o : Obj) : Store.Find (Store.Add s o) o.Key = some o := by
  apply find_insertSorted
  intro x hx
  simp [Store.Remove] at hx
  exact hx.2

theorem stores_setStore_same {rt : RequestTracker} {p : String} {idx : Store} (s : Store)
    (rt1 : RequestTracker) (h : stores rt p = some idx) (hd : rt1.d = rt.d)
    (hobjs : rt1.objs = setStore rt.objs p s) : stores rt1 p = some s := by
  unfold stores at h ⊢
  rw [hd]
  cases hrd : rt.d with
  | none => simp [hrd] at h
  | some locked =>
    simp only [hrd] at h ⊢
    by_cases hm : p ∈ locked
    · simp [hm, hobjs, getStore_setStore]
    · simp [hm] at h

theorem stores_inside {rt : RequestTracker} {p : String} {idx : Store}
    (h : stores rt p = some idx) : rt.d.isNone = false := by
  unfold stores at h
  cases hd : rt.d with
  | none => simp [hd] at h
  | some l => rfl

theorem addAndPublish_eq (rt : RequestTracker) (x : Parts) (action key : String) (ref : Obj)
    (ts : List Thunk) (hpub : rt.publishers = true) (hd : rt.d.isNone = false) :
    addAndPublish (queueHooks rt ts) x action key ref =
      { rt := { rt with
                toRunAfter := rt.toRunAfter ++ ts.map Queued.thunk ++
                  [Queued.publish x.pfx action key (some ref)]
                objs := setStore rt.objs x.pfx (Store.Add x.idx ref) }
        panic := none } := by
  simp [addAndPublish, Publish, runAfter, queueHooks, hpub, hd]

theorem addAndPublish_ok (rt : RequestTracker) (x : Parts) (action key : String) (ref : Obj)
    (ts : List Thunk) (hpub : rt.publishers = true) (hst : stores rt x.pfx = some x.idx) :
    (addAndPublish (queueHooks rt ts) x action key ref).panic = none ∧
      events (addAndPublish (queueHooks rt ts) x action key ref).rt.toRunAfter =
        events rt.toRunAfter ++ [Queued.publish x.pfx action key (some ref)] ∧
      stores (addAndPublish (queueHooks rt ts) x action key ref).rt x.pfx =
        some (Store.Add x.idx ref) := by
  rw [addAndPublish_eq rt x action key ref ts hpub (stores_inside hst)]
  refine ⟨rfl, ?_, ?_⟩
  · have he := events_queueHooks rt ts
    simp only [events, queueHooks, List.filter_append] at he ⊢
    simp [he, Queued.isEvent]
  · exact stores_setStore_same (Store.Add x.idx ref) _ hst rfl rfl
theorem find_add_key (s : Store) (o : Obj) (k : String) (h : o.Key = k) :
    Store.Find (Store.Add s o.clearRT) k = some o.clearRT := by
  have h1 : o.clearRT.Key = k := h
  rw [← h1]
  exact find_add s o.clearRT

theorem create_succeeded (env : Env) (rt : RequestTracker) (obj : Obj) (r : StoreResult)
    (hpub : rt.publishers = true) (hcall : (Create env rt obj).call = some r)
    (hs : r.saved = true) (hp : r.panic = none) (hkey : r.obj.Key = (env.Fill obj).Key) :
    (Create env rt obj).saved = true ∧ (Create env rt obj).panic = none ∧
      events (Create env rt obj).rt.toRunAfter =
        events rt.toRunAfter ++
          [Queued.publish (env.Fill obj).Prefix "create" (env.Fill obj).Key (some r.obj.clearRT)] ∧
      (stores (Create env rt obj).rt (env.Fill obj).Prefix).map
        (fun idx => idx.Find (env.Fill obj).Key) = some (some r.obj.clearRT) := by
  unfold Create at hcall ⊢
  cases hx : spkibrt rt (env.Fill obj) with
  | error p => simp [hx] at hcall
  | ok x =>
    obtain ⟨hpfx, hk, -, hst, -⟩ := spkibrt_ok hx
    simp only [hx] at hcall ⊢
    by_cases hke : x.key = ""
    · simp [hke] at hcall
    · by_cases ht : x.target.isSome
      · simp [hke, ht] at hcall
      · generalize env.storeCreate rt (env.ClearValidation x.ref.setRT) = r1 at hcall ⊢
        by_cases hpan : r1.panic.isSome
        · simp [hke, ht, hpan] at hcall
          subst hcall
          simp [hp] at hpan
        · by_cases hsv : r1.saved
          · simp [hke, ht, hpan, hsv] at hcall
            subst hcall
            obtain ⟨a1, a2, a3⟩ := addAndPublish_ok rt x "create" x.key r1.obj.clearRT r1.queued hpub
              (by rw [hpfx]; exact hst)
            simp only [hke, ht, hpan, hsv, if_true, if_false, Bool.false_eq_true]
            rw [← hpfx, ← hk]
            refine ⟨trivial, a1, a2, ?_⟩
            rw [a3]
            simp [find_add_key _ _ _ (hkey.trans hk.symm)]
          · simp [hke, ht, hpan, hsv] at hcall
            subst hcall
            simp [hs] at hsv
theorem update_succeeded (env : Env) (rt : RequestTracker) (obj : Obj) (r : StoreResult)
    (hpub : rt.publishers = true) (hcall : (Update env rt obj).call = some r)
    (hs : r.saved = true) (hp : r.panic = none) (hkey : r.obj.Key = obj.Key) :
    (Update env rt obj).saved = true ∧ (Update env rt obj).panic = none ∧
      events (Update env rt obj).rt.toRunAfter =
        events rt.toRunAfter ++ [Queued.publish obj.Prefix "update" obj.Key (some r.obj.clearRT)] ∧
      (stores (Update env rt obj).rt obj.Prefix).map (fun idx => idx.Find obj.Key) =
        some (some r.obj.clearRT) := by
  unfold Update at hcall ⊢
  cases hx : spkibrt rt obj with
  | error p => simp [hx] at hcall
  | ok x =>
    obtain ⟨hpfx, hk, -, hst, -⟩ := spkibrt_ok hx
    simp only [hx] at hcall ⊢
    cases ht : x.target with
    | none => simp [ht] at hcall
    | some t0 =>
      simp only [ht] at hcall ⊢
      generalize env.storeUpdate rt _ = r1 at hcall ⊢
      by_cases hpan : r1.panic.isSome
      · simp [hpan] at hcall
        subst hcall
        simp [hp] at hpan
      · by_cases hsv : r1.saved
        · simp [hpan, hsv] at hcall
          subst hcall
          obtain ⟨a1, a2, a3⟩ := addAndPublish_ok rt x "update" x.key r1.obj.clearRT r1.queued hpub
            (by rw [hpfx]; exact hst)
          simp only [hpan, hsv, if_true, if_false, Bool.false_eq_true]
          rw [← hpfx, ← hk]
          refine ⟨trivial, a1, a2, ?_⟩
          rw [a3]
          simp [find_add_key _ _ _ (hkey.trans hk.symm)]
        · simp [hpan, hsv] at hcall
          subst hcall
          simp [hs] at hsv

theorem save_succeeded (env : Env) (rt : RequestTracker) (obj : Obj) (r : StoreResult)
    (hpub : rt.publishers = true) (hcall : (Save env rt obj).call = some r)
    (hs : r.saved = true) (hp : r.panic = none) (hkey : r.obj.Key = obj.Key) :
    (Save env rt obj).saved = true ∧ (Save env rt obj).panic = none ∧
      events (Save env rt obj).rt.toRunAfter =
        events rt.toRunAfter ++ [Queued.publish obj.Prefix "save" obj.Key (some r.obj.clearRT)] ∧
      (stores (Save env rt obj).rt obj.Prefix).map (fun idx => idx.Find obj.Key) =
        some (some r.obj.clearRT) := by
  unfold Save at hcall ⊢
  cases hx : spkibrt rt obj with
  | error p => simp [hx] at hcall
  | ok x =>
    obtain ⟨hpfx, hk, -, hst, -⟩ := spkibrt_ok hx
    simp only [hx] at hcall ⊢
    generalize env.storeSave rt _ = r1 at hcall ⊢
    by_cases hpan : r1.panic.isSome
    · simp [hpan] at hcall
      subst hcall
      simp [hp] at hpan
    · by_cases hsv : r1.saved
      · simp [hpan, hsv] at hcall
        subst hcall
        obtain ⟨a1, a2, a3⟩ := addAndPublish_ok rt x "save" x.key r1.obj.clearRT r1.queued hpub
          (by rw [hpfx]; exact hst)
        simp only [hpan, hsv, if_true, if_false, Bool.false_eq_true]
        rw [← hpfx, ← hk]
        refine ⟨trivial, a1, a2, ?_⟩
        rw [a3]
        simp [find_add_key _ _ _ (hkey.trans hk.symm)]
      · simp [hpan, hsv] at hcall
        subst hcall
        simp [hs] at hsv

theorem patch_succeeded (env : Env) (rt : RequestTracker) (obj : Obj) (key : String)
    (patch : List String) (r : StoreResult)
    (hpub : rt.publishers = true) (hcall : (Patch env rt obj key patch).call = some r)
    (hs : r.saved = true) (hp : r.panic = none) (hkey : r.obj.Key = key) :
    (Patch env rt obj key patch).saved = true ∧ (Patch env rt obj key patch).panic = none ∧
      events (Patch env rt obj key patch).rt.toRunAfter =
        events rt.toRunAfter ++ [Queued.publish obj.Prefix "update" key (some r.obj.clearRT)] ∧
      (stores (Patch env rt obj key patch).rt obj.Prefix).map (fun idx => idx.Find key) =
        some (some r.obj.clearRT) := by
  unfold Patch at hcall ⊢
  cases hx : spkibrt rt obj with
  | error p => simp [hx] at hcall
  | ok x =>
    obtain ⟨hpfx, -, -, hst, -⟩ := spkibrt_ok hx
    simp only [hx] at hcall ⊢
    cases ht : x.idx.Find key with
    | none => simp [ht] at hcall
    | some target =>
      simp only [ht] at hcall ⊢
      cases hpa : env.patchApply patch (env.marshal target) with
      | failed e loc =>
        simp only [hpa] at hcall
        cases hl : patch[loc]? <;> simp [hl] at hcall
      | ok resBuf =>
        simp only [hpa] at hcall ⊢
        cases hu : env.unmarshal resBuf target.New with
        | error msg => simp [hu] at hcall
        | ok toSave =>
          simp only [hu] at hcall ⊢
          generalize env.storeUpdate rt _ = r1 at hcall ⊢
          by_cases hpan : r1.panic.isSome
          · simp [hpan] at hcall
            subst hcall
            simp [hp] at hpan
          · by_cases hsv : r1.saved
            · simp [hpan, hsv] at hcall
              subst hcall
              obtain ⟨a1, a2, a3⟩ := addAndPublish_ok rt x "update" key r1.obj.clearRT r1.queued hpub
                (by rw [hpfx]; exact hst)
              simp only [hpan, hsv, if_true, if_false, Bool.false_eq_true]
              rw [← hpfx]
              refine ⟨trivial, a1, a2, ?_⟩
              rw [a3]
              simp [find_add_key _ _ _ hkey]
            · simp [hpan, hsv] at hcall
              subst hcall
              simp [hs] at hsv

theorem storeRemove_obj (env : Env) (rt : RequestTracker) (item : Obj) :
    (storeRemove env rt item).obj = item := by
  unfold storeRemove
  split
  · rfl
  · rfl
  · split <;> rfl

theorem remove_succeeded (env : Env) (rt : RequestTracker) (obj : Obj) (r : StoreResult)
    (hpub : rt.publishers = true) (hcall : (Remove env rt obj).call = some r)
    (hs : r.saved = true) (hp : r.panic = none) :
    (Remove env rt obj).saved = true ∧ (Remove env rt obj).panic = none ∧
      events (Remove env rt obj).rt.toRunAfter =
        events rt.toRunAfter ++ [Queued.publish obj.Prefix "delete" obj.Key (some r.obj)] ∧
      (stores (Remove env rt obj).rt obj.Prefix).map (fun idx => idx.Find obj.Key) = some none ∧
      (∃ item, Store.Find (getStore rt.objs obj.Prefix) obj.Key = some item ∧ r.obj = item.setRT) := by
  unfold Remove at hcall ⊢
  cases hx : spkibrt rt obj with
  | error p => simp [hx] at hcall
  | ok x =>
    obtain ⟨hpfx, hk, -, hst, htg⟩ := spkibrt_ok hx
    have hd := stores_inside hst
    simp only [hx] at hcall ⊢
    cases ht : x.target with
    | none => simp [ht] at hcall
    | some item =>
      simp only [ht] at hcall ⊢
      have hobj := storeRemove_obj env
        { rt with objs := setStore rt.objs x.pfx (Store.setFirst x.key item.setRT x.idx) } item.setRT
      generalize storeRemove env _ item.setRT = r1 at hcall hobj ⊢
      by_cases hpan : r1.panic.isSome
      · simp [hpan] at hcall
        subst hcall
        simp [hp] at hpan
      · by_cases hsv : r1.saved
        · simp [hpan, hsv] at hcall
          subst hcall
          have hres : Publish
              { queueHooks { rt with objs := setStore rt.objs x.pfx (Store.setFirst x.key item.setRT x.idx) }
                  r1.queued with
                objs := setStore
                  (queueHooks { rt with objs := setStore rt.objs x.pfx (Store.setFirst x.key item.setRT x.idx) }
                    r1.queued).objs x.pfx (Store.Remove x.idx x.key) }
              x.pfx "delete" x.key (some item.setRT) =
              { rt := { rt with
                        toRunAfter := rt.toRunAfter ++ r1.queued.map Queued.thunk ++
                          [Queued.publish x.pfx "delete" x.key (some item.setRT)]
                        objs := setStore (setStore rt.objs x.pfx (Store.setFirst x.key item.setRT x.idx))
                          x.pfx (Store.Remove x.idx x.key) }
                panic := none } := by
            simp [Publish, runAfter, queueHooks, hpub, hd]
          simp only [hpan, hsv, if_true, if_false, Bool.false_eq_true, hres]
          rw [← hpfx, ← hk, hobj]
          refine ⟨trivial, trivial, ?_, ?_, ?_⟩
          · have he := events_queueHooks rt r1.queued
            simp only [events, queueHooks, List.filter_append] at he ⊢
            simp [he, Queued.isEvent]
          · have h1 : stores { rt with objs := setStore rt.objs x.pfx (Store.setFirst x.key item.setRT x.idx) }
                x.pfx = some (Store.setFirst x.key item.setRT x.idx) :=
              @stores_setStore_same rt x.pfx x.idx _ _ (by rw [hpfx]; exact hst) rfl rfl
            have h2 := @stores_setStore_same
              { rt with objs := setStore rt.objs x.pfx (Store.setFirst x.key item.setRT x.idx) }
              x.pfx (Store.setFirst x.key item.setRT x.idx) (Store.Remove x.idx x.key)
              { rt with
                toRunAfter := rt.toRunAfter ++ r1.queued.map Queued.thunk ++
                  [Queued.publish x.pfx "delete" x.key (some item.setRT)]
                objs := setStore (setStore rt.objs x.pfx (Store.setFirst x.key item.setRT x.idx))
                  x.pfx (Store.Remove x.idx x.key) } h1 rfl rfl
            rw [h2]
            simp [find_remove]
          · refine ⟨item, ?_, rfl⟩
            rw [hpfx, ← stores_eq_getStore hst, hk, ← htg, ht]
        · simp [hpan, hsv] at hcall
          subst hcall
          simp [hs] at hsv
theorem find_plain (env : Env) {rt : RequestTracker} {pfx : String} {s : Store}
    (h : stores rt pfx = some s) (key : String) (hc : splitColon key.data = none) :
    find env rt pfx key = .ok (s.Find key) := by
  simp [find, h, hc]

/-- Success of a write that keeps the key.  With publishers configured, when
one of Create, Update, Patch, Save and Remove reaches the store library (which
it does only inside `Do`, with the store of the prefix locked), the library
reports success and the object it hands back has the key of the operation (the
hooks and the patch did not rename it), then the
operation returns true without a panic, the events of the post-commit queue are
the events it held before followed by exactly one new event, with the action
`create`, `update` (Update and Patch), `save` or `delete`, the prefix and key of
the operation and the written (for Remove: the removed) object as payload, and
the Index of the prefix, looked up at that key in the state the operation
returns, holds the written object after Create, Update, Patch and Save and
nothing after Remove; so does `find` for a key without a colon. -/
theorem success_queues_one_event (env : Env) (rt : RequestTracker) (op : Op) (r : StoreResult)
    (hpub : rt.publishers = true) (hcall : (crud env rt op).call = some r)
    (hs : r.saved = true) (hp : r.panic = none) (hkey : r.obj.Key = op.key env) :
    (crud env rt op).saved = true ∧ (crud env rt op).panic = none ∧
      events (crud env rt op).rt.toRunAfter =
        events rt.toRunAfter ++
          [Queued.publish (op.pfx env) op.action (op.key env) (some (op.payload r))] ∧
      (stores (crud env rt op).rt (op.pfx env)).map (fun idx => idx.Find (op.key env)) =
        some (op.written r) ∧
      (splitColon (op.key env).data = none →
        find env (crud env rt op).rt (op.pfx env) (op.key env) = .ok (op.written r)) := by
  have main : (crud env rt op).saved = true ∧ (crud env rt op).panic = none ∧
      events (crud env rt op).rt.toRunAfter =
        events rt.toRunAfter ++
          [Queued.publish (op.pfx env) op.action (op.key env) (some (op.payload r))] ∧
      (stores (crud env rt op).rt (op.pfx env)).map (fun idx => idx.Find (op.key env)) =
        some (op.written r) := by
    cases op with
    | create obj => exact create_succeeded env rt obj r hpub hcall hs hp hkey
    | update obj => exact update_succeeded env rt obj r hpub hcall hs hp hkey
    | patch obj key p => exact patch_succeeded env rt obj key p r hpub hcall hs hp hkey
    | save obj => exact save_succeeded env rt obj r hpub hcall hs hp hkey
    | remove obj =>
      obtain ⟨h1, h2, h3, h4, -⟩ := remove_succeeded env rt obj r hpub hcall hs hp
      exact ⟨h1, h2, h3, h4⟩
  obtain ⟨h1, h2, h3, h4⟩ := main
  refine ⟨h1, h2, h3, h4, ?_⟩
  intro hc
  cases hst : stores (crud env rt op).rt (op.pfx env) with
  | none => simp [hst] at h4
  | some idx =>
    rw [find_plain env hst _ hc]
    simpa [hst] using h4

theorem success_queues_one_event_witness :
    (crud (sampleEnv []) rtInDo (Op.create { body := Body.bootenv discovery })).saved = true ∧
      (crud (sampleEnv []) rtInDo (Op.create { body := Body.bootenv discovery })).panic = none ∧
      events (crud (sampleEnv []) rtInDo (Op.create { body := Body.bootenv discovery })).rt.toRunAfter =
        events rtInDo.toRunAfter ++
          [Queued.publish "bootenvs" "create" "discovery" (some { body := Body.bootenv discovery })] ∧
      find (sampleEnv []) (crud (sampleEnv []) rtInDo (Op.create { body := Body.bootenv discovery })).rt
          "bootenvs" "discovery" =
        .ok (some { body := Body.bootenv discovery }) :=
  have h := success_queues_one_event (sampleEnv []) rtInDo
    (Op.create { body := Body.bootenv discovery })
    { saved := true, obj := { body := Body.bootenv discovery, rt := true } }
    rfl (by decide) rfl rfl (by decide)
  ⟨h.1, h.2.1, h.2.2.1, h.2.2.2.2 (by decide)⟩

/-! ### The empty key -/

/-- Save makes no test of the key: inside `Do`, with the store of the prefix
locked, it calls the store library for every object, whatever its key. -/
theorem save_calls_store_library (env : Env) (rt : RequestTracker) (obj : Obj) (idx : Store)
    (hidx : stores rt obj.Prefix = some idx) :
    (Save env rt obj).call = some (env.storeSave rt (env.ClearValidation (env.Fill obj).setRT)) := by
  have hx := spkibrt_of_stores hidx
  simp only [Save, hx]
  split
  · rfl
  · split <;> rfl

/-- C13: code evaluated at the failing input.  `Save` of a preference whose
name is the empty string, inside `Do` with the preferences locked and a store
library that accepts the write: Save calls the library, returns true without an
error, the Index of the preferences holds the object under the empty key and a
`save` event is queued.  `Create` of the same object stops at its test of the
key with the error of code 400. -/
theorem C13_save_accepts_the_empty_key :
    namelessPref.Key = "" ∧
      (Save (sampleEnv []) rtPrefs namelessPref).saved = true ∧
      (Save (sampleEnv []) rtPrefs namelessPref).err = none ∧
      (Save (sampleEnv []) rtPrefs namelessPref).call =
        some { saved := true, obj := { body := Body.other "preferences" "" 0, rt := true } } ∧
      getStore (Save (sampleEnv []) rtPrefs namelessPref).rt.objs "preferences" =
        [namelessPref, { body := Body.other "preferences" "defaultBootEnv" 1 }] ∧
      (Save (sampleEnv []) rtPrefs namelessPref).rt.toRunAfter =
        [Queued.publish "preferences" "save" "" (some namelessPref)] ∧
      Create (sampleEnv []) rtPrefs namelessPref =
        { rt := rtPrefs
          err := some
            { Typ := "CREATE", Model := "preferences", Messages := ["Empty key not allowed"]
              Code := 400 } } := by
  decide

/-! ### Snapshot of an event -/

/-- C15: code evaluated at the failing input.  Inside `Do`, a thunk hands the
event for machine `m-1` to `PublishEvent` and then writes key `m-2` into the
event it still holds: the queue keeps the pointer, not a copy, and the event
the publishers receive is the rewritten one, not the value it had at the call. -/
theorem C15_published_event_is_not_a_snapshot :
    (runThunk mutatesAfterPublish (lockEnts rtBootenvs)).rt.toRunAfter = [Queued.publishEvent 0] ∧
      (Do rtBootenvs mutatesAfterPublish).panic = none ∧
      (Do rtBootenvs mutatesAfterPublish).rt.log =
        [ Obs.acquired ["bootenvs"],
          Obs.called (Queued.publishEvent 0) ["bootenvs"],
          Obs.delivered { pfx := "machines", action := "boot", key := "m-2" } ["bootenvs"],
          Obs.released ] := by
  decide

/-- The closure `Publish` queues holds a value: whatever the rest of the thunk
and the entries queued before it do, the event the publishers receive when the
closure is called carries the object handed to `Publish`. -/
theorem publish_delivers_the_value_queued (rt : RequestTracker) (p a key : String)
    (toSend : Option Obj) :
    (runQueued (Queued.publish p a key toSend) rt).rt.log =
      rt.log ++
        [ Obs.called (Queued.publish p a key toSend) rt.held,
          Obs.delivered { pfx := p, action := a, key := key, principal := rt.principal, object := toSend }
            rt.held ] := by
  simp [runQueued, deliver]

/-! ### Cascade on the save of a boot environment -/

theorem getStore_setStore_same (objs : List (String × Store)) (p : String) (s : Store) :
    getStore (setStore objs p s) p = s := by
  rw [getStore_setStore]
  simp

theorem getStore_setStore_ne (objs : List (String × Store)) (p q : String) (s : Store)
    (h : q ≠ p) : getStore (setStore objs p s) q = getStore objs q := by
  rw [getStore_setStore]
  have h1 : ¬ p = q := fun e => h e.symm
  simp [h1]

theorem afterSaveStages_spec (env : Env) (b : BootEnv) (rest : List Obj) :
    ∀ (done : List Obj) (acc : AfterSaveResult),
      rest.all Obj.isStage = true → acc.panic = none →
      getStore acc.rt.objs "stages" = done ++ rest →
      ∃ rs objs1,
        (afterSaveStages env b done rest acc).panic = none ∧
        (afterSaveStages env b done rest acc).revalidated =
          acc.revalidated ++ (rest.filter (Obj.bootsFrom b)).map Obj.Key ∧
        (afterSaveStages env b done rest acc).rt = { acc.rt with objs := objs1 } ∧
        getStore objs1 "stages" = done ++ rs ∧
        (∀ p, p ≠ "stages" → getStore objs1 p = getStore acc.rt.objs p) ∧
        List.Forall₂
          (fun before after =>
            if before.bootsFrom b = true then Revalidated env before after else after = before)
          rest rs := by
  induction rest with
  | nil =>
    intro done acc _ hp hs
    exact ⟨[], acc.rt.objs, by simpa [afterSaveStages] using hp, by simp [afterSaveStages],
      by simp [afterSaveStages], by simpa using hs, fun _ _ => rfl, List.Forall₂.nil⟩
  | cons i rest ih =>
    intro done acc ht hp hs
    simp only [List.all_cons, Bool.and_eq_true] at ht
    obtain ⟨s, hbody⟩ := isStage_body ht.1
    have hAs : AsStage i = .ok s := by simp [AsStage, hbody]
    have hkey : i.Key = s.Name := by simp [Obj.Key, hbody]
    by_cases hb : s.BootEnv = b.Name
    · have hboots : i.bootsFrom b = true := by simp [Obj.bootsFrom, hbody, hb]
      obtain ⟨rs, objs1, h1, h2, h3, h4, h5, h6⟩ :=
        ih (done ++ [(env.stageValidate
              { acc.rt with
                objs := setStore acc.rt.objs "stages" (done ++ env.ClearValidation i.setRT :: rest) }
              (env.ClearValidation i.setRT)).clearRT])
          { acc with
            rt := { acc.rt with
                    objs := setStore acc.rt.objs "stages"
                      (done ++ (env.stageValidate
                        { acc.rt with
                          objs := setStore acc.rt.objs "stages"
                            (done ++ env.ClearValidation i.setRT :: rest) }
                        (env.ClearValidation i.setRT)).clearRT :: rest) }
            revalidated := acc.revalidated ++ [s.Name] }
          ht.2 hp (by simp [getStore_setStore_same])
      refine ⟨(env.stageValidate
              { acc.rt with
                objs := setStore acc.rt.objs "stages" (done ++ env.ClearValidation i.setRT :: rest) }
              (env.ClearValidation i.setRT)).clearRT :: rs, objs1, ?_, ?_, ?_, ?_, ?_, ?_⟩
      · simpa [afterSaveStages, hAs, hb] using h1
      · simp only [afterSaveStages, hAs, hb, ne_eq, not_true_eq_false, if_false]
        rw [h2]
        simp [List.filter_cons, hboots, hkey]
      · simp only [afterSaveStages, hAs, hb, ne_eq, not_true_eq_false, if_false]
        rw [h3]
      · rw [h4]; simp
      · intro p hpne
        rw [h5 p hpne]
        exact getStore_setStore_ne _ _ _ _ hpne
      · refine List.Forall₂.cons ?_ h6
        simp only [hboots, if_true]
        exact ⟨⟨_, rfl⟩, rfl⟩
    · have hboots : i.bootsFrom b = false := by simp [Obj.bootsFrom, hbody, hb]
      obtain ⟨rs, objs1, h1, h2, h3, h4, h5, h6⟩ :=
        ih (done ++ [i]) acc ht.2 hp (by simpa using hs)
      refine ⟨i :: rs, objs1, ?_, ?_, ?_, ?_, ?_, ?_⟩
      · simpa [afterSaveStages, hAs, hb] using h1
      · simp only [afterSaveStages, hAs, hb, ne_eq, not_false_eq_true, if_true]
        rw [h2]
        simp [List.filter_cons, hboots]
      · simp only [afterSaveStages, hAs, hb, ne_eq, not_false_eq_true, if_true]
        rw [h3]
      · rw [h4]; simp
      · exact h5
      · refine List.Forall₂.cons ?_ h6
        simp [hboots]

/-- C11: cascade on the save of a boot environment.  Inside `Do` with the
stages locked (every item of the stages store being a Stage),
`BootEnv.AfterSave` does not panic; the stages it revalidates are the stages
of the store whose BootEnv field equals `b.Name`, each once, in store order;
afterwards each of these is the result of one `ClearValidation` followed by
one `Validate` on the stage as it was, with its tracker reference reset to
nil, and every other stage is what it was; the other stores and the rest of
the tracker state are unchanged. -/
theorem C11_bootenv_save_revalidates_its_stages (env : Env) (rt : RequestTracker) (b : BootEnv)
    (ss : Store) (hst : stores rt "stages" = some ss) (htyped : ss.all Obj.isStage = true) :
    (b.AfterSave env rt).panic = none ∧
      (b.AfterSave env rt).revalidated = (ss.filter (Obj.bootsFrom b)).map Obj.Key ∧
      List.Forall₂
        (fun before after =>
          if before.bootsFrom b = true then Revalidated env before after else after = before)
        ss (getStore (b.AfterSave env rt).rt.objs "stages") ∧
      (∀ p, p ≠ "stages" → getStore (b.AfterSave env rt).rt.objs p = getStore rt.objs p) ∧
      ∃ objs1, (b.AfterSave env rt).rt = { rt with objs := objs1 } := by
  have hd := stores_inside hst
  obtain ⟨rs, objs1, h1, h2, h3, h4, h5, h6⟩ :=
    afterSaveStages_spec env b ss [] { rt := rt } htyped rfl
      (by simpa using (stores_eq_getStore hst).symm)
  have hA : b.AfterSave env rt = afterSaveStages env b [] ss { rt := rt } := by
    simp [BootEnv.AfterSave, hd, hst]
  rw [hA]
  refine ⟨h1, by simpa using h2, ?_, ?_, objs1, h3⟩
  · rw [h3]
    simp only [List.nil_append] at h4
    simpa [h4] using h6
  · intro p hp
    rw [h3]
    exact h5 p hp

theorem C11_bootenv_save_revalidates_its_stages_witness :
    (ubuntuInstall.AfterSave validatingEnv rtCascade).revalidated = ["install", "repair"] ∧
      getStore (ubuntuInstall.AfterSave validatingEnv rtCascade).rt.objs "stages" =
        [ { body := Body.stage { Name := "install", BootEnv := "ubuntu-20.04-install"
                                 Validated := true, Available := true } },
          { body := Body.stage { Name := "local", BootEnv := "local", Validated := true } },
          { body := Body.stage { Name := "repair", BootEnv := "ubuntu-20.04-install"
                                 Validated := true, Available := true } } ] ∧
      (ubuntuInstall.AfterSave validatingEnv rtCascade).panic = none :=
  have h := C11_bootenv_save_revalidates_its_stages validatingEnv rtCascade ubuntuInstall
    [ { body := Body.stage { Name := "install", BootEnv := "ubuntu-20.04-install" } },
      { body := Body.stage { Name := "local", BootEnv := "local", Validated := true } },
      { body := Body.stage { Name := "repair", BootEnv := "ubuntu-20.04-install"
                             Errors := ["missing template"] } } ]
    (by decide) (by decide)
  ⟨h.2.1.trans (by decide), by decide, h.1⟩

/-! ### Install repos and lookasides -/

/-- C18: code evaluated at the failing input.  The boot environment has the
arches amd64 and arm64 and the global profile lists an install repo for each,
both for its OS.  The loop of `fillInstallRepos` returns after the first repo
it binds: amd64 gets its repo and its lookaside, arm64 gets neither, although
its repo is bound when it is the only one listed. -/
theorem C18_only_the_first_matching_repo_is_bound :
    centosBoth.fillInstallRepos (reposEnv [] [centosAmdRepo, centosArmRepo]) rtRepos =
        .ok { centosBoth with
              kernelVerified := true
              installRepos := [("amd64", centosAmdRepo)]
              pathLookasides :=
                [("amd64",
                  { arch := "amd64", realArch := "amd64"
                    archInfo := { Kernel := "vmlinuz", Initrds := ["initrd.img"] }
                    pf := "/centos/install", fileRoot := "/tftpboot" })] } ∧
      centosBoth.fillInstallRepos (reposEnv [] [centosArmRepo]) rtRepos =
        .ok { centosBoth with
              kernelVerified := true
              installRepos := [("arm64", centosArmRepo)]
              pathLookasides :=
                [("arm64",
                  { arch := "aarch64", realArch := "arm64"
                    archInfo := { Kernel := "vmlinuz" }
                    pf := "/centos/arm64/install", fileRoot := "/tftpboot" })] } := by
  decide

theorem os_matches_iff (os : List String) (name : String) :
    (decide (os.length ≠ 1) || decide (os[0]? ≠ some name)) = !decide (os = [name]) := by
  cases os with
  | nil => simp
  | cons a rest =>
    cases rest with
    | nil => simp
    | cons c more => simp

/-- What the loop of `fillInstallRepos` binds: when it ends without a panic,
the boot environment is unchanged if no repo of the list meets the three
conditions, and otherwise the first repo that meets them, and no other, is
bound, with a lookaside, for the arch of the boot environment its arch names. -/
theorem bindInstallRepo_binds_first_match (env : Env) (rt : RequestTracker) (b b1 : BootEnv)
    (repos : List Repo) (h : bindInstallRepo env rt b repos = .ok b1) :
    (repos.find? (Repo.installsFor env b) = none → b1 = b) ∧
    (∀ r, repos.find? (Repo.installsFor env b) = some r →
      b1.installRepos = mapSet (b.ArchFor env r.Arch) r b.installRepos ∧
      ∃ l, b1.pathLookasides = mapSet (b.ArchFor env r.Arch) l b.pathLookasides ∧
        l.arch = r.Arch ∧ l.realArch = b.ArchFor env r.Arch ∧
        b.realArches.lookup (b.ArchFor env r.Arch) = some l.archInfo ∧
        l.fileRoot = rt.FileRoot) := by
  induction repos with
  | nil =>
    simp only [bindInstallRepo, Except.ok.injEq] at h
    exact ⟨fun _ => h.symm, fun r hr => by simp at hr⟩
  | cons r rest ih =>
    unfold bindInstallRepo at h
    by_cases hc : (!r.InstallSource || decide (r.OS.length ≠ 1) ||
        decide (r.OS[0]? ≠ some b.OS.Name)) = true
    · rw [if_pos hc] at h
      have hno : Repo.installsFor env b r = false := by
        rw [Bool.or_assoc, os_matches_iff] at hc
        unfold Repo.installsFor
        cases hi : r.InstallSource <;> cases ho : decide (r.OS = [b.OS.Name]) <;> simp_all
      simpa [List.find?, hno] using ih h
    · rw [if_neg hc] at h
      have hc1 : r.InstallSource = true ∧ r.OS = [b.OS.Name] := by
        rw [Bool.or_assoc, os_matches_iff] at hc
        cases hi : r.InstallSource <;> cases ho : decide (r.OS = [b.OS.Name]) <;> simp_all
      cases ha : b.realArches.lookup (b.ArchFor env r.Arch) with
      | none =>
        simp only [ha] at h
        have hno : Repo.installsFor env b r = false := by
          simp [Repo.installsFor, ha]
        simpa [List.find?, hno] using ih h
      | some archInfo =>
        simp only [ha] at h
        have hyes : Repo.installsFor env b r = true := by
          simp [Repo.installsFor, ha, hc1.1, hc1.2]
        split at h
        · simp at h
        · simp only [Except.ok.injEq] at h
          subst h
          refine ⟨fun hn => by simp [List.find?, hyes] at hn, ?_⟩
          intro r1 hr1
          simp only [List.find?, hyes, Option.some.injEq] at hr1
          subst hr1
          exact ⟨rfl, _, rfl, rfl, rfl, ha, rfl⟩

/-- C19 as worded fails on two points of the closure.  The boot location is
used with its trailing slash removed: with `BootLoc = http://mirror/boot/` the
kernel is fetched from `http://mirror/boot/linux`, which is not
`BootLoc + "/" + basename(kernel)`.  The kernel is tested first: a path that
ends with the initrd name `initrd-linux`, and so with the kernel name `linux`,
is fetched from the kernel's URL, not from the initrd's. -/
theorem C19_boot_loc_is_trimmed_and_kernel_wins :
    (lookaside (sampleEnv []) (ubuntuBound "linux" "initrd.gz" "http://mirror/boot/")
        (ubuntuLookaside "linux" "initrd.gz") "/ubuntu/install/linux" =
          .ok (Fetch.get "http://mirror/boot/linux") ∧
      "http://mirror/boot/" ++ "/" ++ pathBase "linux" ≠ "http://mirror/boot/linux") ∧
    (HasSuffix "/ubuntu/install/initrd-linux" "initrd-linux" = true ∧
      lookaside (sampleEnv []) (ubuntuBound "linux" "initrd-linux" "http://mirror/boot")
        (ubuntuLookaside "linux" "initrd-linux") "/ubuntu/install/initrd-linux" =
          .ok (Fetch.get "http://mirror/boot/linux") ∧
      "http://mirror/boot" ++ "/" ++ pathBase "initrd-linux" ≠ "http://mirror/boot/linux") := by
  decide

/-- C19 (amended): the rewrite of boot files by a lookaside.  When the
lookaside of an arch proxies upstream (no local tree on disk, a repo still
bound for the arch), the boot location of the repo is not empty and the
top-level kernel of the boot environment is the kernel the arch declares: a
requested path that ends with the kernel name is fetched from the boot
location, a trailing slash removed, followed by `/` and the basename of the
kernel; a requested path that does not end with the kernel name and ends with
an initrd name of the arch is fetched from the boot location, a trailing slash
removed, followed by `/` and the basename of the first such initrd.  With
kernel `linux` and boot location `http://mirror/boot` the request
`/ubuntu/install/linux` is fetched from `http://mirror/boot/linux`. -/
theorem C19_lookaside_boot_file_rewrite (env : Env) (b : BootEnv) (l : Lookaside) (p dir : String)
    (repo : Repo)
    (hdir : b.PathFor env "" l.arch = .ok dir)
    (hstat : env.stat (pathJoin [l.fileRoot, dir]) = none)
    (hrepo : b.installRepos.lookup l.realArch = some repo)
    (hboot : repo.BootLoc ≠ "")
    (hkernel : b.Kernel = l.archInfo.Kernel) :
    (HasSuffix p l.archInfo.Kernel = true →
      lookaside env b l p =
        .ok (Fetch.get (TrimSuffix repo.BootLoc "/" ++ "/" ++ pathBase l.archInfo.Kernel))) ∧
    (HasSuffix p l.archInfo.Kernel = false →
      ∀ i, l.archInfo.Initrds.find? (fun i => HasSuffix p i) = some i →
        lookaside env b l p = .ok (Fetch.get (TrimSuffix repo.BootLoc "/" ++ "/" ++ pathBase i))) ∧
    lookaside (sampleEnv []) (ubuntuBound "linux" "initrd.gz" "http://mirror/boot")
        (ubuntuLookaside "linux" "initrd.gz") "/ubuntu/install/linux" =
      .ok (Fetch.get "http://mirror/boot/linux") := by
  refine ⟨?_, ?_, by decide⟩
  · intro hk
    simp [lookaside, hdir, hstat, hrepo, hboot, hkernel, hk]
  · intro hk i hi
    simp [lookaside, hdir, hstat, hrepo, hboot, hkernel, hk, hi]

theorem C19_lookaside_boot_file_rewrite_witness :
    lookaside (sampleEnv []) (ubuntuBound "linux" "initrd.gz" "http://mirror/boot/")
        (ubuntuLookaside "linux" "initrd.gz") "/ubuntu/install/initrd.gz" =
      .ok (Fetch.get (TrimSuffix "http://mirror/boot/" "/" ++ "/" ++ pathBase "initrd.gz")) :=
  (C19_lookaside_boot_file_rewrite (sampleEnv [])
    (ubuntuBound "linux" "initrd.gz" "http://mirror/boot/") (ubuntuLookaside "linux" "initrd.gz")
    "/ubuntu/install/initrd.gz" "/ubuntu/install" (ubuntuRepo "http://mirror/boot/")
    (by decide) (by decide) (by decide) (by decide) rfl).2.1 (by decide) "initrd.gz" (by decide)

/-- C20: code evaluated at the failing input.  The boot environment declares
its kernel and initrd under `OS.SupportedArchitectures` only, so its top-level
kernel is the empty string; the repo bound for arm64 has a boot location.  The
requested path ends neither with the kernel name nor with the initrd name of
the arch, yet the closure tests the path against the top-level kernel, every
path ends with the empty string, and the kernel of the boot location is
fetched instead of the file under the URL of the repo. -/
theorem C20_every_path_is_rewritten_to_the_kernel :
    centosArm.fillInstallRepos (reposEnv [] [centosArmRepo]) rtRepos = .ok centosArmBound ∧
      centosArmBound.Kernel = "" ∧
      HasSuffix "/centos/arm64/install/images/install.img" "vmlinuz" = false ∧
      HasSuffix "/centos/arm64/install/images/install.img" "initrd.img" = false ∧
      lookaside (reposEnv [] [centosArmRepo]) centosArmBound centosArmLookaside
          "/centos/arm64/install/images/install.img" =
        .ok (Fetch.get "http://mirror/centos/arm64/boot/vmlinuz") ∧
      TrimSuffix centosArmRepo.URL "/" ++
          TrimPrefix "/centos/arm64/install/images/install.img" "/centos/arm64/install" =
        "http://mirror/centos/arm64/images/install.img" := by
  decide

/-- The default URL of a lookaside.  When the lookaside of an arch proxies
upstream and either the repo has no boot location, or the requested path ends
neither with the top-level kernel of the boot environment nor with an initrd
name of the arch, the URL fetched is the URL of the repo, a trailing slash
removed, followed by the requested path without the path of the arch. -/
theorem lookaside_default_url (env : Env) (b : BootEnv) (l : Lookaside) (p dir : String)
    (repo : Repo)
    (hdir : b.PathFor env "" l.arch = .ok dir)
    (hstat : env.stat (pathJoin [l.fileRoot, dir]) = none)
    (hrepo : b.installRepos.lookup l.realArch = some repo)
    (h : repo.BootLoc = "" ∨
      (HasSuffix p b.Kernel = false ∧ l.archInfo.Initrds.find? (fun i => HasSuffix p i) = none)) :
    lookaside env b l p = .ok (Fetch.get (TrimSuffix repo.URL "/" ++ TrimPrefix p l.pf)) := by
  rcases h with h | ⟨h1, h2⟩
  · simp [lookaside, hdir, hstat, hrepo, h]
  · by_cases hb : repo.BootLoc = ""
    · simp [lookaside, hdir, hstat, hrepo, hb]
    · simp [lookaside, hdir, hstat, hrepo, hb, h1, h2]

/-! ### The extractor -/

/-- C22: `explodeISO` runs at most one command.  It runs the extractor, the
join of the file root and `explode_iso.sh`, with the argument list
`[osName, fileRoot, isoFile, dest, shaSum]`, when no SHA256 is declared, and
when one is declared and the ISO can be read and the digest of its content is
`shaSum`; it runs nothing when a SHA256 is declared and the ISO cannot be
opened or read, or its digest differs. -/
theorem C22_explode_iso_runs_the_extractor (env : Env)
    (envName osName fileRoot isoFile dest shaSum : String) :
    (explodeISO env envName osName fileRoot isoFile dest shaSum).length ≤ 1 ∧
    (shaSum = "" →
      explodeISO env envName osName fileRoot isoFile dest shaSum =
        [{ name := pathJoin [fileRoot, "explode_iso.sh"]
           args := [osName, fileRoot, isoFile, dest, shaSum] }]) ∧
    (shaSum ≠ "" →
      (∀ content, env.readFile isoFile = some content → env.sha256hex content = shaSum →
        explodeISO env envName osName fileRoot isoFile dest shaSum =
          [{ name := pathJoin [fileRoot, "explode_iso.sh"]
             args := [osName, fileRoot, isoFile, dest, shaSum] }]) ∧
      (env.readFile isoFile = none →
        explodeISO env envName osName fileRoot isoFile dest shaSum = []) ∧
      (∀ content, env.readFile isoFile = some content → env.sha256hex content ≠ shaSum →
        explodeISO env envName osName fileRoot isoFile dest shaSum = [])) := by
  refine ⟨?_, ?_, ?_⟩
  · unfold explodeISO
    split
    · split
      · simp
      · split <;> simp
    · simp
  · intro h
    simp [explodeISO, h]
  · intro h
    refine ⟨?_, ?_, ?_⟩
    · intro content hr hs
      simp [explodeISO, h, hr, hs]
    · intro hr
      simp [explodeISO, h, hr]
    · intro content hr hs
      simp [explodeISO, h, hr, hs]

theorem C22_explode_iso_runs_the_extractor_witness :
    explodeISO (isoEnv "/tftpboot/isos/centos.iso" "iso-bytes") "centos-install" "centos" "/tftpboot"
        "/tftpboot/isos/centos.iso" "/tftpboot/centos/install" "sha256:iso-bytes" =
      [{ name := "/tftpboot/explode_iso.sh"
         args := ["centos", "/tftpboot", "/tftpboot/isos/centos.iso", "/tftpboot/centos/install",
                  "sha256:iso-bytes"] }] :=
  ((C22_explode_iso_runs_the_extractor (isoEnv "/tftpboot/isos/centos.iso" "iso-bytes")
    "centos-install" "centos" "/tftpboot" "/tftpboot/isos/centos.iso" "/tftpboot/centos/install"
    "sha256:iso-bytes").2.2 (by decide)).1 "iso-bytes" (by decide) (by decide)

/-! ### The MAC address of a lease input -/

/-- C26: code evaluated at the failing input.  The four required fields are
set and the MAC address is `aa:bb:cc:dd:ee:ff`, seventeen characters, six
colon-separated pairs of lower-case hexadecimal digits: `Validate` returns an
error, because the pattern asks for one pair, five colons in a row and one
pair, which `aa:::::bb` matches and no MAC address does. -/
theorem C26_a_mac_address_is_rejected :
    sampleLease.Validate =
        some ["MacAddress in body should match '^([0-9a-f]\x7b2\x7d):\x7b5\x7d[0-9a-f]\x7b2\x7d$'"] ∧
      macPattern.matchesAll "aa:bb:cc:dd:ee:ff" = false ∧
      macPattern.matchesAll "aa:::::bb" = true := by
  decide

theorem iterRests_length (f : List Char → List (List Char)) (k : Nat)
    (hf : ∀ s t, t ∈ f s → s.length = t.length + k) :
    ∀ n s t, t ∈ iterRests f n s → s.length = t.length + n * k := by
  intro n
  induction n with
  | zero =>
    intro s t ht
    simp only [iterRests, List.mem_singleton] at ht
    simp [ht]
  | succ n ih =>
    intro s t ht
    simp only [iterRests, List.mem_flatMap] at ht
    obtain ⟨u, hu, htu⟩ := ht
    have h1 := hf s u hu
    have h2 := ih u t htu
    rw [h1, h2, Nat.succ_mul]
    omega

theorem chr_rests_length (c : Char) (s t : List Char) (h : t ∈ (Re.chr c).rests s) :
    s.length = t.length + 1 := by
  cases s with
  | nil => simp [Re.rests] at h
  | cons x xs =>
    simp only [Re.rests] at h
    split at h
    · simp only [List.mem_singleton] at h
      simp [h]
    · simp at h

theorem range_rests_length (lo hi : Char) (s t : List Char) (h : t ∈ (Re.range lo hi).rests s) :
    s.length = t.length + 1 := by
  cases s with
  | nil => simp [Re.rests] at h
  | cons x xs =>
    simp only [Re.rests] at h
    split at h
    · simp only [List.mem_singleton] at h
      simp [h]
    · simp at h

theorem lowerHex_rests_length (s t : List Char) (h : t ∈ lowerHex.rests s) :
    s.length = t.length + 1 := by
  simp only [lowerHex, Re.rests, List.mem_append] at h
  rcases h with h | h
  · exact range_rests_length '0' '9' s t h
  · exact range_rests_length 'a' 'f' s t h

/-- A text the pattern of the MAC address matches has nine characters. -/
theorem macPattern_length (s : String) (h : macPattern.matchesAll s = true) :
    s.data.length = 9 := by
  simp only [Re.matchesAll, decide_eq_true_eq, macPattern, Re.rests, List.mem_flatMap] at h
  obtain ⟨u, ⟨v, hv, hu⟩, ht⟩ := h
  have h1 := iterRests_length (fun t => lowerHex.rests t) 1 lowerHex_rests_length 2 _ _ hv
  have h2 := iterRests_length (fun t => (Re.chr ':').rests t) 1 (chr_rests_length ':') 5 _ _ hu
  have h3 := iterRests_length (fun t => lowerHex.rests t) 1 lowerHex_rests_length 2 _ _ ht
  simp only [List.length_nil] at h3
  omega

/-- No lease input passes `Validate`: a MAC address that is set is refused by
the test of the length when it does not have seventeen characters and by the
pattern when it has. -/
theorem lease_input_never_validates (m : DhcpLeaseInput) : m.Validate ≠ none := by
  have hmac : m.validateMacAddress ≠ none := by
    unfold DhcpLeaseInput.validateMacAddress
    cases hm : m.MacAddress with
    | none => simp [Required]
    | some mac =>
      simp only [Required, Option.isNone_some, Bool.false_eq_true, if_false]
      have hlen : mac.data.length = mac.length := rfl
      by_cases h1 : mac.length < 17
      · simp [MinLength, h1]
      · by_cases h2 : 17 < mac.length
        · simp [MinLength, h1, MaxLength, h2]
        · have hp : macPattern.matchesAll mac = false := by
            cases hmatch : macPattern.matchesAll mac with
            | false => rfl
            | true =>
              have := macPattern_length mac hmatch
              omega
          simp [MinLength, h1, MaxLength, h2, Pattern, hp]
  unfold DhcpLeaseInput.Validate
  cases hv : m.validateMacAddress with
  | none => exact absurd hv hmac
  | some e => simp

/-- What holds of C26: `Validate` returns an error when one of the four
required fields is nil or the MAC address does not have seventeen characters,
and a nil MAC address is reported as a missing required field. -/
theorem lease_input_required_fields (m : DhcpLeaseInput) :
    (m.MacAddress = none → m.validateMacAddress = some "MacAddress in body is required") ∧
    ((m.ExpireTime = none ∨ m.IPAddress = none ∨ m.MacAddress = none ∨ m.Valid = none ∨
        ∃ mac, m.MacAddress = some mac ∧ mac.data.length ≠ 17) → m.Validate ≠ none) := by
  refine ⟨?_, fun _ => lease_input_never_validates m⟩
  intro h
  simp [DhcpLeaseInput.validateMacAddress, Required, h]

/-! ### Orders of the indexes -/

theorem strLt_irrefl (a : List Char) : strLt a a = false := by
  induction a with
  | nil => rfl
  | cons x xs ih => simp [strLt, ih]

theorem strLt_trans (a b c : List Char) (h1 : strLt a b = true) (h2 : strLt b c = true) :
    strLt a c = true := by
  induction a generalizing b c with
  | nil =>
    cases b with
    | nil => simp [strLt] at h1
    | cons y ys =>
      cases c with
      | nil => simp [strLt] at h2
      | cons z zs => simp [strLt]
  | cons x xs ih =>
    cases b with
    | nil => simp [strLt] at h1
    | cons y ys =>
      cases c with
      | nil => simp [strLt] at h2
      | cons z zs =>
        simp only [strLt] at h1 h2 ⊢
        by_cases hxy : x.toNat < y.toNat
        · by_cases hyz : y.toNat < z.toNat
          · have : x.toNat < z.toNat := by omega
            simp [this]
          · by_cases hzy : z.toNat < y.toNat
            · simp [hyz, hzy] at h2
            · have : x.toNat < z.toNat := by omega
              simp [this]
        · by_cases hyx : y.toNat < x.toNat
          · simp [hxy, hyx] at h1
          · simp only [hxy, hyx, if_false] at h1
            by_cases hyz : y.toNat < z.toNat
            · have : x.toNat < z.toNat := by omega
              simp [this]
            · by_cases hzy : z.toNat < y.toNat
              · simp [hyz, hzy] at h2
              · simp only [hyz, hzy, if_false] at h2
                have h3 : ¬ x.toNat < z.toNat := by omega
                have h4 : ¬ z.toNat < x.toNat := by omega
                simp only [h3, h4, if_false]
                exact ih ys zs h1 h2

theorem strLt_total (a b : List Char) (h1 : strLt a b = false) (h2 : strLt b a = false) :
    a = b := by
  induction a generalizing b with
  | nil =>
    cases b with
    | nil => rfl
    | cons y ys => simp [strLt] at h1
  | cons x xs ih =>
    cases b with
    | nil => simp [strLt] at h2
    | cons y ys =>
      simp only [strLt] at h1 h2
      by_cases hxy : x.toNat < y.toNat
      · simp [hxy] at h1
      · by_cases hyx : y.toNat < x.toNat
        · simp [hyx] at h2
        · simp only [hxy, hyx, if_false] at h1 h2
          have hn : x.toNat = y.toNat := by omega
          have hc : x = y := by rw [← Char.ofNat_toNat x, hn, Char.ofNat_toNat]
          rw [hc, ih ys h1 h2]

theorem strLe_eq_not_strLt (a b : List Char) : strLe a b = !strLt b a := by
  induction a generalizing b with
  | nil => cases b <;> simp [strLe, strLt]
  | cons x xs ih =>
    cases b with
    | nil => simp [strLe, strLt]
    | cons y ys =>
      simp only [strLe, strLt]
      by_cases hxy : x.toNat < y.toNat
      · have : ¬ y.toNat < x.toNat := by omega
        simp [hxy, this]
      · by_cases hyx : y.toNat < x.toNat
        · simp [hxy, hyx]
        · simp [hxy, hyx, ih]

theorem strictWeak_of_key {α : Type} (key : α → List Char) :
    StrictWeakOrder (fun i j => strLt (key i) (key j)) := by
  refine ⟨fun a => strLt_irrefl _, fun a b c h1 h2 => strLt_trans _ _ _ h1 h2, ?_⟩
  intro a b c h1 h2 h3 h4
  have hab := strLt_total _ _ h1 h2
  have hbc := strLt_total _ _ h3 h4
  simp only at hab hbc ⊢
  rw [hab, hbc]
  exact ⟨strLt_irrefl _, strLt_irrefl _⟩

/-- C29: the indexes `Name`, `OsName` and `OnlyUnknown` of BootEnv and `Name`
of Task.  The `less` function of each is a strict weak order (irreflexive,
transitive, with a transitive incomparability), and for `OnlyUnknown` it holds
exactly of a pair with false on the left and true on the right; the probes
built from a reference object agree with it (`gte` of the objects that are not
less than the reference, `gt` of those the reference is less than); the two
`Name` indexes are declared unique and the two others are not; the constructor
of `OnlyUnknown` accepts `true` and `false` and returns an error for every
other text. -/
theorem C29_index_orders :
    BootEnv.Indexes.map Prod.fst = ["Name", "OsName", "OnlyUnknown"] ∧
    Task.Indexes.map Prod.fst = ["Name"] ∧
    (∀ m ∈ BootEnv.Indexes, StrictWeakOrder m.2.less ∧ ProbesAgree m.2) ∧
    (∀ m ∈ Task.Indexes, StrictWeakOrder m.2.less ∧ ProbesAgree m.2) ∧
    (∀ i j : BootEnv, bootEnvOnlyUnknownIndex.less i j = true ↔
      (i.OnlyUnknown = false ∧ j.OnlyUnknown = true)) ∧
    (BootEnv.Indexes.map fun m => (m.1, m.2.Unique)) =
      [("Name", true), ("OsName", false), ("OnlyUnknown", false)] ∧
    (Task.Indexes.map fun m => (m.1, m.2.Unique)) = [("Name", true)] ∧
    bootEnvOnlyUnknownIndex.fill "true" = .ok { OnlyUnknown := true } ∧
    bootEnvOnlyUnknownIndex.fill "false" = .ok { OnlyUnknown := false } ∧
    (∀ s, s ≠ "true" → s ≠ "false" →
      bootEnvOnlyUnknownIndex.fill s = .error "OnlyUnknown must be true or false") := by
  have hname : StrictWeakOrder bootEnvNameIndex.less ∧ ProbesAgree bootEnvNameIndex :=
    ⟨strictWeak_of_key fun b : BootEnv => b.Name.data,
      fun ref s => ⟨strLe_eq_not_strLt _ _, rfl⟩⟩
  have hos : StrictWeakOrder bootEnvOsNameIndex.less ∧ ProbesAgree bootEnvOsNameIndex :=
    ⟨strictWeak_of_key fun b : BootEnv => b.OS.Name.data,
      fun ref s => ⟨strLe_eq_not_strLt _ _, rfl⟩⟩
  have hunk : StrictWeakOrder bootEnvOnlyUnknownIndex.less ∧ ProbesAgree bootEnvOnlyUnknownIndex := by
    refine ⟨⟨?_, ?_, ?_⟩, ?_⟩
    · intro a
      cases h : a.OnlyUnknown <;> simp [bootEnvOnlyUnknownIndex, h]
    · intro a b c
      cases ha : a.OnlyUnknown <;> cases hb : b.OnlyUnknown <;> cases hc : c.OnlyUnknown <;>
        simp [bootEnvOnlyUnknownIndex, ha, hb, hc]
    · intro a b c
      cases ha : a.OnlyUnknown <;> cases hb : b.OnlyUnknown <;> cases hc : c.OnlyUnknown <;>
        simp [bootEnvOnlyUnknownIndex, ha, hb, hc]
    · intro ref s
      cases hr : ref.OnlyUnknown <;> cases hs : s.OnlyUnknown <;>
        simp [bootEnvOnlyUnknownIndex, hr, hs]
  have htask : StrictWeakOrder taskNameIndex.less ∧ ProbesAgree taskNameIndex :=
    ⟨strictWeak_of_key fun t : Task => t.Name.data,
      fun ref s => ⟨strLe_eq_not_strLt _ _, rfl⟩⟩
  refine ⟨rfl, rfl, ?_, ?_, ?_, rfl, rfl, rfl, rfl, ?_⟩
  · intro m hm
    simp only [BootEnv.Indexes, List.mem_cons, List.mem_singleton, List.not_mem_nil, or_false] at hm
    rcases hm with rfl | rfl | rfl
    · exact hname
    · exact hos
    · exact hunk
  · intro m hm
    simp only [Task.Indexes, List.mem_singleton] at hm
    subst hm
    exact htask
  · intro i j
    cases hi : i.OnlyUnknown <;> cases hj : j.OnlyUnknown <;>
      simp [bootEnvOnlyUnknownIndex, hi, hj]
  · intro s h1 h2
    simp [bootEnvOnlyUnknownIndex, h1, h2]

/-! ### Aggregation over the profiles of an object -/

theorem firstHit_append (k : String) (l1 l2 : List Obj) :
    firstHit k (l1 ++ l2) =
      match firstHit k l1 with
      | some hit => some hit
      | none => firstHit k l2 := by
  induction l1 with
  | nil => simp [firstHit]
  | cons sub rest ih =>
    simp only [List.cons_append, firstHit]
    cases h : sub.GetParams.lookup k with
    | some v => rfl
    | none => exact ih

theorem subObjs_not_machine (env : Env) {rt : RequestTracker} {obj : Obj} {ps : Store}
    (hm : obj.isMachine = false) (hp : stores rt "profiles" = some ps) :
    subObjs env rt obj = .ok (profileNamed env rt rt.GlobalProfileName).toList := by
  obtain ⟨g, hg, -⟩ := Find_of_stores env hp rt.GlobalProfileName
  unfold subObjs
  cases hb : obj.body with
  | machine m => simp [Obj.isMachine, hb] at hm
  | bootenv b => simp [findProfiles, hg, profileNamed]
  | stage s => simp [findProfiles, hg, profileNamed]
  | task t => simp [findProfiles, hg, profileNamed]
  | profile p => simp [findProfiles, hg, profileNamed]
  | param p => simp [findProfiles, hg, profileNamed]
  | other p k c => simp [findProfiles, hg, profileNamed]

/-- C25 as worded fails for an object that is not a Machine.  The stage `S`
lists the profile `P3`, which exists and sets `a` to 3; the global profile
sets `a` to 4; the stage does not set `a` itself.  `GetParams` with
aggregation resolves `a` to 4, the value of the global profile: the profiles
of the stage are not consulted. -/
theorem C25_profiles_of_a_stage_are_not_consulted :
    (GetParams (sampleEnv []) rtAgg { body := Body.stage { Name := "S", Profiles := ["P3"] } }
        true false).params.lookup "a" = some (Val.num 4) ∧
      (GetParams (sampleEnv []) rtAgg { body := Body.stage { Name := "S", Profiles := ["P3"] } }
        true false).panic = none ∧
      profileNamed (sampleEnv []) rtAgg "P3" =
        some (profileObj "P3" [("a", Val.num 3), ("b", Val.num 3)]) := by
  decide

/-- C25 (amended): aggregation over the profiles of an object, with the
profiles locked.  For a Machine (the stages locked as well), `GetParams` with
aggregation and without decryption resolves a key that the machine does not
set itself and that one of its own profiles sets to the value of the first of
its profiles, in list order, that sets it, whatever the profiles of its stage
and the global profile hold.  For an object that is not a Machine, a Stage for
one, the Profiles list of the object is not consulted: a key the object does
not set itself is resolved from the global profile alone. -/
theorem C25_aggregation_over_own_profiles (env : Env) (rt : RequestTracker) (obj : Obj)
    (ps : Store) (hp : stores rt "profiles" = some ps) :
    (∀ (m : Machine) (ss : Store), obj.body = Body.machine m → stores rt "stages" = some ss →
      ss.all Obj.isStage = true →
      ∀ k hit, m.Params.lookup k = none →
        firstHit k (m.Profiles.filterMap (profileNamed env rt)) = some hit →
        (GetParams env rt obj true false).params.lookup k = some hit.2 ∧
        (GetParams env rt obj true false).panic = none) ∧
    (obj.isMachine = false →
      (GetParams env rt obj true false).panic = none ∧
      ∀ k, (GetParams env rt obj true false).params.lookup k =
        match obj.GetParams.lookup k with
        | some v => some v
        | none => (firstHit k (profileNamed env rt rt.GlobalProfileName).toList).map Prod.snd) := by
  constructor
  · intro m ss hm hs htyped k hit hown hfirst
    have hgp : obj.GetParams = m.Params := by simp [Obj.GetParams, hm]
    have hsub := subObjs_ok env hm hp hs htyped
    have hagg : firstHit k (aggOrder env rt m) = some hit := by
      unfold aggOrder
      rw [List.append_assoc, firstHit_append, hfirst]
    refine ⟨?_, by simp [GetParams, getAggParams, hsub]⟩
    simp only [GetParams, getAggParams, hsub, hgp, Bool.not_true, Bool.false_eq_true, if_false]
    rw [mergeSubs_params]
    simp [hown, hagg]
  · intro hm
    have hsub := subObjs_not_machine env hm hp
    refine ⟨by simp [GetParams, getAggParams, hsub], ?_⟩
    intro k
    simp only [GetParams, getAggParams, hsub, Bool.not_true, Bool.false_eq_true, if_false]
    rw [mergeSubs_params]

theorem C25_aggregation_over_own_profiles_witness :
    (GetParams (sampleEnv []) rtAgg { body := Body.machine aggMachine } true false).params.lookup "a" =
        some (Val.num 2) ∧
      (GetParams (sampleEnv []) rtAgg { body := Body.stage { Name := "S", Profiles := ["P3"] } }
        true false).params.lookup "b" = some (Val.num 4) :=
  ⟨((C25_aggregation_over_own_profiles (sampleEnv []) rtAgg { body := Body.machine aggMachine }
      (getStore rtAgg.objs "profiles") (by decide)).1 aggMachine
      [{ body := Body.stage { Name := "S", Profiles := ["P3"] } }] rfl (by decide) (by decide)
      "a" (profileObj "P2" [("a", Val.num 2)], Val.num 2) (by decide) (by decide)).1,
   (((C25_aggregation_over_own_profiles (sampleEnv []) rtAgg
      { body := Body.stage { Name := "S", Profiles := ["P3"] } }
      (getStore rtAgg.objs "profiles") (by decide)).2 (by decide)).2 "b").trans (by decide)⟩

/-! ### Confinement of the paths -/

theorem foldl_normal (r : Bool) (N st : List (List Char)) (hN : ∀ s ∈ N, NormalSeg s) :
    N.foldl (cleanStep r) st = N.reverse ++ st := by
  induction N generalizing st with
  | nil => rfl
  | cons x rest ih =>
    have hx : NormalSeg x := hN x (by simp)
    simp only [List.foldl_cons, cleanStep_normal _ _ _ hx]
    rw [ih _ (fun s hs => hN s (by simp [hs]))]
    simp

theorem normal_good {s : List Char} (h : NormalSeg s) : GoodSeg s := ⟨h.1, h.2.1, h.2.2.2⟩

theorem cleanStack_good (r : Bool) (segs : List (List Char)) (hsegs : ∀ s ∈ segs, '/' ∉ s) :
    ∀ s ∈ cleanStack r segs, GoodSeg s := by
  cases r with
  | true =>
    intro s hs
    exact normal_good (cleanStack_true_normal [] segs (by simp) hsegs s hs)
  | false =>
    obtain ⟨N1, n1, h1, h2, -⟩ := cleanStack_related segs [] 0 (by simp) hsegs
    have h1' : cleanStack false segs = N1 ++ List.replicate n1 dotdot := by
      simpa [cleanStack] using h1
    intro s hs
    rw [h1', List.mem_append] at hs
    rcases hs with hs | hs
    · exact normal_good (h2 s hs)
    · have : s = dotdot := (List.mem_replicate.mp hs).2
      subst this
      exact ⟨by decide, by decide, by decide⟩

theorem pathElems_joinSlash (l : List (List Char)) (h : ∀ s ∈ l, GoodSeg s) :
    pathElems (joinSlash l) = l := by
  by_cases hl : l = []
  · subst hl
    rfl
  · unfold pathElems
    rw [splitSlash_joinSlash l hl (fun s hs => (h s hs).2.2)]
    apply List.filter_eq_self.mpr
    intro s hs
    simp [(h s hs).1, (h s hs).2.1]

theorem pathElems_slash (p : List Char) : pathElems ('/' :: p) = pathElems p := by
  simp [pathElems, splitSlash]

theorem pathElems_cleanChars (z : List Char) (hz : z ≠ []) :
    pathElems (cleanChars z) =
      (cleanStack (decide (z.head? = some '/')) (splitSlash z)).reverse := by
  have hgood : ∀ r, ∀ s ∈ (cleanStack r (splitSlash z)).reverse, GoodSeg s := by
    intro r s hs
    exact cleanStack_good r _ (splitSlash_mem_no_slash z) s (List.mem_reverse.mp hs)
  unfold cleanChars
  by_cases hr : z.head? = some '/'
  · simp only [hz, hr, if_false, if_true, decide_True]
    rw [pathElems_slash, pathElems_joinSlash _ (hgood true)]
  · simp only [hz, hr, if_false, decide_False]
    by_cases he : cleanStack false (splitSlash z) = []
    · simp only [he, if_true, List.reverse_nil]
      rfl
    · simp only [he, if_false]
      rw [pathElems_joinSlash _ (hgood false)]

theorem joinSlash_head (s : List Char) (rest : List (List Char)) (hs : s ≠ []) :
    (joinSlash (s :: rest)).head? = s.head? := by
  cases s with
  | nil => exact absurd rfl hs
  | cons c cs =>
    cases rest with
    | nil => rfl
    | cons t ts => rfl

theorem cleanChars_head (z : List Char) (hz : z ≠ []) :
    (cleanChars z).head? = some '/' ↔ z.head? = some '/' := by
  unfold cleanChars
  by_cases hr : z.head? = some '/'
  · simp [hz, hr]
  · simp only [hz, hr, if_false, iff_false]
    by_cases he : cleanStack false (splitSlash z) = []
    · simp [he]
    · simp only [he, if_false]
      have hne : (cleanStack false (splitSlash z)).reverse ≠ [] := by simpa using he
      cases hrev : (cleanStack false (splitSlash z)).reverse with
      | nil => exact absurd hrev hne
      | cons s rest =>
        have hg : GoodSeg s :=
          cleanStack_good false _ (splitSlash_mem_no_slash z) s
            (List.mem_reverse.mp (by rw [hrev]; simp))
        rw [joinSlash_head s rest hg.1]
        intro hh
        cases s with
        | nil => exact hg.1 rfl
        | cons c cs =>
          simp only [List.head?_cons, Option.some.injEq] at hh
          exact hg.2.2 (by simp [hh])

theorem rooted_path (w : List Char) :
    ∃ segs, (∀ s ∈ segs, NormalSeg s) ∧ cleanChars ('/' :: w) = '/' :: joinSlash segs := by
  refine ⟨(cleanStack true (splitSlash w)).reverse, ?_, cleanChars_rooted w⟩
  intro s hs
  exact cleanStack_true_normal [] _ (by simp) (splitSlash_mem_no_slash w) s (List.mem_reverse.mp hs)

theorem splitSlash_rooted_segs (segs : List (List Char)) (hsegs : ∀ s ∈ segs, NormalSeg s) (r : Bool)
    (st : List (List Char)) :
    (splitSlash ('/' :: joinSlash segs)).foldl (cleanStep r) st = segs.reverse ++ st := by
  have hs : splitSlash ('/' :: joinSlash segs) = [] :: splitSlash (joinSlash segs) := by
    simp [splitSlash]
  rw [hs]
  by_cases hl : segs = []
  · subst hl
    simp [joinSlash, splitSlash, cleanStep]
  · rw [splitSlash_joinSlash segs hl (fun s h => (hsegs s h).2.2.2)]
    simp only [List.foldl_cons]
    have h0 : cleanStep r st [] = st := by simp [cleanStep]
    rw [h0, foldl_normal r segs st hsegs]

theorem join_inside (root : List Char) (segs : List (List Char)) (hroot : root ≠ [])
    (hsegs : ∀ s ∈ segs, NormalSeg s) :
    pathElems (joinChars [root, '/' :: joinSlash segs]) = pathElems (cleanChars root) ++ segs ∧
      ((joinChars [root, '/' :: joinSlash segs]).head? = some '/' ↔ root.head? = some '/') := by
  have hj : joinChars [root, '/' :: joinSlash segs] = cleanChars (root ++ '/' :: '/' :: joinSlash segs) := by
    simp [joinChars, List.dropWhile, hroot, joinSlash]
  have hne : root ++ '/' :: '/' :: joinSlash segs ≠ [] := by simp [hroot]
  have hhead : (root ++ '/' :: '/' :: joinSlash segs).head? = root.head? := by
    cases root with
    | nil => exact absurd rfl hroot
    | cons c cs => rfl
  rw [hj]
  constructor
  · rw [pathElems_cleanChars _ hne, pathElems_cleanChars _ hroot, hhead, splitSlash_append_slash,
      cleanStack_append, splitSlash_rooted_segs segs hsegs]
    simp
  · rw [cleanChars_head _ hne, hhead]

/-- C30: confinement of the paths.  For every boot environment, file name and
arch for which `ArchFor` finds a key of `realArches`, whatever `OS.Name`, the
key and the file name hold, `PathFor` returns a cleaned path that is a slash
followed by elements none of which is empty, `.` or `..`, joined by slashes;
`localPathFor` returns, for a file root that is not empty, a path that is
rooted exactly when the file root is and whose elements are those of the
cleaned file root followed by the elements of the path of `PathFor`, and for
an empty file root the path of `PathFor` itself.  For an arch for which
`ArchFor` finds no key both panic. -/
theorem C30_path_confinement (env : Env) (rt : RequestTracker) (b : BootEnv) (f arch : String) :
    (b.ArchFor env arch ≠ "" →
      ∃ p segs, b.PathFor env f arch = .ok p ∧ (∀ s ∈ segs, NormalSeg s) ∧
        p.data = '/' :: joinSlash segs ∧ cleanChars p.data = p.data ∧
        ∃ lp, b.localPathFor env rt f arch = .ok lp ∧
          (rt.FileRoot ≠ "" →
            pathElems lp.data = pathElems (cleanChars rt.FileRoot.data) ++ segs ∧
            (lp.data.head? = some '/' ↔ rt.FileRoot.data.head? = some '/')) ∧
          (rt.FileRoot = "" → lp = p)) ∧
    (b.ArchFor env arch = "" →
      b.PathFor env f arch = .error ("Unknown arch " ++ arch) ∧
      b.localPathFor env rt f arch = .error ("Unknown arch " ++ arch)) := by
  constructor
  · intro h
    have hp := pathFor_eq_clean env b f arch h
    obtain ⟨S, w, hp2, hdata⟩ : ∃ S w, b.PathFor env f arch = .ok (pathClean S) ∧
        S.data = '/' :: w :=
      ⟨_, (b.OS.Name ++
          ((if (env.SupportedArch (b.ArchFor env arch)).1 ≠ "amd64" then "/" ++ b.ArchFor env arch
            else "") ++
          ((if HasSuffix b.Name "-install" then "/install" else "") ++ ("/" ++ f)))).data, hp,
        by simp [String.data_append]⟩
    obtain ⟨segs, hsegs, hc⟩ := rooted_path w
    have hpd : (pathClean S).data = '/' :: joinSlash segs := by
      simp only [pathClean, hdata, hc]
    refine ⟨pathClean S, segs, hp2, hsegs, hpd, ?_, ?_⟩
    · simp only [pathClean, hdata]
      exact cleanChars_idem_rooted _
    · refine ⟨pathJoin [rt.FileRoot, pathClean S], ?_, ?_, ?_⟩
      · simp [BootEnv.localPathFor, hp2]
      · intro hroot
        have hr : rt.FileRoot.data ≠ [] := by
          intro e
          apply hroot
          cases hk : rt.FileRoot with
          | mk d =>
            rw [hk] at e
            simp only at e
            rw [e]
        have := join_inside rt.FileRoot.data segs hr hsegs
        simpa [pathJoin, hpd] using this
      · intro hroot
        have hcl : cleanChars ('/' :: joinSlash segs) = '/' :: joinSlash segs := by
          rw [← hc]
          exact cleanChars_idem_rooted _
        have hj : joinChars [[], '/' :: joinSlash segs] = '/' :: joinSlash segs := by
          simp [joinChars, List.dropWhile, joinSlash, hcl]
        have he : pathJoin [rt.FileRoot, pathClean S] =
            String.mk (joinChars [[], '/' :: joinSlash segs]) := by
          simp [pathJoin, hroot, hpd]
        rw [he, hj, ← hpd]
  · intro h
    have hp : b.PathFor env f arch = .error ("Unknown arch " ++ arch) := by
      simp [BootEnv.PathFor, h]
    exact ⟨hp, by simp [BootEnv.localPathFor, hp]⟩

theorem C30_path_confinement_witness :
    ubuntuInstall.PathFor (sampleEnv []) "../../../..//etc/passwd" "aarch64" =
        .ok "/etc/passwd" ∧
      ubuntuInstall.localPathFor (sampleEnv []) rtFiles "../../../..//etc/passwd" "aarch64" =
        .ok "/tftpboot/etc/passwd" ∧
      (∃ p segs, ubuntuInstall.PathFor (sampleEnv []) "../../../..//etc/passwd" "aarch64" = .ok p ∧
        (∀ s ∈ segs, NormalSeg s) ∧ p.data = '/' :: joinSlash segs) :=
  ⟨by decide, by decide,
    match (C30_path_confinement (sampleEnv []) rtFiles ubuntuInstall "../../../..//etc/passwd"
      "aarch64").1 (by decide) with
    | ⟨p, segs, h1, h2, h3, _⟩ => ⟨p, segs, h1, h2, h3⟩⟩

/-! ### The arches of a boot environment -/

theorem addSupported_lookup (env : Env) (a : String) (l acc : List (String × ArchInfo)) :
    (addSupported env l acc).lookup a =
      match l.reverse.find? (fun kv => decide ((env.SupportedArch kv.1).1 = a)) with
      | some kv => some kv.2
      | none => acc.lookup a := by
  induction l generalizing acc with
  | nil => simp [addSupported]
  | cons x rest ih =>
    obtain ⟨k, v⟩ := x
    simp only [addSupported, List.reverse_cons, List.find?_append]
    rw [ih, lookup_mapSet]
    cases hf : rest.reverse.find? (fun kv => decide ((env.SupportedArch kv.1).1 = a)) with
    | some kv => simp
    | none =>
      by_cases hk : (env.SupportedArch k).1 = a
      · simp [hk]
      · have hk2 : ¬ a = (env.SupportedArch k).1 := fun e => hk e.symm
        simp [hk, hk2]

theorem archErrors_filter (env : Env) (arches : List (String × ArchInfo)) :
    (archErrors env arches).filter isArchMessage =
      (arches.filter fun kv => decide (kv.2.Kernel = "")).map
        fun kv => "Arch " ++ kv.1 ++ " is missing a kernel!" := by
  induction arches with
  | nil => rfl
  | cons x rest ih =>
    obtain ⟨k, v⟩ := x
    have hyes : isArchMessage ("Arch " ++ k ++ " is missing a kernel!") = true := by
      simp [isArchMessage, String.data_append, List.isPrefixOf]
    have hno : ∀ err : String,
        isArchMessage ("Error compiling boot parameter template for arch " ++ k ++ ": " ++ err) =
          false := by
      intro err
      simp [isArchMessage, String.data_append, List.isPrefixOf]
    simp only [archErrors, List.filter_append, ih]
    by_cases hk : v.Kernel = ""
    · by_cases hb : v.BootParams = ""
      · simp [hk, hb, hyes]
      · cases hp : env.parseTemplate v.BootParams with
        | none => simp [hk, hb, hyes]
        | some err => simp [hk, hb, hyes, hno]
    · by_cases hb : v.BootParams = ""
      · simp [hk, hb]
      · cases hp : env.parseTemplate v.BootParams with
        | none => simp [hk, hb]
        | some err => simp [hk, hb, hno]

/-- C27 as worded fails when two keys of `OS.SupportedArchitectures` have the
same canonical form.  The keys `x86_64` and `amd64` carry different kernels:
`realArches` holds the one entry `amd64`, with the value the loop visited
last, and the other pair has no entry, whichever of the two the loop visits
first. -/
theorem C27_keys_with_one_canonical_form_collide :
    ((twiceAmd ("x86_64", { Kernel := "vmlinuz-a" }) ("amd64", { Kernel := "vmlinuz-b" })).regenArches
        (sampleEnv [])).realArches = [("amd64", { Kernel := "vmlinuz-b" })] ∧
      ((twiceAmd ("amd64", { Kernel := "vmlinuz-b" }) ("x86_64", { Kernel := "vmlinuz-a" })).regenArches
        (sampleEnv [])).realArches = [("amd64", { Kernel := "vmlinuz-a" })] ∧
      ((sampleEnv []).SupportedArch "x86_64").1 = "amd64" ∧
      ((sampleEnv []).SupportedArch "amd64").1 = "amd64" := by
  decide

/-- C27 (amended): after `regenArches`, `realArches` holds under an arch name
the value of the entry of `OS.SupportedArchitectures` whose key has that name
as its canonical form (the entry the loop visits last, when several keys share
the canonical form), and when there is no such entry it holds under `amd64`
the ArchInfo of the top-level fields if the top-level Kernel is not empty, and
nothing otherwise.  So when no two keys share a canonical form every entry
`(k, v)` is found under `canonical(k)`.  Among the errors `regenArches` records
there is one `Arch <k> is missing a kernel!` for each entry of `realArches`
whose Kernel is empty and for no other entry. -/
theorem C27_regen_arches (env : Env) (b : BootEnv) :
    (∀ a, (b.regenArches env).realArches.lookup a =
      match (entries b.OS.SupportedArchitectures).reverse.find?
          (fun kv => decide ((env.SupportedArch kv.1).1 = a)) with
      | some kv => some kv.2
      | none => if a = "amd64" ∧ b.Kernel ≠ "" then some b.topArch else none) ∧
    ((∀ kv ∈ entries b.OS.SupportedArchitectures, ∀ kv1 ∈ entries b.OS.SupportedArchitectures,
        (env.SupportedArch kv.1).1 = (env.SupportedArch kv1.1).1 → kv = kv1) →
      ∀ kv ∈ entries b.OS.SupportedArchitectures,
        (b.regenArches env).realArches.lookup (env.SupportedArch kv.1).1 = some kv.2) ∧
    (∃ errs, (b.regenArches env).Errors = b.Errors ++ errs ∧
      errs.filter isArchMessage =
        ((b.regenArches env).realArches.filter fun kv => decide (kv.2.Kernel = "")).map
          fun kv => "Arch " ++ kv.1 ++ " is missing a kernel!") := by
  have hlook : ∀ a, (b.regenArches env).realArches.lookup a =
      match (entries b.OS.SupportedArchitectures).reverse.find?
          (fun kv => decide ((env.SupportedArch kv.1).1 = a)) with
      | some kv => some kv.2
      | none => if a = "amd64" ∧ b.Kernel ≠ "" then some b.topArch else none := by
    intro a
    simp only [BootEnv.regenArches, BootEnv.arches]
    rw [addSupported_lookup]
    cases hf : (entries b.OS.SupportedArchitectures).reverse.find?
        (fun kv => decide ((env.SupportedArch kv.1).1 = a)) with
    | some kv => rfl
    | none =>
      by_cases hk : b.Kernel = ""
      · simp [hk]
      · by_cases ha : a = "amd64"
        · subst ha
          simp [hk, List.lookup, BootEnv.topArch]
        · have hb : (a == "amd64") = false := by simpa using ha
          simp [hk, ha, List.lookup, hb]
  refine ⟨hlook, ?_, ?_⟩
  · intro hinj kv hkv
    rw [hlook]
    cases hf : (entries b.OS.SupportedArchitectures).reverse.find?
        (fun kv1 => decide ((env.SupportedArch kv1.1).1 = (env.SupportedArch kv.1).1)) with
    | some kv1 =>
      have hmem : kv1 ∈ entries b.OS.SupportedArchitectures :=
        List.mem_reverse.mp (List.mem_of_find?_eq_some hf)
      have heq := List.find?_some hf
      simp only [decide_eq_true_eq] at heq
      rw [hinj kv1 hmem kv hkv heq]
    | none =>
      have := List.find?_eq_none.mp hf kv (List.mem_reverse.mpr hkv)
      simp at this
  · exact ⟨archErrors env (b.arches env), rfl, archErrors_filter env _⟩

theorem C27_regen_arches_witness :
    (centosBoth.regenArches (sampleEnv [])).realArches.lookup "arm64" =
      some { Kernel := "vmlinuz" } :=
  (C27_regen_arches (sampleEnv []) centosBoth).2.1 (by decide) ("aarch64", { Kernel := "vmlinuz" })
    (by decide)

/-! ### The exploders of the ISOs -/

theorem localPathFor_ok (env : Env) (rt : RequestTracker) (b : BootEnv) (f arch : String)
    (h : b.ArchFor env arch ≠ "") :
    b.localPathFor env rt f arch = .ok (b.localPath env rt f arch) := by
  have hp : ∃ p, b.PathFor env f arch = .ok p := ⟨_, pathFor_eq_clean env b f arch h⟩
  obtain ⟨p, hp⟩ := hp
  simp [BootEnv.localPath, BootEnv.localPathFor, hp]

theorem isoExploders_spec (env : Env) (rt : RequestTracker) (b : BootEnv)
    (l : List (String × ArchInfo)) (h : ∀ kv ∈ l, b.ArchFor env kv.1 ≠ "") :
    isoExploders env rt b l =
      .ok ((l.filter (b.needsExploding env rt)).map (b.exploderOf env rt)) := by
  induction l with
  | nil => rfl
  | cons x rest ih =>
    obtain ⟨arch, archInfo⟩ := x
    have harch : b.ArchFor env arch ≠ "" := h (arch, archInfo) (by simp)
    have ih1 := ih (fun kv hkv => h kv (by simp [hkv]))
    have hc := localPathFor_ok env rt b ("." ++ replaceSlashes b.OS.Name ++ ".rebar_canary") arch harch
    have hl := localPathFor_ok env rt b "" arch harch
    unfold isoExploders
    by_cases hiso : archInfo.IsoFile = ""
    · simp [hiso, ih1, BootEnv.needsExploding]
    · simp only [hiso, if_false, hc]
      by_cases hcan : (env.readFile (b.localPath env rt
          ("." ++ replaceSlashes b.OS.Name ++ ".rebar_canary") arch)).map TrimSpace =
            some archInfo.Sha256
      · simp [hcan, ih1, BootEnv.needsExploding, BootEnv.canaryPath]
      · simp only [hcan, if_false]
        by_cases hne : env.isNotExist (pathJoin [rt.FileRoot, "isos", archInfo.IsoFile]) = true
        · simp [hne, ih1, BootEnv.needsExploding]
        · simp [hne, hl, ih1, BootEnv.needsExploding, BootEnv.canaryPath, hiso, hcan,
            BootEnv.exploderOf]

/-- C21: the exploders of a boot environment all of whose arch keys `ArchFor`
finds (so that the paths exist).  `IsoExploders` returns the empty list when
`OS.Name` is empty.  Otherwise it returns, in the order of the arches, exactly
one exploder for each arch of `realArches` that declares an ISO file, whose
canary file cannot be read or holds, white space trimmed, another text than
the SHA256 of the arch, and whose ISO under `isos` in the file root is not
reported as not existing, and no exploder for any other arch. -/
theorem C21_iso_exploders (env : Env) (rt : RequestTracker) (b : BootEnv)
    (h : ∀ kv ∈ entries b.realArches, b.ArchFor env kv.1 ≠ "") :
    (b.OS.Name = "" → b.IsoExploders env rt = .ok []) ∧
    (b.OS.Name ≠ "" →
      b.IsoExploders env rt =
        .ok (((entries b.realArches).filter (b.needsExploding env rt)).map (b.exploderOf env rt))) := by
  constructor
  · intro hn
    simp [BootEnv.IsoExploders, hn]
  · intro hn
    simp only [BootEnv.IsoExploders, hn, if_false]
    exact isoExploders_spec env rt b _ h

theorem C21_iso_exploders_witness :
    centosIso.IsoExploders (sampleEnv ["/tftpboot/isos/centos-7.iso"]) rtFiles =
      .ok [{ arch := "amd64", isoPath := "/tftpboot/isos/centos-7.iso"
             localPath := "/tftpboot/centos/7/install" }] :=
  ((C21_iso_exploders (sampleEnv ["/tftpboot/isos/centos-7.iso"]) rtFiles centosIso
    (by decide)).2 (by decide)).trans (by decide)

/-! ### Clean-up after the delete of a boot environment -/

theorem osName_probes (name : String) (x : BootEnv) :
    ((bootEnvOsNameIndex.tests { OS := { Name := name } }).1 x &&
      !(bootEnvOsNameIndex.tests { OS := { Name := name } }).2 x) = decide (x.OS.Name = name) := by
  simp only [bootEnvOsNameIndex, strLe_eq_not_strLt]
  by_cases h : x.OS.Name = name
  · subst h
    simp [strLt_irrefl]
  · simp only [h, decide_False]
    cases h1 : strLt x.OS.Name.data name.data with
    | true => simp
    | false =>
      cases h2 : strLt name.data x.OS.Name.data with
      | true => simp
      | false =>
        exfalso
        apply h
        have := strLt_total _ _ h1 h2
        exact String.ext this

theorem eqCount_osName (name : String) (items : List Obj)
    (h : ∀ o ∈ items, o.isBootEnv = true) :
    eqCount bootEnvOsNameIndex name items = .ok (some (sameOs name items).length) := by
  induction items with
  | nil => rfl
  | cons i rest ih =>
    have hi : i.isBootEnv = true := h i (by simp)
    have ih1 := ih (fun o ho => h o (by simp [ho]))
    obtain ⟨body, r, fc⟩ := i
    cases body with
    | bootenv x =>
      have hp := osName_probes name x
      have hfill : bootEnvOsNameIndex.fill name = .ok { OS := { Name := name } } := rfl
      simp only [eqCount, hfill, AsBootEnv, ih1, hp, sameOs, List.filter_cons]
      by_cases hx : x.OS.Name = name
      · simp [hx]
      · simp [hx]
    | machine _ => simp [Obj.isBootEnv] at hi
    | stage _ => simp [Obj.isBootEnv] at hi
    | task _ => simp [Obj.isBootEnv] at hi
    | profile _ => simp [Obj.isBootEnv] at hi
    | param _ => simp [Obj.isBootEnv] at hi
    | other _ _ _ => simp [Obj.isBootEnv] at hi

theorem delDynamicTrees_ok (env : Env) (b : BootEnv) (l : List (String × ArchInfo))
    (h : ∀ kv ∈ l, b.ArchFor env kv.1 ≠ "") :
    delDynamicTrees env b l = .ok (l.map fun kv => FsOp.DelDynamicTree (b.pathOf env "" kv.1)) := by
  induction l with
  | nil => rfl
  | cons x rest ih =>
    obtain ⟨k, v⟩ := x
    have hk : b.ArchFor env k ≠ "" := h (k, v) (by simp)
    have ih1 := ih (fun kv hkv => h kv (by simp [hkv]))
    have hp : b.PathFor env "" k = .ok (b.pathOf env "" k) := by
      have := pathFor_eq_clean env b "" k hk
      simp [BootEnv.pathOf, this]
    simp [delDynamicTrees, hp, ih1]

/-- The guard `if b.OnlyUnknown` of `AfterDelete`: for a boot environment that
is not offered to unknown machines it makes no call into the serving file
system, although the renderers of `ubuntu-20.04-install` derive without error
and no boot environment with its OS name is in the index. -/
theorem afterDelete_leaves_known_boot_environments :
    ubuntuKnown.AfterDelete (sampleEnv []) rtFiles = .ok (ubuntuKnown, []) ∧
      ubuntuKnown.render (sampleEnv []) rtFiles none =
        ([{ path := "pxelinux.cfg/ubuntu" }], []) ∧
      stores rtFiles "bootenvs" = some [] ∧
      ubuntuKnown.PathFor (sampleEnv []) "" "amd64" = .ok "/ubuntu-20.04/install" := by
  decide

/-- What `AfterDelete` does on its own, with the bootenvs store locked and
holding boot environments, and every arch key found by `ArchFor`: for a boot
environment with `OnlyUnknown` set it deregisters the renderers derived without
a machine when their derivation records no error (and otherwise keeps the
messages as the errors of the object), and then removes the dynamic tree at
`PathFor("", arch)` for each arch of `realArches` exactly when no boot
environment among the items of the store it reads has the same `OS.Name`.  For
any other boot environment it does nothing. -/
theorem afterDelete_spec (env : Env) (rt : RequestTracker) (b : BootEnv) (items : List Obj)
    (hstore : stores rt "bootenvs" = some items)
    (hkind : ∀ o ∈ items, o.isBootEnv = true)
    (harch : ∀ kv ∈ entries b.realArches, b.ArchFor env kv.1 ≠ "") :
    (b.OnlyUnknown = false → b.AfterDelete env rt = .ok (b, [])) ∧
    (b.OnlyUnknown = true →
      b.AfterDelete env rt =
        .ok (if (b.render env rt none).2 = [] then b
             else { b with Errors := (b.render env rt none).2 },
          (if (b.render env rt none).2 = [] then [FsOp.deregister (b.render env rt none).1]
           else []) ++
          (if sameOs b.OS.Name items = [] then
             (entries b.realArches).map fun kv => FsOp.DelDynamicTree (b.pathOf env "" kv.1)
           else []))) := by
  constructor
  · intro h
    simp [BootEnv.AfterDelete, h]
  · intro h
    have hcount := eqCount_osName b.OS.Name items hkind
    have hdel : ∀ msgs : List String,
        delDynamicTrees env { b with Errors := msgs } (entries b.realArches) =
          .ok ((entries b.realArches).map fun kv => FsOp.DelDynamicTree (b.pathOf env "" kv.1)) :=
      fun msgs => delDynamicTrees_ok env { b with Errors := msgs } _ harch
    have hdel0 := delDynamicTrees_ok env b _ harch
    simp only [BootEnv.AfterDelete, h, if_true, hstore]
    generalize b.render env rt none = R
    obtain ⟨rts, msgs⟩ := R
    cases msgs with
    | nil =>
      simp only [List.isEmpty_nil, if_true]
      rw [hcount]
      cases hn : sameOs b.OS.Name items with
      | nil => simp [hdel0]
      | cons x xs => simp
    | cons m ms =>
      simp only [List.isEmpty_cons, if_false, Bool.false_eq_true]
      rw [hcount]
      cases hn : sameOs b.OS.Name items with
      | nil =>
        have := hdel (m :: ms)
        rw [h] at this
        simp [this, h]
      | cons x xs => simp

/-! ### Scenario S1: validation and the kernel file -/

theorem addSupported_withFiles (env : Env) (stat : String → Option Bool) (isNotExist : String → Bool)
    (readFile : String → Option String) (l acc : List (String × ArchInfo)) :
    addSupported (env.withFiles stat isNotExist readFile) l acc = addSupported env l acc := by
  induction l generalizing acc with
  | nil => rfl
  | cons x rest ih =>
    obtain ⟨k, v⟩ := x
    simp only [addSupported]
    exact ih _

theorem archErrors_withFiles (env : Env) (stat : String → Option Bool) (isNotExist : String → Bool)
    (readFile : String → Option String) (l : List (String × ArchInfo)) :
    archErrors (env.withFiles stat isNotExist readFile) l = archErrors env l := by
  induction l with
  | nil => rfl
  | cons x rest ih =>
    obtain ⟨k, v⟩ := x
    simp only [archErrors, ih]
    rfl

theorem arches_withFiles (env : Env) (stat : String → Option Bool) (isNotExist : String → Bool)
    (readFile : String → Option String) (b : BootEnv) :
    b.arches (env.withFiles stat isNotExist readFile) = b.arches env := by
  simp only [BootEnv.arches, addSupported_withFiles]

theorem regenArches_withFiles (env : Env) (stat : String → Option Bool) (isNotExist : String → Bool)
    (readFile : String → Option String) (b : BootEnv) :
    b.regenArches (env.withFiles stat isNotExist readFile) = b.regenArches env := by
  simp only [BootEnv.regenArches, arches_withFiles, archErrors_withFiles]

theorem genRoot_withFiles (env : Env) (stat : String → Option Bool) (isNotExist : String → Bool)
    (readFile : String → Option String) (b : BootEnv) :
    b.genRoot (env.withFiles stat isNotExist readFile) = b.genRoot env := rfl

theorem find_withFiles (env : Env) (stat : String → Option Bool) (isNotExist : String → Bool)
    (readFile : String → Option String) (rt : RequestTracker) (pfx key : String) :
    find (env.withFiles stat isNotExist readFile) rt pfx key = find env rt pfx key := rfl

theorem Find_withFiles (env : Env) (stat : String → Option Bool) (isNotExist : String → Bool)
    (readFile : String → Option String) (rt : RequestTracker) (pfx key : String) :
    Find (env.withFiles stat isNotExist readFile) rt pfx key = Find env rt pfx key := rfl

theorem findProfiles_withFiles (env : Env) (stat : String → Option Bool) (isNotExist : String → Bool)
    (readFile : String → Option String) (rt : RequestTracker) (l : List String) :
    findProfiles (env.withFiles stat isNotExist readFile) rt l = findProfiles env rt l := by
  induction l with
  | nil => rfl
  | cons x rest ih => simp only [findProfiles, Find_withFiles, ih]

theorem subObjs_withFiles (env : Env) (stat : String → Option Bool) (isNotExist : String → Bool)
    (readFile : String → Option String) (rt : RequestTracker) (obj : Obj) :
    subObjs (env.withFiles stat isNotExist readFile) rt obj = subObjs env rt obj := by
  simp only [subObjs, findProfiles_withFiles, Find_withFiles]

theorem getAggParams_withFiles (env : Env) (stat : String → Option Bool) (isNotExist : String → Bool)
    (readFile : String → Option String) (rt : RequestTracker) (obj : Obj) (params : List (String × Val)) (aggregate : Bool) :
    getAggParams (env.withFiles stat isNotExist readFile) rt obj params aggregate = getAggParams env rt obj params aggregate := by
  simp only [getAggParams, subObjs_withFiles]

theorem decryptParam_withFiles (env : Env) (stat : String → Option Bool) (isNotExist : String → Bool)
    (readFile : String → Option String) (rt : RequestTracker) (obj : Option Obj) (name : String) (val : Val) (decrypt : Bool) :
    decryptParam (env.withFiles stat isNotExist readFile) rt obj name val decrypt = decryptParam env rt obj name val decrypt := rfl

theorem GetParam_withFiles (env : Env) (stat : String → Option Bool) (isNotExist : String → Bool)
    (readFile : String → Option String) (rt : RequestTracker) (obj : Obj) (key : String) (aggregate decrypt : Bool) :
    GetParam (env.withFiles stat isNotExist readFile) rt obj key aggregate decrypt = GetParam env rt obj key aggregate decrypt := by
  simp only [GetParam, getAggParams_withFiles, decryptParam_withFiles, Find_withFiles]

theorem archFor_withFiles (env : Env) (stat : String → Option Bool) (isNotExist : String → Bool)
    (readFile : String → Option String) (b : BootEnv) (arch : String) :
    b.ArchFor (env.withFiles stat isNotExist readFile) arch = b.ArchFor env arch := rfl

theorem pathFor_withFiles (env : Env) (stat : String → Option Bool) (isNotExist : String → Bool)
    (readFile : String → Option String) (b : BootEnv) (f arch : String) :
    b.PathFor (env.withFiles stat isNotExist readFile) f arch = b.PathFor env f arch := rfl

theorem bindInstallRepo_withFiles (env : Env) (stat : String → Option Bool) (isNotExist : String → Bool)
    (readFile : String → Option String) (rt : RequestTracker) (b : BootEnv) (l : List Repo) :
    bindInstallRepo (env.withFiles stat isNotExist readFile) rt b l = bindInstallRepo env rt b l := by
  induction l with
  | nil => rfl
  | cons x rest ih => simp only [bindInstallRepo, ih, archFor_withFiles, pathFor_withFiles]

theorem fillInstallRepos_withFiles (env : Env) (stat : String → Option Bool) (isNotExist : String → Bool)
    (readFile : String → Option String) (rt : RequestTracker) (b : BootEnv) :
    b.fillInstallRepos (env.withFiles stat isNotExist readFile) rt = b.fillInstallRepos env rt := by
  simp only [BootEnv.fillInstallRepos, find_withFiles, GetParam_withFiles, bindInstallRepo_withFiles]
  rfl

theorem render_withFiles (env : Env) (stat : String → Option Bool) (isNotExist : String → Bool)
    (readFile : String → Option String) (rt : RequestTracker) (b : BootEnv) (m : Option Machine) :
    b.render (env.withFiles stat isNotExist readFile) rt m = b.render env rt m := rfl

theorem renderMachines_withFiles (env : Env) (stat : String → Option Bool) (isNotExist : String → Bool)
    (readFile : String → Option String) (rt : RequestTracker) (l : List Obj) (b : BootEnv) :
    renderMachines (env.withFiles stat isNotExist readFile) rt l b = renderMachines env rt l b := by
  induction l generalizing b with
  | nil => rfl
  | cons x rest ih => simp only [renderMachines, ih, render_withFiles]

theorem validate_withFiles (env : Env) (stat : String → Option Bool) (isNotExist : String → Bool)
    (readFile : String → Option String) (rt : RequestTracker) (b : BootEnv) :
    b.Validate (env.withFiles stat isNotExist readFile) rt = b.Validate env rt := by
  simp only [BootEnv.Validate, regenArches_withFiles, genRoot_withFiles, fillInstallRepos_withFiles,
    render_withFiles, renderMachines_withFiles]
  rfl

set_option maxRecDepth 100000 in
/-- C24 as worded fails: `Validate` makes no check of the kernel file.  In
scenario S1, without any file under the file root and without install repo,
`Validate` leaves the boot environment that has a pxelinux template validated
and available, without any error; without a template the one error it records
is about the template, and the boot environment is not available for that
reason.  No message mentions a missing kernel. -/
theorem C24_validate_reports_no_missing_kernel :
    (ubuntuS1 [pxelinuxTemplate]).Validate (sampleEnv []) rtS1 = .ok ubuntuS1Validated ∧
      ubuntuS1Validated.Validated = true ∧ ubuntuS1Validated.Available = true ∧
      ubuntuS1Validated.Errors = [] ∧ ubuntuS1Validated.installRepos = [] ∧
      (sampleEnv []).stat "/tftpboot/ubuntu/linux" = none ∧
      (ubuntuS1 []).Validate (sampleEnv []) rtS1 =
        .ok { ubuntuS1Validated with
              Templates := []
              Available := false
              Errors := ["bootenv: Missing elilo or pxelinux template"] } ∧
      mentions "bootenv: Missing elilo or pxelinux template" "missing kernel" = false := by
  decide

set_option maxRecDepth 100000 in
/-- C24 (amended): the result of `BootEnv.Validate` does not depend on the file
system.  In scenario S1, with a pxelinux template, whatever files exist under
the file root, `Validate` ends with Validated = true, Useable = true and
Available = true and records no error.  The missing kernel is reported by
`CanArchBoot` instead: with no file under the file root it answers for amd64
with an error of code 406 whose messages mention the missing kernel. -/
theorem C24_scenario_s1 :
    (∀ (env : Env) (stat : String → Option Bool) (isNotExist : String → Bool)
        (readFile : String → Option String) (rt : RequestTracker) (b : BootEnv),
      b.Validate (env.withFiles stat isNotExist readFile) rt = b.Validate env rt) ∧
    (∀ files : List String,
      (ubuntuS1 [pxelinuxTemplate]).Validate (sampleEnv files) rtS1 = .ok ubuntuS1Validated) ∧
    ubuntuS1Validated.Validated = true ∧ ubuntuS1Validated.Useable = true ∧
    ubuntuS1Validated.Available = true ∧ ubuntuS1Validated.Errors = [] ∧
    ubuntuS1Validated.CanArchBoot (sampleEnv []) rtS1 "amd64" =
      .ok (some
        { Code := 406, Typ := "bootenv", Key := "ubuntu"
          Messages :=
            ["bootenv: ubuntu: missing kernel linux (/tftpboot/ubuntu/linux) for arch amd64",
             "bootenv: ubuntu: missing initrd initrd (/tftpboot/ubuntu/initrd) for arch amd64"] }) ∧
    mentions "bootenv: ubuntu: missing kernel linux (/tftpboot/ubuntu/linux) for arch amd64"
      "missing kernel" = true := by
  refine ⟨validate_withFiles, ?_, by decide, by decide, by decide, by decide, by decide, by decide⟩
  intro files
  have h : sampleEnv files =
      (sampleEnv []).withFiles (fun p => if p ∈ files then some true else none)
        (fun p => decide (p ∉ files)) (fun _ => none) := rfl
  rw [h, validate_withFiles]
  decide

/-! ### The lock sets and the hooks -/

theorem stores_locked (rt : RequestTracker) (held : List String) (pfx : String)
    (hd : rt.d = some held) (h : pfx ∈ held) :
    stores rt pfx = some (getStore rt.objs pfx) := by
  simp [stores, hd, h]

theorem asStage_panic (i : Obj) (p : String) (h : AsStage i = .error p) :
    isLockPanic p = false := by
  unfold AsStage at h
  split at h
  · cases h
  · cases h
    decide

theorem asMachine_panic (i : Obj) (p : String) (h : AsMachine i = .error p) :
    isLockPanic p = false := by
  unfold AsMachine at h
  split at h
  · cases h
  · cases h
    decide

theorem asProfile_panic (i : Obj) (p : String) (h : AsProfile i = .error p) :
    isLockPanic p = false := by
  unfold AsProfile at h
  split at h
  · cases h
  · cases h
    decide

theorem asParam_panic (i : Obj) (p : String) (h : AsParam i = .error p) :
    isLockPanic p = false := by
  unfold AsParam at h
  split at h
  · cases h
  · cases h
    decide

theorem hasTask_panic (i : Obj) (name p : String) (h : HasTask i name = .error p) :
    isLockPanic p = false := by
  unfold HasTask at h
  split at h
  · cases h
  · cases h
  · cases h
    decide

theorem unknownArch_panic (arch : String) : isLockPanic ("Unknown arch " ++ arch) = false := by
  have h1 : ("Unknown arch " ++ arch) ≠ "nil pointer dereference" := by
    intro h
    have := congrArg String.data h
    simp [String.data_append] at this
  simp [isLockPanic, h1, String.data_append, List.isPrefixOf]

theorem pathFor_panic (env : Env) (b : BootEnv) (f arch p : String)
    (h : b.PathFor env f arch = .error p) : isLockPanic p = false := by
  simp only [BootEnv.PathFor] at h
  split at h
  · cases h
    exact unknownArch_panic arch
  · cases h

theorem afterSaveStages_panic (env : Env) (b : BootEnv) (l done : List Obj)
    (acc : AfterSaveResult) (p : String)
    (h : (afterSaveStages env b done l acc).panic = some p) :
    acc.panic = some p ∨ isLockPanic p = false := by
  induction l generalizing done acc with
  | nil => exact Or.inl h
  | cons i rest ih =>
    unfold afterSaveStages at h
    split at h
    · rename_i p1 hp1
      simp only [Option.some.injEq] at h
      subst h
      exact Or.inr (asStage_panic _ _ hp1)
    · split at h
      · exact ih _ _ h
      · have h1 := ih _ _ h
        exact h1

theorem afterSave_panic (env : Env) (rt : RequestTracker) (held : List String) (b : BootEnv)
    (p : String) (hd : rt.d = some held) (h : (b.AfterSave env rt).panic = some p) :
    isLockPanic p = false := by
  simp only [BootEnv.AfterSave, hd, Option.isNone_some, Bool.false_eq_true, if_false] at h
  split at h
  · cases h
  · rcases afterSaveStages_panic _ _ _ _ _ _ h with h1 | h1
    · cases h1
    · exact h1

theorem bootEnvMachines_panic (b : BootEnv) (l : List Obj) (e : Error) (p : String)
    (h : bootEnvMachines b l e = .error p) : isLockPanic p = false := by
  induction l generalizing e with
  | nil => cases h
  | cons i rest ih =>
    unfold bootEnvMachines at h
    split at h
    · rename_i p1 hp1
      cases h
      exact asMachine_panic _ _ hp1
    · split at h
      · exact ih _ h
      · exact ih _ h

theorem bootEnvStages_panic (b : BootEnv) (l : List Obj) (e : Error) (p : String)
    (h : bootEnvStages b l e = .error p) : isLockPanic p = false := by
  induction l generalizing e with
  | nil => cases h
  | cons i rest ih =>
    unfold bootEnvStages at h
    split at h
    · rename_i p1 hp1
      cases h
      exact asStage_panic _ _ hp1
    · split at h
      · exact ih _ h
      · exact ih _ h

theorem bootEnv_beforeDelete_panic (rt : RequestTracker) (held : List String) (b : BootEnv)
    (p : String) (hd : rt.d = some held) (hm : "machines" ∈ held) (hs : "stages" ∈ held)
    (h : b.BeforeDelete rt = .error p) : isLockPanic p = false := by
  simp only [BootEnv.BeforeDelete, stores_locked rt held _ hd hm, stores_locked rt held _ hd hs] at h
  split at h
  · split at h
    · rename_i p1 hp1
      cases h
      exact bootEnvMachines_panic _ _ _ _ hp1
    · split at h
      · rename_i p1 hp1
        cases h
        exact bootEnvStages_panic _ _ _ _ hp1
      · cases h
  · cases h

theorem taskUsers_panic (t : Task) (l : List Obj) (e : Error) (p : String)
    (h : taskUsers t l e = .error p) : isLockPanic p = false := by
  induction l generalizing e with
  | nil => cases h
  | cons j rest ih =>
    unfold taskUsers at h
    split at h
    · rename_i p1 hp1
      cases h
      exact hasTask_panic _ _ _ hp1
    · exact ih _ h
    · exact ih _ h

theorem task_beforeDelete_panic (rt : RequestTracker) (held : List String) (t : Task)
    (p : String) (hd : rt.d = some held) (hm : "machines" ∈ held) (hs : "stages" ∈ held)
    (h : t.BeforeDelete rt = .error p) : isLockPanic p = false := by
  simp only [Task.BeforeDelete, taskPrefixes, stores_locked rt held _ hd hm,
    stores_locked rt held _ hd hs] at h
  split at h
  · rename_i p1 hp1
    cases h
    split at hp1
    · rename_i p2 hp2
      cases hp1
      exact taskUsers_panic _ _ _ _ hp2
    · split at hp1
      · rename_i p2 hp2
        cases hp1
        exact taskUsers_panic _ _ _ _ hp2
      · cases hp1
  · cases h

theorem taskStages_panic (t : Task) (l : List Obj) (p : String)
    (h : taskStages t l = .error p) : isLockPanic p = false := by
  induction l with
  | nil => cases h
  | cons i rest ih =>
    unfold taskStages at h
    split at h
    · rename_i p1 hp1
      cases h
      exact asStage_panic _ _ hp1
    · split at h
      · rename_i p1 hp1
        cases h
        exact ih hp1
      · cases h

theorem task_validate_panic (rt : RequestTracker) (held : List String) (t : Task) (p : String)
    (hd : rt.d = some held) (h : t.Validate rt = .error p) : isLockPanic p = false := by
  simp only [Task.Validate, hd, Option.isNone_some, Bool.false_eq_true, if_false] at h
  split at h
  · cases h
  · exact taskStages_panic _ _ _ h

theorem find_locked (env : Env) (rt : RequestTracker) (pfx key : String) (s : Store)
    (hs : stores rt pfx = some s) : ∃ r, find env rt pfx key = .ok r := by
  simp only [find, hs]
  split
  · split
    · exact ⟨_, rfl⟩
    · exact ⟨_, rfl⟩
  · exact ⟨_, rfl⟩

theorem Find_locked (env : Env) (rt : RequestTracker) (pfx key : String) (s : Store)
    (hs : stores rt pfx = some s) : ∃ r, Find env rt pfx key = .ok r := by
  obtain ⟨r, hr⟩ := find_locked env rt pfx key s hs
  exact ⟨r.map Obj.clearRT, by simp [Find, hr]⟩

theorem subObjs_profile (env : Env) (rt : RequestTracker) (held : List String) (o : Obj)
    (pr : Profile) (hd : rt.d = some held) (hp : "profiles" ∈ held)
    (ho : o.body = Body.profile pr) : ∃ subs, subObjs env rt o = .ok subs := by
  obtain ⟨g, hg⟩ := Find_locked env rt "profiles" rt.GlobalProfileName _
    (stores_locked rt held _ hd hp)
  exact ⟨g.toList, by simp [subObjs, ho, findProfiles, hg]⟩

theorem getParam_panic (env : Env) (rt : RequestTracker) (held : List String) (o : Obj)
    (pr : Profile) (key p : String) (hd : rt.d = some held) (hp : "profiles" ∈ held)
    (hq : "params" ∈ held) (ho : o.body = Body.profile pr)
    (h : (GetParam env rt o key true false).panic = some p) : isLockPanic p = false := by
  obtain ⟨subs, hsubs⟩ := subObjs_profile env rt held o pr hd hp ho
  obtain ⟨r, hr⟩ := Find_locked env rt "params" key _ (stores_locked rt held _ hd hq)
  simp only [GetParam, getAggParams, hsubs, hr] at h
  simp only [Bool.not_true, Bool.false_eq_true, if_false, if_true] at h
  split at h
  · simp [decryptParam] at h
  · cases r with
    | none => simp at h
    | some pobj =>
      simp only at h
      split at h
      · rename_i p1 hp1
        simp only [Option.some.injEq] at h
        subst h
        exact asParam_panic _ _ hp1
      · simp at h

theorem bindInstallRepo_panic (env : Env) (rt : RequestTracker) (b : BootEnv) (l : List Repo)
    (p : String) (h : bindInstallRepo env rt b l = .error p) : isLockPanic p = false := by
  induction l with
  | nil => cases h
  | cons r rest ih =>
    unfold bindInstallRepo at h
    split at h
    · exact ih h
    · simp only at h
      split at h
      · exact ih h
      · split at h
        · rename_i p1 hp1
          cases h
          exact pathFor_panic _ _ _ _ _ hp1
        · cases h

theorem fillInstallRepos_panic (env : Env) (rt : RequestTracker) (held : List String)
    (b : BootEnv) (p : String) (hd : rt.d = some held) (hp : "profiles" ∈ held)
    (hq : "params" ∈ held) (h : b.fillInstallRepos env rt = .error p) :
    isLockPanic p = false := by
  obtain ⟨g, hg⟩ := find_locked env rt "profiles" rt.GlobalProfileName _
    (stores_locked rt held _ hd hp)
  simp only [BootEnv.fillInstallRepos, hg] at h
  split at h
  · cases h
  · split at h
    · cases h
    · cases g with
      | none => cases h
      | some o =>
        simp only at h
        split at h
        · rename_i p1 hp1
          cases h
          exact asProfile_panic _ _ hp1
        · rename_i pr hpr
          have ho : o.body = Body.profile pr := by
            unfold AsProfile at hpr
            split at hpr
            · rename_i x hx
              cases hpr
              exact hx
            · cases hpr
          split at h
          · rename_i p1 hp1
            cases h
            exact getParam_panic env rt held o pr _ _ hd hp hq ho hp1
          · split at h
            · cases h
            · split at h
              · cases h
              · exact bindInstallRepo_panic _ _ _ _ _ h

theorem renderMachines_panic (env : Env) (rt : RequestTracker) (l : List Obj) (b : BootEnv)
    (p : String) (h : renderMachines env rt l b = .error p) : isLockPanic p = false := by
  induction l generalizing b with
  | nil => cases h
  | cons i rest ih =>
    unfold renderMachines at h
    split at h
    · rename_i p1 hp1
      cases h
      exact asMachine_panic _ _ hp1
    · split at h
      · exact ih _ h
      · exact ih _ h

theorem bootEnv_validate_panic (env : Env) (rt : RequestTracker) (held : List String)
    (b : BootEnv) (p : String) (hd : rt.d = some held) (hb : "bootenvs" ∈ held)
    (hp : "profiles" ∈ held) (hq : "params" ∈ held) (h : b.Validate env rt = .error p) :
    isLockPanic p = false := by
  simp only [BootEnv.Validate, stores_locked rt held _ hd hb] at h
  split at h
  · cases h
  · split at h
    · rename_i p1 hp1
      cases h
      exact fillInstallRepos_panic env rt held _ _ hd hp hq hp1
    · split at h
      · cases h
      · split at h
        · cases h
        · split at h
          · rename_i p1 hp1
            cases h
            exact renderMachines_panic _ _ _ _ _ hp1
          · cases h

/-- Without the lock on the bootenvs store, `BootEnv.Validate` dereferences a
store that is nil. -/
theorem validate_needs_the_bootenvs_lock :
    (ubuntuS1 []).Validate (sampleEnv []) rtNoLocks = .error "nil pointer dereference" ∧
      isLockPanic "nil pointer dereference" = true := by
  decide

/-- C28: the lock sets cover the hooks.  For each of the actions create, update
and patch, `Locks(action)` of a boot environment contains bootenvs, machines,
stages, profiles and params, and that of a task contains stages; for delete,
both contain machines and stages.  In a tracker whose locked stores include
the declared lock set of the action, the hooks of the model for that action
(`Validate` and `AfterSave` of a boot environment and `Validate` of a task on
a save, `BeforeDelete` of either on a delete) never end in the panic
`Missing requested lock` nor in the dereference of a store that is nil. -/
theorem C28_lock_sets_cover_the_hooks (env : Env) (rt : RequestTracker) (held : List String)
    (hd : rt.d = some held) :
    (∀ action ∈ saveActions,
      (∀ p ∈ ["bootenvs", "machines", "stages", "profiles", "params"], p ∈ BootEnv.Locks action) ∧
      "stages" ∈ Task.Locks action) ∧
    (∀ p ∈ ["machines", "stages"], p ∈ BootEnv.Locks "delete" ∧ p ∈ Task.Locks "delete") ∧
    (∀ action ∈ saveActions, (∀ p ∈ BootEnv.Locks action, p ∈ held) →
      ∀ (b : BootEnv) (p : String),
        (b.Validate env rt = .error p → isLockPanic p = false) ∧
        ((b.AfterSave env rt).panic = some p → isLockPanic p = false)) ∧
    ((∀ p ∈ BootEnv.Locks "delete", p ∈ held) →
      ∀ (b : BootEnv) (p : String), b.BeforeDelete rt = .error p → isLockPanic p = false) ∧
    (∀ action ∈ saveActions, (∀ p ∈ Task.Locks action, p ∈ held) →
      ∀ (t : Task) (p : String), t.Validate rt = .error p → isLockPanic p = false) ∧
    ((∀ p ∈ Task.Locks "delete", p ∈ held) →
      ∀ (t : Task) (p : String), t.BeforeDelete rt = .error p → isLockPanic p = false) := by
  have hcover : ∀ action ∈ saveActions,
      (∀ p ∈ ["bootenvs", "machines", "stages", "profiles", "params"], p ∈ BootEnv.Locks action) ∧
      "stages" ∈ Task.Locks action := by decide
  have hdel : ∀ p ∈ ["machines", "stages"],
      p ∈ BootEnv.Locks "delete" ∧ p ∈ Task.Locks "delete" := by decide
  refine ⟨hcover, hdel, ?_, ?_, ?_, ?_⟩
  · intro action ha hheld b p
    have hc := (hcover action ha).1
    exact ⟨bootEnv_validate_panic env rt held b p hd (hheld _ (hc _ (by simp)))
        (hheld _ (hc _ (by simp))) (hheld _ (hc _ (by simp))),
      afterSave_panic env rt held b p hd⟩
  · intro hheld b p
    exact bootEnv_beforeDelete_panic rt held b p hd (hheld _ (hdel _ (by simp)).1)
      (hheld _ (hdel _ (by simp)).1)
  · intro action _ _ t p
    exact task_validate_panic rt held t p hd
  · intro hheld t p
    exact task_beforeDelete_panic rt held t p hd (hheld _ (hdel _ (by simp)).2)
      (hheld _ (hdel _ (by simp)).2)

theorem C28_lock_sets_cover_the_hooks_witness :
    rtS1.d = some (canonicalLocks (BootEnv.Locks "create")) ∧
      (ubuntuS1 []).Validate (sampleEnv []) rtS1 ≠ .error "nil pointer dereference" :=
  ⟨rfl, fun h =>
    absurd
      (((C28_lock_sets_cover_the_hooks (sampleEnv []) rtS1 (canonicalLocks (BootEnv.Locks "create"))
        rfl).2.2.1 "create" (by decide) (by decide) (ubuntuS1 []) "nil pointer dereference").1 h)
      (by decide)⟩

/-! ### A patch that renames the object -/

/-- C12: code evaluated at the failing input.  Inside `Do` with publishers
configured, `Patch` is called for the key `defaultBootEnv` with a patch that
replaces the name by `unknownBootEnv`, and the store library reports success.
`Patch` returns the patched object without an error and queues exactly one
`update` event, but the event has the key `defaultBootEnv` while its payload,
the written object, has the key `unknownBootEnv`; the Index keeps the former
object under `defaultBootEnv`, so that a lookup of that key does not return the
written object, and the written object has replaced the preference
`unknownBootEnv`.  `Update` of the same object queues its event under the key
of the object, where the lookup finds it. -/
theorem C12_patch_that_renames_the_object :
    renamingPatch.saved = true ∧ renamingPatch.err = none ∧ renamingPatch.panic = none ∧
      renamingPatch.call =
        some { saved := true, obj := { body := Body.other "preferences" "unknownBootEnv" 1, rt := true } } ∧
      renamingPatch.model = some renamedPref ∧
      events renamingPatch.rt.toRunAfter =
        [Queued.publish "preferences" "update" "defaultBootEnv" (some renamedPref)] ∧
      renamedPref.Key = "unknownBootEnv" ∧
      find renamingEnv renamingPatch.rt "preferences" "defaultBootEnv" =
        .ok (some { body := Body.other "preferences" "defaultBootEnv" 1 }) ∧
      find renamingEnv renamingPatch.rt "preferences" "unknownBootEnv" = .ok (some renamedPref) ∧
      find renamingEnv rtTwoPrefs "preferences" "unknownBootEnv" =
        .ok (some { body := Body.other "preferences" "unknownBootEnv" 2 }) ∧
      events (Update (sampleEnv []) rtTwoPrefs renamedPref).rt.toRunAfter =
        [Queued.publish "preferences" "update" "unknownBootEnv" (some renamedPref)] ∧
      find (sampleEnv []) (Update (sampleEnv []) rtTwoPrefs renamedPref).rt "preferences"
          "unknownBootEnv" = .ok (some renamedPref) := by
  decide

/-! ### The index at the time of `AfterDelete` -/

theorem mem_setFirst (key : String) (o item : Obj) (s : Store)
    (h : Store.Find s key = some item) : o ∈ Store.setFirst key o s := by
  induction s with
  | nil => simp [Store.Find] at h
  | cons x xs ih =>
    by_cases hk : x.Key = key
    · simp [Store.setFirst, hk]
    · have h1 : Store.Find xs key = some item := by
        simpa [Store.Find, List.find?, hk] using h
      simp [Store.setFirst, hk, ih h1]

theorem eqCount_zero (name : String) (items : List Obj)
    (h : eqCount bootEnvOsNameIndex name items = .ok (some 0)) :
    ∀ o ∈ items, ∀ x : BootEnv, o.body = Body.bootenv x → x.OS.Name ≠ name := by
  induction items with
  | nil => simp
  | cons i rest ih =>
    have hfill : bootEnvOsNameIndex.fill name = .ok { OS := { Name := name } } := rfl
    simp only [eqCount, hfill] at h
    split at h
    · cases h
    · rename_i s hs
      split at h
      · cases h
      · cases h
      · rename_i n hn
        rw [osName_probes] at h
        have hbody : i.body = Body.bootenv s := by
          unfold AsBootEnv at hs
          split at hs
          · rename_i x hx
            cases hs
            exact hx
          · cases hs
        by_cases hx : s.OS.Name = name
        · simp [hx] at h
        · simp only [hx, decide_False, Bool.false_eq_true, if_false, Except.ok.injEq,
            Option.some.injEq] at h
          subst h
          intro o ho x hox
          rcases List.mem_cons.mp ho with rfl | ho1
          · rw [hbody] at hox
            cases hox
            exact hx
          · exact ih hn o ho1 x hox

/-- The call of `AfterDelete` that `Remove` of a boot environment leads to
never removes a dynamic tree: the item is still in the index that the hook
queries for the boot environments with its OS name. -/
theorem afterDeleteOfRemove_never_prunes (env : Env) (rt : RequestTracker) (obj : Obj)
    (res : BootEnv × List FsOp) (hpfx : obj.Prefix = "bootenvs")
    (h : afterDeleteOfRemove env rt obj = some (.ok res)) :
    ∀ p, FsOp.DelDynamicTree p ∉ res.2 := by
  unfold afterDeleteOfRemove at h
  split at h
  · cases h
  · rename_i x hx
    obtain ⟨h1, h2, -, h4, h5⟩ := spkibrt_ok hx
    split at h
    · cases h
    · rename_i item hitem
      simp only at h
      split at h
      · split at h
        · rename_i b hb
          simp only [Option.some.injEq] at h
          have hfind : Store.Find x.idx x.key = some item := by
            rw [h2, ← h5, hitem]
          have hmem : item.setRT ∈ Store.setFirst x.key item.setRT x.idx :=
            mem_setFirst _ _ _ _ hfind
          have hst : stores
              { rt with objs := setStore rt.objs x.pfx (Store.setFirst x.key item.setRT x.idx) }
              "bootenvs" = some (Store.setFirst x.key item.setRT x.idx) := by
            have h6 : stores rt "bootenvs" = some x.idx := by rw [← hpfx]; exact h4
            have h7 : x.pfx = "bootenvs" := by rw [h1, hpfx]
            exact stores_setStore_same _ _ h6 rfl (by rw [h7])
          simp only [BootEnv.AfterDelete, hst] at h
          split at h
          · split at h
            · cases h
            · rename_i hcount
              exfalso
              have hz := eqCount_zero _ _ hcount item.setRT hmem b (by simpa [Obj.setRT] using hb)
              split at hz <;> exact hz rfl
            · intro p hp
              rename_i hne
              cases h
              split at hp <;> simp at hp
          · cases h
            intro p hp
            simp at hp
        · cases h
      · cases h

/-- C23: code evaluated at the failing input.  `Remove` of `sledgehammer`, a
boot environment with `OnlyUnknown` set and the only one of its OS, inside `Do`
with the locks of the delete action: the remove succeeds and leaves no boot
environment in the index, yet the `AfterDelete` it leads to only deregisters
the renderers and does not remove the dynamic tree of the arch, because the
index it queries then still holds `sledgehammer`.  Called on the tracker as
`Remove` leaves it, `AfterDelete` removes the tree at `/sledgehammer`. -/
theorem C23_the_last_boot_environment_keeps_its_tree :
    (Remove (sampleEnv []) rtSledge { body := Body.bootenv sledgehammer }).saved = true ∧
      (Remove (sampleEnv []) rtSledge { body := Body.bootenv sledgehammer }).panic = none ∧
      getStore (Remove (sampleEnv []) rtSledge { body := Body.bootenv sledgehammer }).rt.objs
        "bootenvs" = [] ∧
      afterDeleteOfRemove (sampleEnv []) rtSledge { body := Body.bootenv sledgehammer } =
        some (.ok (sledgehammer, [FsOp.deregister [{ path := "pxelinux.cfg/default" }]])) ∧
      sledgehammer.PathFor (sampleEnv []) "" "amd64" = .ok "/sledgehammer" ∧
      sledgehammer.AfterDelete (sampleEnv [])
          (Remove (sampleEnv []) rtSledge { body := Body.bootenv sledgehammer }).rt =
        .ok (sledgehammer,
          [FsOp.deregister [{ path := "pxelinux.cfg/default" }],
           FsOp.DelDynamicTree "/sledgehammer"]) := by
  decide

end Provision
